import Mathlib

/-!
# Palletizing: the placement engine of `stacking_algorithm.hpp`

A shallow embedding of the box-placement engine (`parseBoxSize`, `BoxPlacement`,
`StackingAlgorithm`) together with theorems about its strategies.

Conventions of the embedding.

* A C++ `int` is an `Int`.  The products of three box dimensions (`fit_score` in
  `find_best_fit_from_buffer`, `vol_a` and `vol_b` in the sort comparator) leave the `int`
  range for sizes a container can hold, so they are formed in 32-bit two's-complement
  arithmetic (`int_mul`); a theorem that speaks of the volume `w * l * h` carries the
  hypothesis that the product is inside the range.  Sums and differences of a coordinate
  and an extent are taken exactly.
* A computation of type `Option α` returns `none` when the C++ call returns nothing
  defined: an out-of-range `operator[]`, a `for`/`while` loop that does not terminate
  normally, or an exception that leaves the call.  The configuration requires a positive
  gap; with a gap that is not positive a search loop that finds nothing within its budget
  of tests also returns `none`.
* `std::ceil(n / 2.0)` for an `int n` is exact in `double`; it is `ceilHalf n`.
* The container is always built from three dimensions, so `pallet_size` is a triple.
-/

namespace Palletizing

/-! ## `parseBoxSize` -/

/-- The characters `std::isspace` accepts in the C locale. -/
def isSpaceChar (c : Char) : Bool :=
  c == ' ' || c == '\t' || c == '\n' || c == '\x0b' || c == '\x0c' || c == '\r'

/-- Value of a run of decimal digits, most significant first. -/
def digitsValue (ds : List Char) : Nat :=
  ds.foldl (fun acc c => 10 * acc + (c.toNat - 48)) 0

/-- The function `std::stoi(item)` in base 10: leading white space is skipped, an optional
sign is read, then the longest run of digits; what follows is ignored.  `none` stands for
the two exceptions (`invalid_argument` when there is no digit, `out_of_range` when the
value does not fit an `int`). -/
def stoi (item : List Char) : Option Int :=
  let s := item.dropWhile isSpaceChar
  let signed : Bool × List Char :=
    match s with
    | '-' :: t => (true, t)
    | '+' :: t => (false, t)
    | _ => (false, s)
  let ds := signed.2.takeWhile Char.isDigit
  if ds.isEmpty then none
  else
    let v : Int := (digitsValue ds : Nat)
    let r : Int := if signed.1 then -v else v
    if r < -2147483648 ∨ 2147483647 < r then none else some r

/-- The items `while (std::getline(ss, item, ','))` yields: the text between commas, and no
item for an empty remainder at the end of the stream.  `acc` is the current item, reversed. -/
def getlineItems : List Char → List Char → List (List Char)
  | acc, [] => if acc.isEmpty then [] else [acc.reverse]
  | acc, c :: cs =>
    if c = ',' then acc.reverse :: getlineItems [] cs else getlineItems (c :: acc) cs

/-- The function `parseBoxSize`: brackets are erased, the rest is split at commas and every
item `std::stoi` accepts is appended; an item that throws is reported and skipped. -/
def parseBoxSize (sizeStr : String) : List Int :=
  let cleanStr := sizeStr.toList.filter (fun c => c != '[' && c != ']')
  (getlineItems [] cleanStr).filterMap stoi

/-! ## Data of the engine -/

/-- One input record: the map with keys `"box_id"` and `"box_size"`. -/
structure Box where
  box_id : String
  box_size : String
deriving DecidableEq, Repr

/-- The struct `StackResult`. -/
structure StackResult where
  box_id : String
  box_loc : Int × Int × Int
  box_rot : Int
  pallet_id : Int
deriving DecidableEq, Repr

/-- An accepted entry `(x, y, z, width, length, height)` of a placement list. -/
abbrev Placement := Int × Int × Int × Int × Int × Int

/-- A sorting routine on the vector `sorted_boxes` of `optimized_stack`: it takes the
comparator and the vector and returns the rearranged vector. -/
abbrev StdSort :=
  ((String × List Int) → (String × List Int) → Bool) →
    List (String × List Int) → List (String × List Int)

/-- The value `std::ceil(n / 2.0)`. -/
def ceilHalf (n : Int) : Int := (n + 1) / 2

/-- The `int` that 32-bit two's-complement arithmetic gives for the exact result `n`: `n`
itself when `-2^31 ≤ n < 2^31`, and `n` reduced modulo `2^32` into that range
otherwise. -/
def wrapInt (n : Int) : Int := (n + 2147483648) % 4294967296 - 2147483648

/-- The product `a * b` of two `int`s, of type `int`. -/
def int_mul (a b : Int) : Int := wrapInt (a * b)

/-! ## Loops over candidate corners -/

/-- The loop `for (int i = i0; i <= bound; i += step)` whose body either finds a result
(which ends the search), finds none (next iteration), or has no defined result.  The
first argument bounds the number of loop tests. -/
def scanFrom {α : Type} (body : Int → Option (Option α)) (step bound : Int) :
    Nat → Int → Option (Option α)
  | 0, _ => none
  | fuel + 1, i =>
    if i ≤ bound then
      match body i with
      | none => none
      | some (some r) => some (some r)
      | some none => scanFrom body step bound fuel (i + step)
    else some none

/-- The loop `for (int i = 0; i <= bound; i += step)`.  With a positive stride the loop
makes at most `bound + 2` tests, so the budget below is never exhausted (`scan_defined`).
With a stride that is not positive the C++ loop never fails its own test; the model then
stops with no result once the budget is used. -/
def scan {α : Type} (body : Int → Option (Option α)) (step bound : Int) : Option (Option α) :=
  scanFrom body step bound ((bound + 1).toNat + 1) 0

/-- The nest `for z … for y … for x …` over candidate corners, as written in
`stack_all_boxes`, `try_place_in_main` and `tryPlaceBox`: the first corner, `z` outermost
and `x` innermost, at which `body x y z` finds a result. -/
def scan3 {α : Type} (body : Int → Int → Int → Option (Option α))
    (step xBound yBound zBound : Int) : Option (Option α) :=
  scan (fun z => scan (fun y => scan (fun x => body x y z) step xBound) step yBound) step zBound

/-- The loop `for (int i = i0; i <= bound; i += step)` whose body updates a state and
never leaves the loop early.  The first argument bounds the number of loop tests. -/
def foldFrom {σ : Type} (body : Int → σ → Option σ) (step bound : Int) :
    Nat → Int → σ → Option σ
  | 0, _, _ => none
  | fuel + 1, i, s =>
    if i ≤ bound then
      match body i s with
      | none => none
      | some s1 => foldFrom body step bound fuel (i + step) s1
    else some s

/-- The loop `for (int i = 0; i <= bound; i += step)` updating a state; the budget is the
one of `scan`. -/
def foldScan {σ : Type} (body : Int → σ → Option σ) (step bound : Int) (s : σ) : Option σ :=
  foldFrom body step bound ((bound + 1).toNat + 1) 0 s

/-! ## Brute-force overlap checker -/

/-- The function `StackingAlgorithm::is_overlap`. -/
def is_overlap (new_box : Placement) : List Placement → Bool
  | [] => false
  | placement :: rest =>
    match new_box, placement with
    | (bx, b_y, bz, bwidth, blength, bheight), (px, py, pz, pwidth, plength, pheight) =>
      if !(decide (bx + bwidth ≤ px) || decide (bx ≥ px + pwidth) ||
           decide (b_y + blength ≤ py) || decide (b_y ≥ py + plength) ||
           decide (bz + bheight ≤ pz) || decide (bz ≥ pz + pheight)) then true
      else is_overlap new_box rest

/-! ## Collision grid: `BoxPlacement` -/

/-- The struct `BoxPlacement::PlacedBox`. -/
structure PlacedBox where
  position : Int × Int × Int
  size : List Int
  rotation : Int
deriving DecidableEq, Repr

/-- The class `BoxPlacement`; `grid_size` is the constant 5. -/
structure BoxPlacement where
  pallet_dimensions : Int × Int × Int
  grid_cells : List Bool
  placed_boxes : List PlacedBox
deriving DecidableEq, Repr

namespace BoxPlacement

/-- The member `grid_size`, set to 5 by the constructor. -/
def grid_size : Int := 5

/-- The constructor: a grid of `(W/5) * (L/5) * (H/5)` cells, all `false` (`/` is the
truncating division of C++).  A negative product makes `resize` throw. -/
def new (pallet_dims : Int × Int × Int) : Option BoxPlacement :=
  let n := pallet_dims.1.tdiv grid_size * pallet_dims.2.1.tdiv grid_size *
    pallet_dims.2.2.tdiv grid_size
  if 0 ≤ n then
    some { pallet_dimensions := pallet_dims, grid_cells := List.replicate n.toNat false,
           placed_boxes := [] }
  else none

/-- The method `getRotatedSize`: the first two entries are swapped when `rotation == 90`. -/
def getRotatedSize (original_size : List Int) (rotation : Int) : Option (List Int) :=
  if rotation = 90 then
    match original_size with
    | a :: b :: rest => some (b :: a :: rest)
    | _ => none
  else some original_size

/-- The method `isWithinBounds`, with the left-to-right evaluation of `&&`. -/
def isWithinBounds (g : BoxPlacement) (pos : Int × Int × Int) (size : List Int) :
    Option Bool :=
  match pos with
  | (x, y, z) =>
    if x ≥ 0 then
      match size with
      | [] => none
      | s0 :: t0 =>
        if x + s0 ≤ g.pallet_dimensions.1 then
          if y ≥ 0 then
            match t0 with
            | [] => none
            | s1 :: t1 =>
              if y + s1 ≤ g.pallet_dimensions.2.1 then
                if z ≥ 0 then
                  match t1 with
                  | [] => none
                  | s2 :: _ => some (decide (z + s2 ≤ g.pallet_dimensions.2.2))
                else some false
              else some false
          else some false
        else some false
    else some false

/-- The values of `for (int c = lo; c <= hi; c++)`, in order. -/
def cellRange (lo hi : Int) : List Int :=
  (List.range (hi - lo + 1).toNat).map (fun (k : Nat) => lo + (k : Int))

/-- The flattened index `idx` computed in `hasOverlap` and `markGridCells` for the
container `dims`. -/
def cellIndex (dims : Int × Int × Int) (x y z : Int) : Int :=
  z * dims.1.tdiv grid_size * dims.2.1.tdiv grid_size + y * dims.1.tdiv grid_size + x

/-- The indices the loops of `hasOverlap` and `markGridCells` visit, in visiting order,
for a box of size `(s0, s1, s2)` at `pos`. -/
def cellIndices (dims : Int × Int × Int) (pos : Int × Int × Int) (s0 s1 s2 : Int) :
    List Int :=
  (cellRange (pos.2.2.tdiv grid_size) ((pos.2.2 + s2).tdiv grid_size)).flatMap fun z =>
    (cellRange (pos.2.1.tdiv grid_size) ((pos.2.1 + s1).tdiv grid_size)).flatMap fun y =>
      (cellRange (pos.1.tdiv grid_size) ((pos.1 + s0).tdiv grid_size)).map fun x =>
        cellIndex dims x y z

/-- Reading `grid_cells[idx]` for the given indices in order until one is set; an index
outside the vector has no defined value. -/
def readCells (cells : List Bool) : List Int → Option Bool
  | [] => some false
  | idx :: rest =>
    if 0 ≤ idx ∧ idx < cells.length then
      if cells.getD idx.toNat false then some true else readCells cells rest
    else none

/-- Writing `grid_cells[idx] = value` for the given indices in order. -/
def writeCells (value : Bool) : List Bool → List Int → Option (List Bool)
  | cells, [] => some cells
  | cells, idx :: rest =>
    if 0 ≤ idx ∧ idx < cells.length then
      writeCells value (cells.set idx.toNat value) rest
    else none

/-- The method `hasOverlap`. -/
def hasOverlap (g : BoxPlacement) (pos : Int × Int × Int) (size : List Int) : Option Bool :=
  match size with
  | s0 :: s1 :: s2 :: _ => readCells g.grid_cells (cellIndices g.pallet_dimensions pos s0 s1 s2)
  | _ => none

/-- The method `markGridCells`. -/
def markGridCells (g : BoxPlacement) (pos : Int × Int × Int) (size : List Int)
    (value : Bool) : Option BoxPlacement :=
  match size with
  | s0 :: s1 :: s2 :: _ =>
    (writeCells value g.grid_cells (cellIndices g.pallet_dimensions pos s0 s1 s2)).map
      fun cells => { g with grid_cells := cells }
  | _ => none

/-- The method `canPlaceBox`. -/
def canPlaceBox (g : BoxPlacement) (box_size : List Int) (position : Int × Int × Int)
    (rotation : Int) : Option Bool :=
  match getRotatedSize box_size rotation with
  | none => none
  | some rotated_size =>
    match isWithinBounds g position rotated_size with
    | none => none
    | some false => some false
    | some true => (hasOverlap g position rotated_size).map (fun b => !b)

/-- The method `placeBox`. -/
def placeBox (g : BoxPlacement) (box_size : List Int) (position : Int × Int × Int)
    (rotation : Int) : Option BoxPlacement :=
  match getRotatedSize box_size rotation with
  | none => none
  | some rotated_size =>
    (markGridCells g position rotated_size true).map fun g1 =>
      { g1 with placed_boxes := g1.placed_boxes ++
          [{ position := position, size := rotated_size, rotation := rotation }] }

end BoxPlacement

/-! ## The engine -/

/-- The fields of `StackingAlgorithm`. -/
structure StackingAlgorithm where
  boxes : List Box
  pallet_size : Int × Int × Int
  stacking_interval : Int
  placement_manager : Option BoxPlacement
  final_placements : List StackResult
  main_placements : List Placement
  buffer_placements : List Placement
  used_boxes : List String
  buffer_count : Int
deriving DecidableEq, Repr

namespace StackingAlgorithm

/-- The constant `MAX_BUFFER_COUNT`. -/
def MAX_BUFFER_COUNT : Int := 100

/-- The constructor: configuration as given, every list empty, `buffer_count = 0`. -/
def new (boxes : List Box) (pallet_size : Int × Int × Int) (box_gap : Int) :
    StackingAlgorithm :=
  { boxes := boxes, pallet_size := pallet_size, stacking_interval := box_gap,
    placement_manager := none, final_placements := [], main_placements := [], buffer_placements := [],
    used_boxes := [], buffer_count := 0 }

/-- The entry a strategy pushes for a box of size `(width, length, height)` accepted at
corner `(x, y, z)`: the box padded by the stacking interval on every axis. -/
def padded (gap x y z width length height : Int) : Placement :=
  (x, y, z, width + gap, length + gap, height + gap)

/-- The result record for a box accepted at corner `(x, y, z)` with rotation 0. -/
def resultAt (box_id : String) (x y z width length : Int) (pallet_id : Int) : StackResult :=
  { box_id := box_id, box_loc := (x + ceilHalf width, y + ceilHalf length, z),
    box_rot := 0, pallet_id := pallet_id }

/-! ### Greedy-Fill-All: `stack_all_boxes` -/

/-- The primary scan of `stack_all_boxes` (lines 477-511): the first corner in the nest
`z, y, x` at which the box itself does not overlap an entry of `placements`. -/
def primary_scan (e : StackingAlgorithm) (placements : List Placement)
    (width length height : Int) : Option (Option (Int × Int × Int)) :=
  scan3 (fun x y z =>
      some (if !is_overlap (x, y, z, width, length, height) placements
            then some (x, y, z) else none))
    e.stacking_interval (e.pallet_size.1 - width) (e.pallet_size.2.1 - length)
    (e.pallet_size.2.2 - height)

/-- The fallback scan of `stack_all_boxes` (lines 513-540): the first `z` at which the
box at corner `(0, 0, z)` does not overlap an entry of `placements`. -/
def fallback_scan (e : StackingAlgorithm) (placements : List Placement)
    (width length height : Int) : Option (Option Int) :=
  scan (fun z =>
      some (if !is_overlap (0, 0, z, width, length, height) placements then some z else none))
    e.stacking_interval (e.pallet_size.2.2 - height)

/-- One iteration of `for (const auto& box : boxes)` in `stack_all_boxes`, on the local
lists `(placements, out_placements)`. -/
def stack_all_step (e : StackingAlgorithm) (st : List Placement × List StackResult)
    (box : Box) : Option (List Placement × List StackResult) :=
  match parseBoxSize box.box_size with
  | width :: length :: height :: _ =>
    match primary_scan e st.1 width length height with
    | none => none
    | some (some (x, y, z)) =>
      some (st.1 ++ [padded e.stacking_interval x y z width length height],
            st.2 ++ [resultAt box.box_id x y z width length 1])
    | some none =>
      match fallback_scan e st.1 width length height with
      | none => none
      | some (some z) =>
        some (st.1 ++ [padded e.stacking_interval 0 0 z width length height],
              st.2 ++ [resultAt box.box_id 0 0 z width length 1])
      | some none => some st
  | _ => some st

/-- The local lists `(placements, out_placements)` of `stack_all_boxes` after the loop. -/
def stack_all_run (e : StackingAlgorithm) : Option (List Placement × List StackResult) :=
  e.boxes.foldlM (stack_all_step e) ([], [])

/-- The method `stack_all_boxes`: the returned `out_placements`. -/
def stack_all_boxes (e : StackingAlgorithm) : Option (List StackResult) :=
  (stack_all_run e).map Prod.snd

/-! ### Buffer-Then-Promote: `stack_with_buffer` -/

/-- The method `try_place_in_buffer`. -/
def try_place_in_buffer (e : StackingAlgorithm) (box : Box) :
    Option (Bool × StackingAlgorithm) :=
  match parseBoxSize box.box_size with
  | s0 :: s1 :: s2 :: _ =>
    match scan (fun y => scan (fun x =>
        some (if !is_overlap (x, y, 0, s0, s1, s2) e.buffer_placements
              then some (x, y) else none))
        e.stacking_interval (e.pallet_size.1 - s0))
      e.stacking_interval (e.pallet_size.2.1 - s1) with
    | none => none
    | some (some (x, y)) =>
      some (true,
        { e with
          buffer_placements :=
            e.buffer_placements ++ [padded e.stacking_interval x y 0 s0 s1 s2],
          final_placements := e.final_placements ++ [resultAt box.box_id x y 0 s0 s1 2],
          buffer_count := e.buffer_count + 1,
          used_boxes := e.used_boxes.insert box.box_id })
    | some none => some (false, e)
  | _ => some (false, e)

/-- The method `try_place_in_main`. -/
def try_place_in_main (e : StackingAlgorithm) (box : Box) :
    Option (Bool × StackingAlgorithm) :=
  match parseBoxSize box.box_size with
  | s0 :: s1 :: s2 :: _ =>
    match scan3 (fun x y z =>
        some (if !is_overlap (x, y, z, s0, s1, s2) e.main_placements
              then some (x, y, z) else none))
      e.stacking_interval (e.pallet_size.1 - s0) (e.pallet_size.2.1 - s1)
      (e.pallet_size.2.2 - s2) with
    | none => none
    | some (some (x, y, z)) =>
      some (true,
        { e with
          main_placements :=
            e.main_placements ++ [padded e.stacking_interval x y z s0 s1 s2],
          final_placements := e.final_placements ++ [resultAt box.box_id x y z s0 s1 1],
          used_boxes := e.used_boxes.insert box.box_id })
    | some none => some (false, e)
  | _ => some (false, e)

/-- The locals `best_box_id, best_box_size, best_location, best_fit_score` of
`find_best_fit_from_buffer`. -/
structure BestFit where
  best_box_id : String
  best_box_size : List Int
  best_location : Int × Int × Int
  best_fit_score : Int
deriving DecidableEq, Repr

/-- The body of the innermost loop of `find_best_fit_from_buffer` at corner `(x, y, z)`. -/
def best_fit_update (e : StackingAlgorithm) (box_id : String) (curr_sizes : List Int)
    (s0 s1 s2 x y z : Int) (b : BestFit) : BestFit :=
  if !is_overlap (x, y, z, s0, s1, s2) e.main_placements then
    if int_mul (int_mul s0 s1) s2 > b.best_fit_score then
      { best_box_id := box_id, best_box_size := curr_sizes, best_location := (x, y, z),
        best_fit_score := int_mul (int_mul s0 s1) s2 }
    else b
  else b

/-- One iteration of `for (const auto& placement : final_placements)` in
`find_best_fit_from_buffer`. -/
def best_fit_step (e : StackingAlgorithm) (b : BestFit) (placement : StackResult) :
    Option BestFit :=
  if placement.pallet_id = 2 then
    match e.boxes.find? (fun bx => bx.box_id == placement.box_id) with
    | some box =>
      match parseBoxSize box.box_size with
      | s0 :: s1 :: s2 :: rest =>
        foldScan (fun z => foldScan (fun y => foldScan (fun x b1 =>
              some (best_fit_update e placement.box_id (s0 :: s1 :: s2 :: rest)
                s0 s1 s2 x y z b1))
            e.stacking_interval (e.pallet_size.1 - s0))
          e.stacking_interval (e.pallet_size.2.1 - s1))
          e.stacking_interval (e.pallet_size.2.2 - s2) b
      | _ => none
    | none => some b
  else some b

/-- The method `find_best_fit_from_buffer`; the returned tuple is the first three fields. -/
def find_best_fit_from_buffer (e : StackingAlgorithm) : Option BestFit :=
  e.final_placements.foldlM (best_fit_step e)
    { best_box_id := "", best_box_size := [], best_location := (0, 0, 0),
      best_fit_score := 0 }

/-- One iteration of the loop that rebuilds `buffer_placements` (lines 408-429). -/
def rebuild_step (e : StackingAlgorithm) (acc : List Placement) (p : StackResult) :
    Option (List Placement) :=
  if p.pallet_id = 2 then
    match e.boxes.find? (fun bx => bx.box_id == p.box_id) with
    | some box_info =>
      match parseBoxSize box_info.box_size with
      | s0 :: s1 :: s2 :: _ =>
        some (acc ++ [(p.box_loc.1 - ceilHalf s0, p.box_loc.2.1 - ceilHalf s1, p.box_loc.2.2,
          s0 + e.stacking_interval, s1 + e.stacking_interval, s2 + e.stacking_interval)])
      | _ => none
    | none => some acc
  else some acc

/-- The method `move_best_fit_from_buffer_to_main`. -/
def move_best_fit_from_buffer_to_main (e : StackingAlgorithm) :
    Option (Bool × StackingAlgorithm) :=
  match find_best_fit_from_buffer e with
  | none => none
  | some best =>
    if best.best_box_id ≠ "" then
      match e.final_placements.findIdx?
          (fun r => decide (r.pallet_id = 2) && r.box_id == best.best_box_id) with
      | some i =>
        let erased := e.final_placements.eraseIdx i
        match erased.foldlM (rebuild_step e) [], best.best_box_size with
        | some rebuilt, s0 :: s1 :: s2 :: _ =>
          some (true,
            { e with
              buffer_count := e.buffer_count - 1,
              buffer_placements := rebuilt,
              main_placements := e.main_placements ++
                [padded e.stacking_interval best.best_location.1 best.best_location.2.1
                  best.best_location.2.2 s0 s1 s2],
              final_placements := erased ++
                [resultAt best.best_box_id best.best_location.1 best.best_location.2.1
                  best.best_location.2.2 s0 s1 1] })
        | _, _ => none
      | none => some (false, e)
    else some (false, e)

/-- One iteration of the fill loop of `stack_with_buffer` (lines 613-622). -/
def fill_step (e : StackingAlgorithm) (box : Box) : Option StackingAlgorithm :=
  if box.box_id ∈ e.used_boxes then some e
  else if e.buffer_count < MAX_BUFFER_COUNT then
    match try_place_in_buffer e box with
    | none => none
    | some (true, e1) => some e1
    | some (false, e1) => (try_place_in_main e1 box).map Prod.snd
  else (try_place_in_main e box).map Prod.snd

/-- The loop `while (move_best_fit_from_buffer_to_main()) {}`; the first argument bounds
the number of calls. -/
def promote : Nat → StackingAlgorithm → Option StackingAlgorithm
  | 0, _ => none
  | fuel + 1, e =>
    match move_best_fit_from_buffer_to_main e with
    | none => none
    | some (true, e1) => promote fuel e1
    | some (false, e1) => some e1

/-- Number of result entries that are in the buffer (`pallet_id == 2`). -/
def buffered (rs : List StackResult) : Nat :=
  (rs.filter (fun r => decide (r.pallet_id = 2))).length

/-- The method `stack_with_buffer`: the returned list and the engine after the call.  A
successful move erases one `pallet_id == 2` entry and adds none, so the promotion loop
makes at most one call more than there are such entries. -/
def stack_with_buffer (e : StackingAlgorithm) :
    Option (List StackResult × StackingAlgorithm) :=
  match e.boxes.foldlM fill_step e with
  | none => none
  | some e1 =>
    (promote (buffered e1.final_placements + 1) e1).map fun e2 => (e2.final_placements, e2)

/-! ### Sorted-Rotation-Optimized: `optimized_stack` -/

/-- The body of `for (int rot : rotations)` in `tryPlaceBox` for `rotations = {0, 90}`. -/
def try_rotations (g : BoxPlacement) (box_size : List Int) (pos : Int × Int × Int) :
    Option (Option ((Int × Int × Int) × Int × BoxPlacement)) :=
  match g.canPlaceBox box_size pos 0 with
  | none => none
  | some true => (g.placeBox box_size pos 0).map fun g1 => some (pos, 0, g1)
  | some false =>
    match g.canPlaceBox box_size pos 90 with
    | none => none
    | some true => (g.placeBox box_size pos 90).map fun g1 => some (pos, 90, g1)
    | some false => some none

/-- The method `tryPlaceBox` on the grid `g`: the accepted `position`, `rotation` and the
grid after `placeBox`, or no placement. -/
def tryPlaceBox (e : StackingAlgorithm) (g : BoxPlacement) (box_size : List Int) :
    Option (Option ((Int × Int × Int) × Int × BoxPlacement)) :=
  match box_size with
  | s0 :: s1 :: s2 :: _ =>
    scan3 (fun x y z => try_rotations g box_size (x, y, z))
      e.stacking_interval (e.pallet_size.1 - s0) (e.pallet_size.2.1 - s1)
      (e.pallet_size.2.2 - s2)
  | _ => none

/-- The value `a.second[0] * a.second[1] * a.second[2]` of the sort comparator, an `int`.
A size with fewer than three entries makes the comparator read out of range; a run with
such a size has no defined result in any case, because `tryPlaceBox` reads `box_size[2]`
of every entry. -/
def volume (size : List Int) : Int :=
  match size with
  | s0 :: s1 :: s2 :: _ => int_mul (int_mul s0 s1) s2
  | _ => 0

/-- The lambda passed to `std::sort` in `optimized_stack` (lines 644-648):
`vol_a > vol_b`. -/
def sort_comp (a b : String × List Int) : Bool :=
  decide (volume a.2 > volume b.2)

/-- One iteration of the placing loop of `optimized_stack` (lines 652-670), on the grid
and the local `results`. -/
def optimized_step (e : StackingAlgorithm) (st : BoxPlacement × List StackResult)
    (entry : String × List Int) : Option (BoxPlacement × List StackResult) :=
  match tryPlaceBox e st.1 entry.2 with
  | none => none
  | some none => some st
  | some (some (position, rotation, g1)) =>
    match entry.2 with
    | s0 :: s1 :: _ =>
      some (g1, st.2 ++ [{ box_id := entry.1,
                           box_loc := (position.1 + ceilHalf s0, position.2.1 + ceilHalf s1,
                                       position.2.2),
                           box_rot := rotation, pallet_id := 1 }])
    | _ => none

/-- The list `sorted_boxes` before sorting: id and parsed size of every box. -/
def sorted_boxes_input (e : StackingAlgorithm) : List (String × List Int) :=
  e.boxes.map fun box => (box.box_id, parseBoxSize box.box_size)

/-- The method `optimized_stack`: the returned `results` and the engine after the call.
`std_sort comp l` is the rearrangement `std::sort` makes of the vector `l` when called
with the comparator `comp`; the call in the source passes the lambda `sort_comp`.  The
standard library fixes the rearrangement only up to the order of elements that `comp`
does not order. -/
def optimized_stack (std_sort : StdSort) (e : StackingAlgorithm) :
    Option (List StackResult × StackingAlgorithm) :=
  match BoxPlacement.new e.pallet_size with
  | none => none
  | some g0 =>
    ((std_sort sort_comp (sorted_boxes_input e)).foldlM (optimized_step e) (g0, [])).map
      fun st => (st.2, { e with placement_manager := some st.1 })

/-- A stable sort (insertion sort) for the comparator `comp`: one rearrangement
`std::sort` may produce. -/
def stable_sort : StdSort :=
  fun comp l => l.insertionSort (fun a b => comp b a = false)

end StackingAlgorithm

/-! ## Predicates used in the statements -/

/-- The box `[x, x + w) × [y, y + l) × [z, z + h)` lies inside the container `dims`. -/
def boxWithin (dims : Int × Int × Int) (x y z w l h : Int) : Prop :=
  0 ≤ x ∧ x + w ≤ dims.1 ∧ 0 ≤ y ∧ y + l ≤ dims.2.1 ∧ 0 ≤ z ∧ z + h ≤ dims.2.2

/-- The footprint `[x, x + w) × [y, y + l)` lies inside the base of the container. -/
def footprintWithin (dims : Int × Int × Int) (x y w l : Int) : Prop :=
  0 ≤ x ∧ x + w ≤ dims.1 ∧ 0 ≤ y ∧ y + l ≤ dims.2.1

/-- A result record of Buffer-Then-Promote is well placed: it belongs to an input box of
size `(w, l, h)`, its corner is `anchor - (ceil(w/2), ceil(l/2), 0)`, and the box lies
inside the main container (pallet 1), or sits at `z = 0` with its footprint inside the
base of the buffer (pallet 2). -/
def StackingAlgorithm.wellPlaced (e : StackingAlgorithm) (r : StackResult) : Prop :=
  ∃ b ∈ e.boxes, b.box_id = r.box_id ∧ ∃ w l h : Int, ∃ rest : List Int,
    parseBoxSize b.box_size = w :: l :: h :: rest ∧
    ((r.pallet_id = 1 ∧
        boxWithin e.pallet_size (r.box_loc.1 - ceilHalf w) (r.box_loc.2.1 - ceilHalf l)
          r.box_loc.2.2 w l h) ∨
     (r.pallet_id = 2 ∧
        footprintWithin e.pallet_size (r.box_loc.1 - ceilHalf w) (r.box_loc.2.1 - ceilHalf l)
          w l ∧ r.box_loc.2.2 = 0))

/-- Invariant of a Buffer-Then-Promote run started from `e0`: the configuration is the one
of `e0` and every result record is well placed. -/
def BufferInv (e0 e : StackingAlgorithm) : Prop :=
  e.boxes = e0.boxes ∧ e.pallet_size = e0.pallet_size ∧
    e.stacking_interval = e0.stacking_interval ∧
    ∀ r ∈ e.final_placements, StackingAlgorithm.wellPlaced e0 r

/-- What `find_best_fit_from_buffer` has found so far is nothing (empty id), or an input
box with its parsed size and a corner at which the box lies inside the container. -/
def BestOK (e : StackingAlgorithm) (b : StackingAlgorithm.BestFit) : Prop :=
  b.best_box_id = "" ∨
    ∃ box ∈ e.boxes, box.box_id = b.best_box_id ∧ ∃ s0 s1 s2 : Int, ∃ rest : List Int,
      parseBoxSize box.box_size = s0 :: s1 :: s2 :: rest ∧
      b.best_box_size = s0 :: s1 :: s2 :: rest ∧
      boxWithin e.pallet_size b.best_location.1 b.best_location.2.1 b.best_location.2.2
        s0 s1 s2

/-- Two committed boxes, each taken as `[corner, corner + rotated size)`, meet on all
three axes. -/
def PlacedBox.intersects (a b : PlacedBox) : Prop :=
  a.position.1 < b.position.1 + b.size.getD 0 0 ∧
    b.position.1 < a.position.1 + a.size.getD 0 0 ∧
    a.position.2.1 < b.position.2.1 + b.size.getD 1 0 ∧
    b.position.2.1 < a.position.2.1 + a.size.getD 1 0 ∧
    a.position.2.2 < b.position.2.2 + b.size.getD 2 0 ∧
    b.position.2.2 < a.position.2.2 + a.size.getD 2 0

/-- A parsed size with three positive leading entries. -/
def positiveDims (size : List Int) : Prop :=
  ∃ w l h : Int, ∃ rest : List Int, size = w :: l :: h :: rest ∧ 0 < w ∧ 0 < l ∧ 0 < h

/-- Invariant of the grid during `optimized_stack`: every committed box has positive
size, a non-negative corner, and all the cells its marking loop visited are set; no two
committed boxes intersect. -/
def GridInv (g : BoxPlacement) : Prop :=
  (∀ pb ∈ g.placed_boxes, ∃ s0 s1 s2 : Int, ∃ rest : List Int,
      pb.size = s0 :: s1 :: s2 :: rest ∧ 0 < s0 ∧ 0 < s1 ∧ 0 < s2 ∧
      0 ≤ pb.position.1 ∧ 0 ≤ pb.position.2.1 ∧ 0 ≤ pb.position.2.2 ∧
      ∀ idx ∈ BoxPlacement.cellIndices g.pallet_dimensions pb.position s0 s1 s2,
        0 ≤ idx ∧ g.grid_cells.getD idx.toNat false = true) ∧
    g.placed_boxes.Pairwise (fun a b => ¬ a.intersects b)

/-- The result record `r` of `optimized_stack` and the committed box `pb` belong together:
same rotation (0 or 90), `pb.size` is the rotated size of an entry of the processed list
`sorted` with the id of `r`, and the committed box `[corner, corner + rotated size)` lies
inside the container of `e`. -/
def committedWithin (e : StackingAlgorithm) (sorted : List (String × List Int))
    (r : StackResult) (pb : PlacedBox) : Prop :=
  r.box_rot = pb.rotation ∧ (pb.rotation = 0 ∨ pb.rotation = 90) ∧
    (∃ entry ∈ sorted, entry.1 = r.box_id ∧
      BoxPlacement.getRotatedSize entry.2 pb.rotation = some pb.size) ∧
    ∃ w l h : Int, ∃ rest : List Int, pb.size = w :: l :: h :: rest ∧
      boxWithin e.pallet_size pb.position.1 pb.position.2.1 pb.position.2.2 w l h

/-- The grid of `optimized_stack` after it has committed `(20,5,5)` at `(0,0,0)` and
`(5,15,5)` at `(25,0,0)` in a `35×20×10` container (7 × 4 × 2 voxels). -/
def twoBoxGrid : BoxPlacement :=
  { pallet_dimensions := (35, 20, 10),
    grid_cells :=
      [true, true, true, true, true, true, true, true, true, true, true, true, true,
       true, false, false, false, false, false, true, true, false, false, false,
       false, false, true, true, true, true, true, true, true, true, true, true,
       true, true, true, true, true, true, false, false, false, false, false, true,
       true, false, false, false, false, false, true, true],
    placed_boxes := [⟨(0, 0, 0), [20, 5, 5], 0⟩, ⟨(25, 0, 0), [5, 15, 5], 0⟩] }

namespace StackingAlgorithm

/-! ### The remaining strategies and the facade -/

/-- The method `stack_pallet_origin_out_of_bound`; `boxes[0]` has no defined value on an
empty box list. -/
def stack_pallet_origin_out_of_bound (e : StackingAlgorithm) : Option (List StackResult) :=
  match e.boxes with
  | box :: _ => some [{ box_id := box.box_id, box_loc := (0, 0, 0), box_rot := 0,
                        pallet_id := 1 }]
  | [] => none

/-- The lambda `is_position_occupied` of `stack_buffer`, over the list it captures. -/
def is_position_occupied (x y width length : Int) : List Placement → Bool
  | [] => false
  | (px, py, _, pwidth, plength, _) :: rest =>
    if !(decide (x + width ≤ px) || decide (px + pwidth ≤ x) ||
         decide (y + length ≤ py) || decide (py + plength ≤ y)) then true
    else is_position_occupied x y width length rest

/-- One iteration of `for (const auto& box : boxes)` in `stack_buffer`, on the member
`buffer_placements` (kept in the engine) and the local `out_placements`. -/
def stack_buffer_step (st : StackingAlgorithm × List StackResult) (box : Box) :
    Option (StackingAlgorithm × List StackResult) :=
  match parseBoxSize box.box_size with
  | width :: length :: height :: _ =>
    match scan (fun y => scan (fun x =>
        some (if !is_position_occupied x y (width + st.1.stacking_interval)
                  (length + st.1.stacking_interval) st.1.buffer_placements
              then some (x, y) else none))
        st.1.stacking_interval (st.1.pallet_size.1 - width))
      st.1.stacking_interval (st.1.pallet_size.2.1 - length) with
    | none => none
    | some (some (x, y)) =>
      some ({ st.1 with
              buffer_placements := st.1.buffer_placements ++
                [padded st.1.stacking_interval x y 0 width length height] },
            st.2 ++ [resultAt box.box_id x y 0 width length 1])
    | some none => some st
  | _ => some st

/-- The method `stack_buffer`: the returned `out_placements` and the engine after the
call. -/
def stack_buffer (e : StackingAlgorithm) : Option (List StackResult × StackingAlgorithm) :=
  (e.boxes.foldlM stack_buffer_step (e, [])).map fun st => (st.2, st.1)

/-- How a call of `Stack` ends: it returns a placement list (and leaves the engine in a
state), it has no defined result, or it throws `std::invalid_argument`. -/
inductive StackOutcome where
  | returned (placements : List StackResult) (engine : StackingAlgorithm)
  | undefined
  | invalid_argument
deriving DecidableEq, Repr

/-- The outcome of a strategy that keeps the engine state as it is. -/
def StackOutcome.ofResult (e : StackingAlgorithm) : Option (List StackResult) → StackOutcome
  | some r => .returned r e
  | none => .undefined

/-- The outcome of a strategy that changes the engine state. -/
def StackOutcome.ofRun : Option (List StackResult × StackingAlgorithm) → StackOutcome
  | some (r, e1) => .returned r e1
  | none => .undefined

/-- The method `Stack`.  The selector is the underlying value of the `enum class
StackingMethod`: 0 `PALLET_ORIGIN_OUT_OF_BOUND`, 1 `PALLET_STACK_ALL`, 2 `BUFFER`,
3 `STACK_WITH_BUFFER`, 4 `OPTIMIZED_STACK`; any other value takes the `default` branch. -/
def Stack (std_sort : StdSort) (e : StackingAlgorithm) (stacking_method : Int) :
    StackOutcome :=
  if stacking_method = 0 then StackOutcome.ofResult e (stack_pallet_origin_out_of_bound e)
  else if stacking_method = 1 then StackOutcome.ofResult e (stack_all_boxes e)
  else if stacking_method = 2 then StackOutcome.ofRun (stack_buffer e)
  else if stacking_method = 3 then StackOutcome.ofRun (stack_with_buffer e)
  else if stacking_method = 4 then StackOutcome.ofRun (optimized_stack std_sort e)
  else StackOutcome.invalid_argument

/-- The engine after `n` iterations of `while (move_best_fit_from_buffer_to_main()) {}`,
each of which returned `true`. -/
def moves : Nat → StackingAlgorithm → Option StackingAlgorithm
  | 0, e => some e
  | n + 1, e =>
    match move_best_fit_from_buffer_to_main e with
    | some (true, e1) => moves n e1
    | _ => none

/-- A sort for the comparator `comp` that puts the later of two elements that `comp` does
not order first: another rearrangement `std::sort` may produce. -/
def reversing_sort : StdSort :=
  fun comp l => l.reverse.insertionSort (fun a b => comp b a = false)

/-- The search for a main-container corner that `try_place_in_main` makes for a box of
size `(s0, s1, s2)`: the first corner of the nest `z, y, x` at which the box does not
overlap an entry of `main_placements`. -/
def main_first_fit (e : StackingAlgorithm) (s0 s1 s2 : Int) :
    Option (Option (Int × Int × Int)) :=
  scan3 (fun x y z =>
      some (if !is_overlap (x, y, z, s0, s1, s2) e.main_placements
            then some (x, y, z) else none))
    e.stacking_interval (e.pallet_size.1 - s0) (e.pallet_size.2.1 - s1)
    (e.pallet_size.2.2 - s2)

/-- The initial values of the locals of `find_best_fit_from_buffer`. -/
def noBestFit : BestFit :=
  { best_box_id := "", best_box_size := [], best_location := (0, 0, 0),
    best_fit_score := 0 }

/-- The engine after the fill phase of `stack_with_buffer` for the single box `(5,5,5)` in
a `20×10×10` container with gap 5: the box is in the buffer. -/
def oneBuffered : StackingAlgorithm :=
  { new [⟨"A", "[5,5,5]"⟩] (20, 10, 10) 5 with
    final_placements := [⟨"A", (3, 3, 0), 0, 2⟩],
    buffer_placements := [(0, 0, 0, 10, 10, 10)],
    used_boxes := ["A"],
    buffer_count := 1 }

/-- The engine `oneBuffered` after its box has been promoted to the main container. -/
def onePromoted : StackingAlgorithm :=
  { new [⟨"A", "[5,5,5]"⟩] (20, 10, 10) 5 with
    final_placements := [⟨"A", (3, 3, 0), 0, 1⟩],
    main_placements := [(0, 0, 0, 10, 10, 10)],
    used_boxes := ["A"],
    buffer_count := 0 }

/-- The engine after the fill phase of `stack_with_buffer` for the boxes `A` `(5,5,5)` and
`B` `(10,5,5)` in a `20×10×10` container with gap 5: both boxes are in the buffer. -/
def twoBuffered : StackingAlgorithm :=
  { new [⟨"A", "[5,5,5]"⟩, ⟨"B", "[10,5,5]"⟩] (20, 10, 10) 5 with
    final_placements := [⟨"A", (3, 3, 0), 0, 2⟩, ⟨"B", (15, 3, 0), 0, 2⟩],
    buffer_placements := [(0, 0, 0, 10, 10, 10), (10, 0, 0, 15, 10, 10)],
    used_boxes := ["B", "A"],
    buffer_count := 2 }

/-- The engine after the fill phase of `stack_with_buffer` for the single box
`(1100,1100,1800)` in a `1100×1100×1800` container with gap 5: the box is in the buffer. -/
def largeBuffered : StackingAlgorithm :=
  { new [⟨"G", "[1100,1100,1800]"⟩] (1100, 1100, 1800) 5 with
    final_placements := [⟨"G", (550, 550, 0), 0, 2⟩],
    buffer_placements := [(0, 0, 0, 1105, 1105, 1805)],
    used_boxes := ["G"],
    buffer_count := 1 }

/-- The engine after `stack_with_buffer` for two boxes `(5,5,5)` in a `5×5×5` container
with gap 5: `A` is in the buffer, `B` in the main container. -/
def mainFull : StackingAlgorithm :=
  { new [⟨"A", "[5,5,5]"⟩, ⟨"B", "[5,5,5]"⟩] (5, 5, 5) 5 with
    final_placements := [⟨"A", (3, 3, 0), 0, 2⟩, ⟨"B", (3, 3, 0), 0, 1⟩],
    main_placements := [(0, 0, 0, 10, 10, 10)],
    buffer_placements := [(0, 0, 0, 10, 10, 10)],
    used_boxes := ["B", "A"],
    buffer_count := 1 }

end StackingAlgorithm

/-! ## More predicates used in the statements -/

/-- The value `f r` when a search has found `r`, and `d` when it has found nothing. -/
def foundOr {ρ σ : Type} (d : σ) (f : ρ → σ) : Option (Option ρ) → σ
  | some (some r) => f r
  | _ => d

/-- What the C++ standard promises of the call `std::sort(first, last, comp)` in
`optimized_stack`, whose comparator is `sort_comp`: the result is a rearrangement of the
input in which no later element compares before an earlier one.  The order of elements
that the comparator does not order is not fixed. -/
def StdSortSpec (std_sort : StdSort) : Prop :=
  ∀ l, (std_sort StackingAlgorithm.sort_comp l).Perm l ∧
    (std_sort StackingAlgorithm.sort_comp l).Pairwise
      (fun a b => StackingAlgorithm.sort_comp b a = false)

/-- The volume `w * l * h` of a box of size `(w, l, h)`, as an integer. -/
def boxVolume (size : List Int) : Int :=
  match size with
  | w :: l :: h :: _ => w * l * h
  | _ => 0

/-- The products the code forms for a size `(w, l, h)`, `w * l` and then `(w * l) * h`,
are inside the range of `int`. -/
def volumeInRange (size : List Int) : Prop :=
  match size with
  | w :: l :: h :: _ =>
    -2147483648 ≤ w * l ∧ w * l ≤ 2147483647 ∧
      -2147483648 ≤ w * l * h ∧ w * l * h ≤ 2147483647
  | _ => True

/-- The result entry `r` is in the buffer and `box` is the input box that
`find_best_fit_from_buffer` looks up for it (the first box with the id of `r`). -/
def bufferedBox (e : StackingAlgorithm) (r : StackResult) (box : Box) : Prop :=
  r.pallet_id = 2 ∧ e.boxes.find? (fun bx => bx.box_id == r.box_id) = some box

/-- A box of size `(s0, s1, s2)` has a feasible main-container position: a corner on the
lattice of multiples of the gap, inside `W - s0`, `L - s1`, `H - s2`, at which it does not
overlap an entry of `main_placements`. -/
def feasibleInMain (e : StackingAlgorithm) (s0 s1 s2 : Int) : Prop :=
  ∃ i j k : Nat, (i : Int) * e.stacking_interval ≤ e.pallet_size.1 - s0 ∧
    (j : Int) * e.stacking_interval ≤ e.pallet_size.2.1 - s1 ∧
    (k : Int) * e.stacking_interval ≤ e.pallet_size.2.2 - s2 ∧
    is_overlap ((i : Int) * e.stacking_interval, (j : Int) * e.stacking_interval,
      (k : Int) * e.stacking_interval, s0, s1, s2) e.main_placements = false

/-- The buffer entry `r` is a candidate for promotion: its box has a feasible
main-container position. -/
def promotable (e : StackingAlgorithm) (r : StackResult) : Prop :=
  ∃ box : Box, bufferedBox e r box ∧ ∃ s0 s1 s2 : Int, ∃ rest : List Int,
    parseBoxSize box.box_size = s0 :: s1 :: s2 :: rest ∧ feasibleInMain e s0 s1 s2

/-- The volume `w * l * h` of the box of the buffer entry `r` (0 when `r` has no box). -/
def entryVolume (e : StackingAlgorithm) (r : StackResult) : Int :=
  match e.boxes.find? (fun bx => bx.box_id == r.box_id) with
  | some box => boxVolume (parseBoxSize box.box_size)
  | none => 0

/-- The locals of `find_best_fit_from_buffer` after the result entries `rs` have been
visited: nothing has been found and no entry of `rs` is a candidate, or the locals hold the
id, the parsed size, the first feasible corner and the volume of an entry `r` of `rs` that
has a larger volume than every candidate before it and no smaller volume than every
candidate after it. -/
def bestSoFar (e : StackingAlgorithm) (rs : List StackResult)
    (b : StackingAlgorithm.BestFit) : Prop :=
  ((∀ r ∈ rs, ¬ promotable e r) ∧ b = StackingAlgorithm.noBestFit) ∨
    ∃ (pre : List StackResult) (r : StackResult) (post : List StackResult) (box : Box)
      (s0 s1 s2 : Int) (rest : List Int) (loc : Int × Int × Int),
      rs = pre ++ r :: post ∧ bufferedBox e r box ∧
      parseBoxSize box.box_size = s0 :: s1 :: s2 :: rest ∧
      StackingAlgorithm.main_first_fit e s0 s1 s2 = some (some loc) ∧
      b = { best_box_id := r.box_id, best_box_size := s0 :: s1 :: s2 :: rest,
            best_location := loc, best_fit_score := s0 * s1 * s2 } ∧
      0 < s0 * s1 * s2 ∧
      (∀ q ∈ pre, promotable e q → entryVolume e q < s0 * s1 * s2) ∧
      (∀ q ∈ post, promotable e q → entryVolume e q ≤ s0 * s1 * s2)

/-- The number of `pallet_id` 2 entries equals `buffer_count` and does not exceed
`MAX_BUFFER_COUNT`. -/
def withinCapacity (e : StackingAlgorithm) : Prop :=
  (StackingAlgorithm.buffered e.final_placements : Int) = e.buffer_count ∧
    e.buffer_count ≤ StackingAlgorithm.MAX_BUFFER_COUNT

/-- No call made while the promotion loop runs on `e` reads a size vector out of range:
the box looked up for a buffer entry has at least three parsed dimensions. -/
def buffersWellFormed (e : StackingAlgorithm) : Prop :=
  ∀ r ∈ e.final_placements, ∀ box : Box, bufferedBox e r box →
    3 ≤ (parseBoxSize box.box_size).length

/-! ## Predicates for the grid, repeated calls and the separation of boxes -/

/-- The string `"[w,l,h]"`: the three numbers in decimal digits, separated by commas, in
square brackets, without spaces. -/
def sizeString (w l h : Nat) : String :=
  "[" ++ Nat.repr w ++ "," ++ Nat.repr l ++ "," ++ Nat.repr h ++ "]"

/-- The committed box `[corner, corner + rotated size)` meets the cell
`[5i, 5i+5) × [5j, 5j+5) × [5k, 5k+5)` of the voxel `(i, j, k)`. -/
def PlacedBox.meetsCell (pb : PlacedBox) (i j k : Int) : Prop :=
  pb.position.1 < 5 * i + 5 ∧ 5 * i < pb.position.1 + pb.size.getD 0 0 ∧
    pb.position.2.1 < 5 * j + 5 ∧ 5 * j < pb.position.2.1 + pb.size.getD 1 0 ∧
    pb.position.2.2 < 5 * k + 5 ∧ 5 * k < pb.position.2.2 + pb.size.getD 2 0

/-- Two boxes `(x, y, z, w, l, h)`, each taken as `[corner, corner + size)`, are
separated on at least one axis. -/
def separated (a b : Placement) : Prop :=
  a.1 + a.2.2.2.1 ≤ b.1 ∨ b.1 + b.2.2.2.1 ≤ a.1 ∨
    a.2.1 + a.2.2.2.2.1 ≤ b.2.1 ∨ b.2.1 + b.2.2.2.2.1 ≤ a.2.1 ∨
    a.2.2.1 + a.2.2.2.2.2 ≤ b.2.2.1 ∨ b.2.2.1 + b.2.2.2.2.2 ≤ a.2.2.1

/-- The footprints of two boxes are at least `gap` apart on the `x` axis or on the `y`
axis: the footprints padded by `gap` do not meet. -/
def footprintsApart (gap : Int) (a b : Placement) : Prop :=
  a.1 + a.2.2.2.1 + gap ≤ b.1 ∨ b.1 + b.2.2.2.1 + gap ≤ a.1 ∨
    a.2.1 + a.2.2.2.2.1 + gap ≤ b.2.1 ∨ b.2.1 + b.2.2.2.2.1 + gap ≤ a.2.1

/-- The box a result record stands for: the size `(w, l, h)` of the input box with the id
of the record (the first one, as `std::find_if` finds it) at the corner
`anchor - (ceil(w/2), ceil(l/2), 0)`.  A record without such a box stands for the empty
box at the origin. -/
def unpaddedBox (boxes : List Box) (r : StackResult) : Placement :=
  match boxes.find? (fun b => b.box_id == r.box_id) with
  | some box =>
    match parseBoxSize box.box_size with
    | w :: l :: h :: _ =>
      (r.box_loc.1 - ceilHalf w, r.box_loc.2.1 - ceilHalf l, r.box_loc.2.2, w, l, h)
    | _ => (0, 0, 0, 0, 0, 0)
  | none => (0, 0, 0, 0, 0, 0)

/-- The box `p` with `gap` added to its three extents. -/
def pad (gap : Int) (p : Placement) : Placement :=
  (p.1, p.2.1, p.2.2.1, p.2.2.2.1 + gap, p.2.2.2.2.1 + gap, p.2.2.2.2.2 + gap)

/-- The entry of `buffer_placements` that belongs to the buffer record `r`: the padded box
`(corner_x, corner_y, 0, w + gap, l + gap, h + gap)` with the corner
`anchor - (ceil(w/2), ceil(l/2))`. -/
def bufferEntry (boxes : List Box) (gap : Int) (r : StackResult) : Placement :=
  ((unpaddedBox boxes r).1, (unpaddedBox boxes r).2.1, 0,
    (unpaddedBox boxes r).2.2.2.1 + gap, (unpaddedBox boxes r).2.2.2.2.1 + gap,
    (unpaddedBox boxes r).2.2.2.2.2 + gap)

/-- The buffer accepted list equals, entry by entry and in order, the padded boxes of the
result records with `pallet_id` 2, and `buffer_count` is its length. -/
def bufferMirrorsResults (e : StackingAlgorithm) : Prop :=
  e.buffer_placements =
      (e.final_placements.filter (fun r => decide (r.pallet_id = 2))).map
        (bufferEntry e.boxes e.stacking_interval) ∧
    e.buffer_count = (e.buffer_placements.length : Int)

/-- Invariant of a Buffer-Then-Promote run over the boxes `boxes` with gap `gap`: the
configuration is unchanged, every buffer record lies at `z = 0` and has an input box, and
the buffer accepted list is the list of padded boxes of the buffer records. -/
def MirrorInv (boxes : List Box) (gap : Int) (e : StackingAlgorithm) : Prop :=
  e.boxes = boxes ∧ e.stacking_interval = gap ∧
    (∀ r ∈ e.final_placements, r.pallet_id = 2 →
      r.box_loc.2.2 = 0 ∧ (boxes.find? (fun b => b.box_id == r.box_id)).isSome = true) ∧
    e.buffer_placements =
      (e.final_placements.filter (fun r => decide (r.pallet_id = 2))).map
        (bufferEntry boxes gap)

namespace StackingAlgorithm

/-- Two calls of `Stack` end the same way as far as the caller sees: both return the same
placement list, both have no defined result, or both throw `std::invalid_argument`. -/
def StackOutcome.sameResult : StackOutcome → StackOutcome → Prop
  | .returned r _, .returned r1 _ => r = r1
  | .undefined, .undefined => True
  | .invalid_argument, .invalid_argument => True
  | _, _ => False

/-- The placement list a call of `Stack` returns, if it returns. -/
def StackOutcome.placements : StackOutcome → Option (List StackResult)
  | .returned r _ => some r
  | _ => none

/-- The engine after a call of `Stack`; a call that does not return leaves the engine as
it was. -/
def StackOutcome.engineAfter (e : StackingAlgorithm) : StackOutcome → StackingAlgorithm
  | .returned _ e1 => e1
  | _ => e

end StackingAlgorithm

end Palletizing

set_option maxRecDepth 100000
set_option maxHeartbeats 2000000

namespace Palletizing

/-! ## Facts about the loops -/

theorem scanFrom_found {α : Type} (body : Int → Option (Option α)) (step bound : Int) :
    ∀ (fuel : Nat) (i : Int) (r : α), scanFrom body step bound fuel i = some (some r) →
      ∃ k : Nat, i + k * step ≤ bound ∧ body (i + k * step) = some (some r) ∧
        ∀ j : Nat, j < k → body (i + j * step) = some none := by
  intro fuel
  induction fuel with
  | zero => intro i r h; simp [scanFrom] at h
  | succ n ih =>
    intro i r h
    simp only [scanFrom] at h
    split_ifs at h with hi
    · cases hb : body i with
      | none => simp [hb] at h
      | some o =>
        cases o with
        | some r1 =>
          simp only [hb, Option.some.injEq] at h
          subst h
          exact ⟨0, by simpa using hi, by simpa using hb, by intro j hj; omega⟩
        | none =>
          simp only [hb] at h
          obtain ⟨k, hk1, hk2, hk3⟩ := ih (i + step) r h
          have e1 : i + ((k + 1 : Nat) : Int) * step = i + step + k * step := by
            push_cast; ring
          refine ⟨k + 1, by rw [e1]; exact hk1, by rw [e1]; exact hk2, ?_⟩
          intro j hj
          cases j with
          | zero => simpa using hb
          | succ j1 =>
            have e2 : i + ((j1 + 1 : Nat) : Int) * step = i + step + j1 * step := by
              push_cast; ring
            rw [e2]
            exact hk3 j1 (by omega)
    · simp at h

theorem scanFrom_exhausted {α : Type} (body : Int → Option (Option α)) (step bound : Int) :
    ∀ (fuel : Nat) (i : Int), scanFrom body step bound fuel i = some none →
      ∃ k : Nat, bound < i + k * step ∧
        ∀ j : Nat, j < k → body (i + j * step) = some none := by
  intro fuel
  induction fuel with
  | zero => intro i h; simp [scanFrom] at h
  | succ n ih =>
    intro i h
    simp only [scanFrom] at h
    split_ifs at h with hi
    · cases hb : body i with
      | none => simp [hb] at h
      | some o =>
        cases o with
        | some r1 => simp [hb] at h
        | none =>
          simp only [hb] at h
          obtain ⟨k, hk1, hk3⟩ := ih (i + step) h
          have e1 : i + ((k + 1 : Nat) : Int) * step = i + step + k * step := by
            push_cast; ring
          refine ⟨k + 1, by rw [e1]; exact hk1, ?_⟩
          intro j hj
          cases j with
          | zero => simpa using hb
          | succ j1 =>
            have e2 : i + ((j1 + 1 : Nat) : Int) * step = i + step + j1 * step := by
              push_cast; ring
            rw [e2]
            exact hk3 j1 (by omega)
    · exact ⟨0, by simpa using hi, by intro j hj; omega⟩

/-- A successful `scan` stops at the first multiple of the stride whose body finds a
result. -/
theorem scan_found {α : Type} {body : Int → Option (Option α)} {step bound : Int} {r : α}
    (h : scan body step bound = some (some r)) :
    ∃ k : Nat, (k : Int) * step ≤ bound ∧ body (k * step) = some (some r) ∧
      ∀ j : Nat, j < k → body (j * step) = some none := by
  obtain ⟨k, h1, h2, h3⟩ := scanFrom_found body step bound _ 0 r h
  refine ⟨k, by simpa using h1, by simpa using h2, ?_⟩
  intro j hj
  simpa using h3 j hj

/-- A `scan` with positive stride that finds nothing has tried every multiple of the
stride up to the bound. -/
theorem scan_exhausted {α : Type} {body : Int → Option (Option α)} {step bound : Int}
    (hstep : 0 < step) (h : scan body step bound = some none) :
    ∀ k : Nat, (k : Int) * step ≤ bound → body (k * step) = some none := by
  obtain ⟨k0, h1, h3⟩ := scanFrom_exhausted body step bound _ 0 h
  intro k hk
  have hlt : (k : Int) * step < k0 * step := by
    have : bound < (k0 : Int) * step := by simpa using h1
    linarith
  have hk0 : k < k0 := by
    by_contra hge
    have : (k0 : Int) ≤ k := by exact_mod_cast Nat.le_of_not_lt hge
    have := mul_le_mul_of_nonneg_right this hstep.le
    linarith
  simpa using h3 k hk0

/-- First fit of the nest `for z … for y … for x …`: the accepted corner lies on the
lattice of multiples of the stride inside the bounds, and the body found nothing at any
corner visited before it. -/
theorem scan3_found {α : Type} {body : Int → Int → Int → Option (Option α)}
    {step xb yb zb : Int} {r : α} (hstep : 0 < step)
    (h : scan3 body step xb yb zb = some (some r)) :
    ∃ i j k : Nat, (i : Int) * step ≤ xb ∧ (j : Int) * step ≤ yb ∧ (k : Int) * step ≤ zb ∧
      body (i * step) (j * step) (k * step) = some (some r) ∧
      ∀ i1 j1 k1 : Nat, (i1 : Int) * step ≤ xb → (j1 : Int) * step ≤ yb →
        (k1 < k ∨ (k1 = k ∧ (j1 < j ∨ (j1 = j ∧ i1 < i)))) →
        body (i1 * step) (j1 * step) (k1 * step) = some none := by
  obtain ⟨k, hk1, hk2, hk3⟩ := scan_found h
  obtain ⟨j, hj1, hj2, hj3⟩ := scan_found hk2
  obtain ⟨i, hi1, hi2, hi3⟩ := scan_found hj2
  refine ⟨i, j, k, hi1, hj1, hk1, hi2, ?_⟩
  intro i1 j1 k1 hxi hyj hlex
  rcases hlex with hlt | ⟨rfl, hlt | ⟨rfl, hlt⟩⟩
  · exact scan_exhausted hstep (scan_exhausted hstep (hk3 k1 hlt) j1 hyj) i1 hxi
  · exact scan_exhausted hstep (hj3 j1 hlt) i1 hxi
  · exact hi3 i1 hlt

/-- A nest with positive stride that finds nothing has tried every lattice corner inside
the bounds. -/
theorem scan3_exhausted {α : Type} {body : Int → Int → Int → Option (Option α)}
    {step xb yb zb : Int} (hstep : 0 < step)
    (h : scan3 body step xb yb zb = some none) :
    ∀ i j k : Nat, (i : Int) * step ≤ xb → (j : Int) * step ≤ yb → (k : Int) * step ≤ zb →
      body (i * step) (j * step) (k * step) = some none := by
  intro i j k hi hj hk
  exact scan_exhausted hstep (scan_exhausted hstep (scan_exhausted hstep h k hk) j hj) i hi

theorem scanFrom_defined {α : Type} (body : Int → Option (Option α)) (step bound : Int)
    (hstep : 0 < step) (hbody : ∀ i, body i ≠ none) :
    ∀ (fuel : Nat) (i : Int), (bound + 1 - i).toNat + 1 ≤ fuel →
      scanFrom body step bound fuel i ≠ none := by
  intro fuel
  induction fuel with
  | zero => intro i h; omega
  | succ n ih =>
    intro i h
    simp only [scanFrom]
    split_ifs with hi
    · cases hb : body i with
      | none => exact absurd hb (hbody i)
      | some o =>
        cases o with
        | some r => simp
        | none => exact ih (i + step) (by omega)
    · simp

/-- With a positive stride and a body that always has a defined result, `scan` has a
defined result: its budget of loop tests is never exhausted. -/
theorem scan_defined {α : Type} {body : Int → Option (Option α)} {step : Int} (bound : Int)
    (hstep : 0 < step) (hbody : ∀ i, body i ≠ none) : scan body step bound ≠ none :=
  scanFrom_defined body step bound hstep hbody _ 0 (by omega)

/-- With a positive stride and a body that always has a defined result, the nest
`scan3` has a defined result. -/
theorem scan3_defined {α : Type} {body : Int → Int → Int → Option (Option α)} {step : Int}
    (xb yb zb : Int) (hstep : 0 < step) (hbody : ∀ x y z, body x y z ≠ none) :
    scan3 body step xb yb zb ≠ none :=
  scan_defined zb hstep fun z =>
    scan_defined yb hstep fun y => scan_defined xb hstep fun x => hbody x y z

theorem foldFrom_defined {σ : Type} (body : Int → σ → Option σ) (step bound : Int)
    (hstep : 0 < step) (hbody : ∀ i s, body i s ≠ none) :
    ∀ (fuel : Nat) (i : Int) (s : σ), (bound + 1 - i).toNat + 1 ≤ fuel →
      foldFrom body step bound fuel i s ≠ none := by
  intro fuel
  induction fuel with
  | zero => intro i s h; omega
  | succ n ih =>
    intro i s h
    simp only [foldFrom]
    split_ifs with hi
    · cases hb : body i s with
      | none => exact absurd hb (hbody i s)
      | some s1 => exact ih (i + step) s1 (by omega)
    · simp

/-- With a positive stride and a body that always has a defined result, `foldScan` has a
defined result. -/
theorem foldScan_defined {σ : Type} {body : Int → σ → Option σ} {step : Int} (bound : Int)
    (hstep : 0 < step) (hbody : ∀ i s, body i s ≠ none) (s : σ) :
    foldScan body step bound s ≠ none :=
  foldFrom_defined body step bound hstep hbody _ 0 s (by omega)

/-! ## The brute-force overlap checker -/

/-- C6: `is_overlap` returns true exactly when some entry of the list meets the candidate
in the half-open intervals of all three axes at once; on the empty list it returns false. -/
theorem is_overlap_iff (bx b_y bz bw bl bh : Int) (placements : List Placement) :
    (is_overlap (bx, b_y, bz, bw, bl, bh) placements = true ↔
      ∃ p ∈ placements, bx < p.1 + p.2.2.2.1 ∧ p.1 < bx + bw ∧
        b_y < p.2.1 + p.2.2.2.2.1 ∧ p.2.1 < b_y + bl ∧
        bz < p.2.2.1 + p.2.2.2.2.2 ∧ p.2.2.1 < bz + bh) ∧
    is_overlap (bx, b_y, bz, bw, bl, bh) [] = false := by
  refine ⟨?_, rfl⟩
  induction placements with
  | nil => simp [is_overlap]
  | cons p rest ih =>
    obtain ⟨px, py, pz, pw, pl, ph⟩ := p
    simp only [is_overlap, List.mem_cons, exists_eq_or_imp]
    rw [← ih]
    by_cases hc : bx < px + pw ∧ px < bx + bw ∧ b_y < py + pl ∧ py < b_y + bl ∧
        bz < pz + ph ∧ pz < bz + bh
    · have hb : (!(decide (bx + bw ≤ px) || decide (bx ≥ px + pw) ||
          decide (b_y + bl ≤ py) || decide (b_y ≥ py + pl) ||
          decide (bz + bh ≤ pz) || decide (bz ≥ pz + ph))) = true := by
        simp only [Bool.not_eq_true', Bool.or_eq_false_iff, decide_eq_false_iff_not]
        omega
      simp only [hb, if_true, true_iff]
      exact Or.inl hc
    · have hb : (!(decide (bx + bw ≤ px) || decide (bx ≥ px + pw) ||
          decide (b_y + bl ≤ py) || decide (b_y ≥ py + pl) ||
          decide (bz + bh ≤ pz) || decide (bz ≥ pz + ph))) = false := by
        simp only [Bool.not_eq_false', Bool.or_eq_true, decide_eq_true_eq]
        omega
      simp only [hb, Bool.false_eq_true, if_false]
      constructor
      · exact fun h => Or.inr h
      · rintro (h | h)
        · exact absurd h hc
        · exact h

namespace StackingAlgorithm

/-! ## Greedy-Fill-All -/

/-- C8: when the primary scan of `stack_all_boxes` accepts a corner for a box, the box is
recorded at that corner (rotation 0, pallet 1); the corner is on the lattice of multiples
of the gap inside `W - w`, `L - l`, `H - h`, passes the overlap check, and every lattice
corner before it in the order `z`, then `y`, then `x` fails the check against the
placements accepted so far.  For two boxes `(40,40,40)` in a `100×100×100` container with
gap 5 the result is `A` at `(20,20,0)` and `B` at `(65,20,0)`. -/
theorem greedy_primary_first_fit (e : StackingAlgorithm)
    (st : List Placement × List StackResult) (box : Box) (w l h : Int) (rest : List Int)
    (x y z : Int) (hgap : 0 < e.stacking_interval)
    (hsize : parseBoxSize box.box_size = w :: l :: h :: rest)
    (hscan : primary_scan e st.1 w l h = some (some (x, y, z))) :
    stack_all_step e st box =
        some (st.1 ++ [padded e.stacking_interval x y z w l h],
              st.2 ++ [resultAt box.box_id x y z w l 1]) ∧
      (∃ i j k : Nat, x = i * e.stacking_interval ∧ y = j * e.stacking_interval ∧
        z = k * e.stacking_interval) ∧
      x ≤ e.pallet_size.1 - w ∧ y ≤ e.pallet_size.2.1 - l ∧ z ≤ e.pallet_size.2.2 - h ∧
      is_overlap (x, y, z, w, l, h) st.1 = false ∧
      (∀ i j k : Nat, (i : Int) * e.stacking_interval ≤ e.pallet_size.1 - w →
        (j : Int) * e.stacking_interval ≤ e.pallet_size.2.1 - l →
        ((k : Int) * e.stacking_interval < z ∨ ((k : Int) * e.stacking_interval = z ∧
          ((j : Int) * e.stacking_interval < y ∨ ((j : Int) * e.stacking_interval = y ∧
            (i : Int) * e.stacking_interval < x)))) →
        is_overlap (i * e.stacking_interval, j * e.stacking_interval,
          k * e.stacking_interval, w, l, h) st.1 = true) ∧
      stack_all_boxes (new [⟨"A", "[40,40,40]"⟩, ⟨"B", "[40,40,40]"⟩] (100, 100, 100) 5) =
        some [⟨"A", (20, 20, 0), 0, 1⟩, ⟨"B", (65, 20, 0), 0, 1⟩] := by
  have hstep : stack_all_step e st box =
      some (st.1 ++ [padded e.stacking_interval x y z w l h],
            st.2 ++ [resultAt box.box_id x y z w l 1]) := by
    simp only [stack_all_step, hsize, hscan]
  obtain ⟨i, j, k, hi, hj, hk, hbody, hbefore⟩ := scan3_found hgap hscan
  have hacc : is_overlap ((i : Int) * e.stacking_interval, (j : Int) * e.stacking_interval,
      (k : Int) * e.stacking_interval, w, l, h) st.1 = false ∧
      ((i : Int) * e.stacking_interval, (j : Int) * e.stacking_interval,
        (k : Int) * e.stacking_interval) = (x, y, z) := by
    cases hov : is_overlap ((i : Int) * e.stacking_interval, (j : Int) * e.stacking_interval,
      (k : Int) * e.stacking_interval, w, l, h) st.1 with
    | true => simp [hov] at hbody
    | false => simpa [hov] using hbody
  obtain ⟨hfree, hpos⟩ := hacc
  simp only [Prod.mk.injEq] at hpos
  obtain ⟨hx, hy, hz⟩ := hpos
  refine ⟨hstep, ⟨i, j, k, hx.symm, hy.symm, hz.symm⟩, hx ▸ hi, hy ▸ hj, hz ▸ hk, ?_, ?_,
    by decide⟩
  · rw [← hx, ← hy, ← hz]; exact hfree
  · intro i1 j1 k1 hi1 hj1 hlex
    have hmono : ∀ a b : Nat, (a : Int) * e.stacking_interval < b * e.stacking_interval →
        a < b := by
      intro a b hab
      by_contra hge
      have : (b : Int) ≤ a := by exact_mod_cast Nat.le_of_not_lt hge
      have := mul_le_mul_of_nonneg_right this hgap.le
      linarith
    have hinj : ∀ a b : Nat, (a : Int) * e.stacking_interval = b * e.stacking_interval →
        a = b := by
      intro a b hab
      have := mul_right_cancel₀ hgap.ne' hab
      exact_mod_cast this
    have hlex1 : k1 < k ∨ (k1 = k ∧ (j1 < j ∨ (j1 = j ∧ i1 < i))) := by
      rw [← hx, ← hy, ← hz] at hlex
      rcases hlex with h1 | ⟨h1, h2 | ⟨h2, h3⟩⟩
      · exact Or.inl (hmono _ _ h1)
      · exact Or.inr ⟨hinj _ _ h1, Or.inl (hmono _ _ h2)⟩
      · exact Or.inr ⟨hinj _ _ h1, Or.inr ⟨hinj _ _ h2, hmono _ _ h3⟩⟩
    have hb := hbefore i1 j1 k1 hi1 hj1 hlex1
    cases hov : is_overlap ((i1 : Int) * e.stacking_interval,
        (j1 : Int) * e.stacking_interval, (k1 : Int) * e.stacking_interval, w, l, h) st.1 with
    | true => rfl
    | false => simp [hov] at hb

/-- Witness for C8: the second box of the example, scanned against the first. -/
theorem greedy_primary_first_fit_witness :
    stack_all_step (new [⟨"A", "[40,40,40]"⟩, ⟨"B", "[40,40,40]"⟩] (100, 100, 100) 5)
        ([(0, 0, 0, 45, 45, 45)], [⟨"A", (20, 20, 0), 0, 1⟩]) ⟨"B", "[40,40,40]"⟩ =
      some ([(0, 0, 0, 45, 45, 45), (45, 0, 0, 45, 45, 45)],
            [⟨"A", (20, 20, 0), 0, 1⟩, ⟨"B", (65, 20, 0), 0, 1⟩]) :=
  (greedy_primary_first_fit
    (new [⟨"A", "[40,40,40]"⟩, ⟨"B", "[40,40,40]"⟩] (100, 100, 100) 5)
    ([(0, 0, 0, 45, 45, 45)], [⟨"A", (20, 20, 0), 0, 1⟩]) ⟨"B", "[40,40,40]"⟩
    40 40 40 [] 45 0 0 (by decide) (by decide) (by decide)).1

/-- C1, at a concrete input: three boxes `(40,40,40)`, `(60,40,40)`, `(50,45,40)` in a
`100×100×100` container with gap 5.  `stack_all_boxes` accepts the third box at corner
`(45,0,0)` next to the second at `(0,45,0)`: the two boxes touch along `y = 45` with no
clearance, and their padded boxes (the last two entries of `placements`) intersect. -/
theorem greedy_padded_boxes_intersect :
    stack_all_run (new [⟨"A", "[40,40,40]"⟩, ⟨"B", "[60,40,40]"⟩, ⟨"D", "[50,45,40]"⟩]
        (100, 100, 100) 5) =
      some ([(0, 0, 0, 45, 45, 45), (0, 45, 0, 65, 45, 45), (45, 0, 0, 55, 50, 45)],
            [⟨"A", (20, 20, 0), 0, 1⟩, ⟨"B", (30, 65, 0), 0, 1⟩, ⟨"D", (70, 23, 0), 0, 1⟩]) ∧
      is_overlap (45, 0, 0, 55, 50, 45) [(0, 45, 0, 65, 45, 45)] = true :=
  ⟨rfl, rfl⟩

/-- C4, at a concrete input: the single box `(120,40,40)` in a `100×100×100` container
with gap 5.  The primary scan finds nothing, the fallback scan accepts corner `(0,0,0)`,
and `stack_all_boxes` returns a placement for the box. -/
theorem greedy_places_oversized_box :
    primary_scan (new [⟨"A", "[120,40,40]"⟩] (100, 100, 100) 5) [] 120 40 40 = some none ∧
      fallback_scan (new [⟨"A", "[120,40,40]"⟩] (100, 100, 100) 5) [] 120 40 40 =
        some (some 0) ∧
      stack_all_boxes (new [⟨"A", "[120,40,40]"⟩] (100, 100, 100) 5) =
        some [⟨"A", (60, 20, 0), 0, 1⟩] := by
  refine ⟨?_, ?_, ?_⟩ <;> decide

end StackingAlgorithm

theorem foldFrom_inv {σ : Type} (P : σ → Prop) (body : Int → σ → Option σ)
    (step bound : Int) (hstep : 0 ≤ step) (i0 : Int)
    (hbody : ∀ i s s1, i0 ≤ i → i ≤ bound → P s → body i s = some s1 → P s1) :
    ∀ (fuel : Nat) (i : Int) (s s1 : σ), i0 ≤ i → P s →
      foldFrom body step bound fuel i s = some s1 → P s1 := by
  intro fuel
  induction fuel with
  | zero => intro i s s1 _ _ h; simp [foldFrom] at h
  | succ n ih =>
    intro i s s1 hi hP h
    simp only [foldFrom] at h
    split_ifs at h with hb
    · cases hbd : body i s with
      | none => simp [hbd] at h
      | some s2 =>
        simp only [hbd] at h
        exact ih (i + step) s2 s1 (by linarith) (hbody i s s2 hi hb hP hbd) h
    · simp only [Option.some.injEq] at h
      exact h ▸ hP

/-- An invariant of the loop body over non-negative candidates within the bound is an
invariant of `foldScan` with a non-negative stride. -/
theorem foldScan_inv {σ : Type} (P : σ → Prop) {body : Int → σ → Option σ}
    {step bound : Int} (hstep : 0 ≤ step)
    (hbody : ∀ i s s1, 0 ≤ i → i ≤ bound → P s → body i s = some s1 → P s1)
    {s s1 : σ} (hP : P s) (h : foldScan body step bound s = some s1) : P s1 :=
  foldFrom_inv P body step bound hstep 0 hbody _ 0 s s1 le_rfl hP h

/-- An invariant of the step function is an invariant of `foldlM` in `Option`. -/
theorem foldlM_inv {σ α : Type} (P : σ → Prop) (f : σ → α → Option σ) :
    ∀ (l : List α) (s s1 : σ), (∀ t a t1, a ∈ l → P t → f t a = some t1 → P t1) →
      P s → l.foldlM f s = some s1 → P s1 := by
  intro l
  induction l with
  | nil =>
    intro s s1 _ hP h
    simp only [List.foldlM_nil, pure, Option.some.injEq] at h
    exact h ▸ hP
  | cons a rest ih =>
    intro s s1 hstep hP h
    simp only [List.foldlM_cons, bind, Option.bind] at h
    cases hf : f s a with
    | none => simp [hf] at h
    | some t =>
      simp only [hf] at h
      exact ih t s1 (fun t0 b t1 hb => hstep t0 b t1 (List.mem_cons_of_mem _ hb))
        (hstep s a t (List.mem_cons_self _ _) hP hf) h

namespace StackingAlgorithm

/-! ## Buffer-Then-Promote -/

theorem try_place_in_buffer_inv {e0 e e1 : StackingAlgorithm} {box : Box} {b : Bool}
    (hgap : 0 < e0.stacking_interval) (hinv : BufferInv e0 e) (hbox : box ∈ e0.boxes)
    (h : try_place_in_buffer e box = some (b, e1)) : BufferInv e0 e1 := by
  obtain ⟨hb, hp, hg, hres⟩ := hinv
  unfold try_place_in_buffer at h
  split at h
  · rename_i s0 s1 s2 rest hsize
    split at h
    · simp at h
    · rename_i x y hscan
      simp only [Option.some.injEq, Prod.mk.injEq] at h
      obtain ⟨-, rfl⟩ := h
      refine ⟨hb, hp, hg, ?_⟩
      intro r hr
      simp only [List.mem_append, List.mem_singleton] at hr
      rcases hr with hr | rfl
      · exact hres r hr
      · obtain ⟨j, hj1, hj2, -⟩ := scan_found hscan
        obtain ⟨i, hi1, hi2, -⟩ := scan_found hj2
        have hxy : (i : Int) * e.stacking_interval = x ∧ (j : Int) * e.stacking_interval = y := by
          cases hov : is_overlap ((i : Int) * e.stacking_interval,
              (j : Int) * e.stacking_interval, 0, s0, s1, s2) e.buffer_placements with
          | true => simp [hov] at hi2
          | false => simpa [hov] using hi2
        obtain ⟨hx, hy⟩ := hxy
        have hx0 : 0 ≤ x := by
          rw [← hx]; exact mul_nonneg (Int.ofNat_nonneg i) (hg ▸ hgap.le)
        have hy0 : 0 ≤ y := by
          rw [← hy]; exact mul_nonneg (Int.ofNat_nonneg j) (hg ▸ hgap.le)
        refine ⟨box, hbox, rfl, s0, s1, s2, rest, hsize, Or.inr ⟨rfl, ?_, rfl⟩⟩
        simp only [resultAt, footprintWithin, add_sub_cancel_right]
        rw [hx, hp] at hi1
        rw [hy, hp] at hj1
        exact ⟨hx0, by linarith, hy0, by linarith⟩
    · simp only [Option.some.injEq, Prod.mk.injEq] at h
      obtain ⟨-, rfl⟩ := h
      exact ⟨hb, hp, hg, hres⟩
  · simp only [Option.some.injEq, Prod.mk.injEq] at h
    obtain ⟨-, rfl⟩ := h
    exact ⟨hb, hp, hg, hres⟩

theorem try_place_in_main_inv {e0 e e1 : StackingAlgorithm} {box : Box} {b : Bool}
    (hgap : 0 < e0.stacking_interval) (hinv : BufferInv e0 e) (hbox : box ∈ e0.boxes)
    (h : try_place_in_main e box = some (b, e1)) : BufferInv e0 e1 := by
  obtain ⟨hb, hp, hg, hres⟩ := hinv
  unfold try_place_in_main at h
  split at h
  · rename_i s0 s1 s2 rest hsize
    split at h
    · simp at h
    · rename_i x y z hscan
      simp only [Option.some.injEq, Prod.mk.injEq] at h
      obtain ⟨-, rfl⟩ := h
      refine ⟨hb, hp, hg, ?_⟩
      intro r hr
      simp only [List.mem_append, List.mem_singleton] at hr
      rcases hr with hr | rfl
      · exact hres r hr
      · obtain ⟨i, j, k, hi1, hj1, hk1, hbody, -⟩ := scan3_found (hg ▸ hgap) hscan
        have hxyz : (i : Int) * e.stacking_interval = x ∧
            (j : Int) * e.stacking_interval = y ∧ (k : Int) * e.stacking_interval = z := by
          cases hov : is_overlap ((i : Int) * e.stacking_interval,
              (j : Int) * e.stacking_interval, (k : Int) * e.stacking_interval, s0, s1, s2)
              e.main_placements with
          | true => simp [hov] at hbody
          | false => simpa [hov] using hbody
        obtain ⟨hx, hy, hz⟩ := hxyz
        have hx0 : 0 ≤ x := by
          rw [← hx]; exact mul_nonneg (Int.ofNat_nonneg i) (hg ▸ hgap.le)
        have hy0 : 0 ≤ y := by
          rw [← hy]; exact mul_nonneg (Int.ofNat_nonneg j) (hg ▸ hgap.le)
        have hz0 : 0 ≤ z := by
          rw [← hz]; exact mul_nonneg (Int.ofNat_nonneg k) (hg ▸ hgap.le)
        refine ⟨box, hbox, rfl, s0, s1, s2, rest, hsize, Or.inl ⟨rfl, ?_⟩⟩
        simp only [resultAt, boxWithin, add_sub_cancel_right]
        rw [hx, hp] at hi1
        rw [hy, hp] at hj1
        rw [hz, hp] at hk1
        exact ⟨hx0, by linarith, hy0, by linarith, hz0, by linarith⟩
    · simp only [Option.some.injEq, Prod.mk.injEq] at h
      obtain ⟨-, rfl⟩ := h
      exact ⟨hb, hp, hg, hres⟩
  · simp only [Option.some.injEq, Prod.mk.injEq] at h
    obtain ⟨-, rfl⟩ := h
    exact ⟨hb, hp, hg, hres⟩

theorem fill_step_inv {e0 e e1 : StackingAlgorithm} {box : Box}
    (hgap : 0 < e0.stacking_interval) (hinv : BufferInv e0 e) (hbox : box ∈ e0.boxes)
    (h : fill_step e box = some e1) : BufferInv e0 e1 := by
  unfold fill_step at h
  split_ifs at h with hused hcount
  · simp only [Option.some.injEq] at h
    exact h ▸ hinv
  · split at h
    · simp at h
    · rename_i e2 hbuf
      simp only [Option.some.injEq] at h
      exact h ▸ try_place_in_buffer_inv hgap hinv hbox hbuf
    · rename_i e2 hbuf
      have hinv2 := try_place_in_buffer_inv hgap hinv hbox hbuf
      cases hm : try_place_in_main e2 box with
      | none => simp [hm] at h
      | some p =>
        obtain ⟨b, e3⟩ := p
        simp only [hm, Option.map_some', Option.some.injEq] at h
        exact h ▸ try_place_in_main_inv hgap hinv2 hbox hm
  · cases hm : try_place_in_main e box with
    | none => simp [hm] at h
    | some p =>
      obtain ⟨b, e3⟩ := p
      simp only [hm, Option.map_some', Option.some.injEq] at h
      exact h ▸ try_place_in_main_inv hgap hinv hbox hm

theorem best_fit_step_ok {e : StackingAlgorithm} {b b1 : BestFit} {placement : StackResult}
    (hgap : 0 < e.stacking_interval) (hok : BestOK e b)
    (h : best_fit_step e b placement = some b1) : BestOK e b1 := by
  unfold best_fit_step at h
  split_ifs at h with hp
  · split at h
    · rename_i box hfind
      split at h
      · rename_i s0 s1 s2 rest hsize
        have hmem : box ∈ e.boxes := List.mem_of_find?_eq_some hfind
        have hid : box.box_id = placement.box_id := by
          have := List.find?_some hfind
          simpa using this
        refine foldScan_inv (BestOK e) hgap.le ?_ hok h
        intro z s t hz0 hzb hs ht
        refine foldScan_inv (BestOK e) hgap.le ?_ hs ht
        intro y s t hy0 hyb hs ht
        refine foldScan_inv (BestOK e) hgap.le ?_ hs ht
        intro x s t hx0 hxb hs ht
        simp only [Option.some.injEq] at ht
        subst ht
        unfold best_fit_update
        split_ifs
        · exact Or.inr ⟨box, hmem, hid, s0, s1, s2, rest, hsize, rfl,
            hx0, by linarith, hy0, by linarith, hz0, by linarith⟩
        · exact hs
        · exact hs
      · simp at h
    · simp only [Option.some.injEq] at h
      exact h ▸ hok
  · simp only [Option.some.injEq] at h
    exact h ▸ hok

theorem find_best_fit_ok {e : StackingAlgorithm} {b : BestFit}
    (hgap : 0 < e.stacking_interval) (h : find_best_fit_from_buffer e = some b) :
    BestOK e b :=
  foldlM_inv (BestOK e) (best_fit_step e) e.final_placements _ b
    (fun _ _ _ _ hP hf => best_fit_step_ok hgap hP hf) (Or.inl rfl) h

theorem move_inv {e0 e e1 : StackingAlgorithm} {b : Bool}
    (hgap : 0 < e0.stacking_interval) (hinv : BufferInv e0 e)
    (h : move_best_fit_from_buffer_to_main e = some (b, e1)) : BufferInv e0 e1 := by
  obtain ⟨hb, hp, hg, hres⟩ := hinv
  unfold move_best_fit_from_buffer_to_main at h
  split at h
  · simp at h
  · rename_i best hbest
    have hok := find_best_fit_ok (hg ▸ hgap) hbest
    split_ifs at h with hne
    · split at h
      · rename_i i hidx
        dsimp only at h
        split at h
        · rename_i rebuilt s0 s1 s2 rest hreb hbs
          simp only [Option.some.injEq, Prod.mk.injEq] at h
          obtain ⟨-, rfl⟩ := h
          refine ⟨hb, hp, hg, ?_⟩
          intro r hr
          simp only [List.mem_append, List.mem_singleton] at hr
          rcases hr with hr | rfl
          · exact hres r (List.mem_of_mem_eraseIdx hr)
          · rcases hok with hemp | ⟨box, hmem, hid, t0, t1, t2, trest, hsize, hbsz, hin⟩
            · exact absurd hemp hne
            · rw [hbs] at hbsz
              simp only [List.cons.injEq] at hbsz
              obtain ⟨rfl, rfl, rfl, rfl⟩ := hbsz
              refine ⟨box, hb ▸ hmem, hid, s0, s1, s2, _, hsize, Or.inl ⟨rfl, ?_⟩⟩
              simp only [resultAt, add_sub_cancel_right]
              exact hp ▸ hin
        · simp at h
      · simp only [Option.some.injEq, Prod.mk.injEq] at h
        obtain ⟨-, rfl⟩ := h
        exact ⟨hb, hp, hg, hres⟩
    · simp only [Option.some.injEq, Prod.mk.injEq] at h
      obtain ⟨-, rfl⟩ := h
      exact ⟨hb, hp, hg, hres⟩

theorem promote_inv {e0 : StackingAlgorithm} (hgap : 0 < e0.stacking_interval) :
    ∀ (fuel : Nat) (e e1 : StackingAlgorithm), BufferInv e0 e →
      promote fuel e = some e1 → BufferInv e0 e1 := by
  intro fuel
  induction fuel with
  | zero => intro e e1 _ h; simp [promote] at h
  | succ n ih =>
    intro e e1 hinv h
    simp only [promote] at h
    split at h
    · simp at h
    · rename_i e2 hm
      exact ih e2 e1 (move_inv hgap hinv hm) h
    · rename_i e2 hm
      simp only [Option.some.injEq] at h
      exact h ▸ move_inv hgap hinv hm

/-- C5, as the code has it: on a fresh engine with a positive gap, every placement that
`stack_with_buffer` returns belongs to an input box of size `(w, l, h)` and has its corner
at `anchor - (ceil(w/2), ceil(l/2), 0)`; a main placement (`pallet_id` 1) lies inside the
container on all three axes, a buffer placement (`pallet_id` 2) sits at `z = 0` with its
footprint inside `W × L`.  The buffer does not compare the box height with `H`. -/
theorem stack_with_buffer_bounds (boxes : List Box) (pallet_size : Int × Int × Int)
    (gap : Int) (res : List StackResult) (hgap : 0 < gap)
    (h : (stack_with_buffer (new boxes pallet_size gap)).map Prod.fst = some res) :
    ∀ r ∈ res, wellPlaced (new boxes pallet_size gap) r := by
  have h0 : BufferInv (new boxes pallet_size gap) (new boxes pallet_size gap) :=
    ⟨rfl, rfl, rfl, by intro r hr; simp [new] at hr⟩
  unfold stack_with_buffer at h
  split at h
  · simp at h
  · rename_i e2 hfill
    have hinv2 : BufferInv (new boxes pallet_size gap) e2 :=
      foldlM_inv (BufferInv (new boxes pallet_size gap)) fill_step _ _ e2
        (fun _ _ _ ha hP hf => fill_step_inv hgap hP ha hf) h0 hfill
    cases hpr : promote (buffered e2.final_placements + 1) e2 with
    | none => simp [hpr] at h
    | some e3 =>
      simp only [hpr, Option.map_some', Option.some.injEq] at h
      subst h
      exact (promote_inv hgap _ e2 e3 hinv2 hpr).2.2.2

/-- Witness for C5: a `20×10×10` container with gap 5; the first box is promoted to the
main container, the second, taller than the container, stays in the buffer. -/
theorem stack_with_buffer_bounds_witness :
    wellPlaced (new [⟨"A", "[5,5,5]"⟩, ⟨"C", "[5,5,20]"⟩] (20, 10, 10) 5)
        ⟨"C", (13, 3, 0), 0, 2⟩ ∧
      wellPlaced (new [⟨"A", "[5,5,5]"⟩, ⟨"C", "[5,5,20]"⟩] (20, 10, 10) 5)
        ⟨"A", (3, 3, 0), 0, 1⟩ :=
  ⟨stack_with_buffer_bounds [⟨"A", "[5,5,5]"⟩, ⟨"C", "[5,5,20]"⟩] (20, 10, 10) 5
      [⟨"C", (13, 3, 0), 0, 2⟩, ⟨"A", (3, 3, 0), 0, 1⟩] (by decide) (by decide)
      ⟨"C", (13, 3, 0), 0, 2⟩ (List.mem_cons_self _ _),
   stack_with_buffer_bounds [⟨"A", "[5,5,5]"⟩, ⟨"C", "[5,5,20]"⟩] (20, 10, 10) 5
      [⟨"C", (13, 3, 0), 0, 2⟩, ⟨"A", (3, 3, 0), 0, 1⟩] (by decide) (by decide)
      ⟨"A", (3, 3, 0), 0, 1⟩ (List.mem_cons_of_mem _ (List.mem_cons_self _ _))⟩

/-- C5 fails as stated: Buffer-Then-Promote on a fresh engine, container `100×100×100`,
gap 5, single box `(10,10,200)`.  The box is returned in the buffer (`pallet_id` 2) at
corner `(0,0,0)`, where `z + h = 200` exceeds `H = 100`. -/
theorem stack_with_buffer_height_unchecked :
    (stack_with_buffer (new [⟨"C", "[10,10,200]"⟩] (100, 100, 100) 5)).map Prod.fst =
        some [⟨"C", (5, 5, 0), 0, 2⟩] ∧
      parseBoxSize "[10,10,200]" = [10, 10, 200] ∧
      ¬ boxWithin (100, 100, 100) (5 - ceilHalf 10) (5 - ceilHalf 10) 0 10 10 200 := by
  refine ⟨by decide, by decide, ?_⟩
  unfold boxWithin
  decide

end StackingAlgorithm

namespace BoxPlacement

/-! ## The collision grid -/

theorem mem_cellRange (lo hi c : Int) : c ∈ cellRange lo hi ↔ lo ≤ c ∧ c ≤ hi := by
  unfold cellRange
  rw [List.mem_map]
  constructor
  · rintro ⟨k, hk, hc⟩
    rw [List.mem_range] at hk
    omega
  · rintro ⟨h1, h2⟩
    refine ⟨(c - lo).toNat, ?_, ?_⟩
    · rw [List.mem_range]
      omega
    · omega

theorem mem_cellIndices (dims pos : Int × Int × Int) (s0 s1 s2 idx : Int) :
    idx ∈ cellIndices dims pos s0 s1 s2 ↔
      ∃ x y z : Int, (pos.1.tdiv grid_size ≤ x ∧ x ≤ (pos.1 + s0).tdiv grid_size) ∧
        (pos.2.1.tdiv grid_size ≤ y ∧ y ≤ (pos.2.1 + s1).tdiv grid_size) ∧
        (pos.2.2.tdiv grid_size ≤ z ∧ z ≤ (pos.2.2 + s2).tdiv grid_size) ∧
        idx = cellIndex dims x y z := by
  simp only [cellIndices, List.mem_flatMap, List.mem_map, mem_cellRange]
  constructor
  · rintro ⟨z, hz, y, hy, x, hx, rfl⟩
    exact ⟨x, y, z, hx, hy, hz, rfl⟩
  · rintro ⟨x, y, z, hx, hy, hz, rfl⟩
    exact ⟨z, hz, y, hy, x, hx, rfl⟩

/-- Two boxes with non-negative corners and positive sizes that meet on all three axes
have a cell that both marking loops visit. -/
theorem common_cell (dims p q : Int × Int × Int) (a0 a1 a2 b0 b1 b2 : Int)
    (hp : 0 ≤ p.1 ∧ 0 ≤ p.2.1 ∧ 0 ≤ p.2.2) (hq : 0 ≤ q.1 ∧ 0 ≤ q.2.1 ∧ 0 ≤ q.2.2)
    (ha : 0 < a0 ∧ 0 < a1 ∧ 0 < a2) (hb : 0 < b0 ∧ 0 < b1 ∧ 0 < b2)
    (hx : p.1 < q.1 + b0 ∧ q.1 < p.1 + a0) (hy : p.2.1 < q.2.1 + b1 ∧ q.2.1 < p.2.1 + a1)
    (hz : p.2.2 < q.2.2 + b2 ∧ q.2.2 < p.2.2 + a2) :
    ∃ idx, idx ∈ cellIndices dims p a0 a1 a2 ∧ idx ∈ cellIndices dims q b0 b1 b2 := by
  have key : ∀ u v a b : Int, 0 ≤ u → 0 ≤ v → 0 < a → 0 < b → u < v + b → v < u + a →
      ∃ c : Int, (u.tdiv grid_size ≤ c ∧ c ≤ (u + a).tdiv grid_size) ∧
        (v.tdiv grid_size ≤ c ∧ c ≤ (v + b).tdiv grid_size) := by
    intro u v a b hu hv ha hb h1 h2
    have e1 : u.tdiv grid_size = u / 5 := Int.tdiv_eq_ediv hu (by decide)
    have e2 : (u + a).tdiv grid_size = (u + a) / 5 := Int.tdiv_eq_ediv (by omega) (by decide)
    have e3 : v.tdiv grid_size = v / 5 := Int.tdiv_eq_ediv hv (by decide)
    have e4 : (v + b).tdiv grid_size = (v + b) / 5 := Int.tdiv_eq_ediv (by omega) (by decide)
    rw [e1, e2, e3, e4]
    exact ⟨max u v / 5, ⟨by omega, by omega⟩, ⟨by omega, by omega⟩⟩
  obtain ⟨cx, hcx1, hcx2⟩ := key p.1 q.1 a0 b0 hp.1 hq.1 ha.1 hb.1 hx.1 hx.2
  obtain ⟨cy, hcy1, hcy2⟩ := key p.2.1 q.2.1 a1 b1 hp.2.1 hq.2.1 ha.2.1 hb.2.1 hy.1 hy.2
  obtain ⟨cz, hcz1, hcz2⟩ := key p.2.2 q.2.2 a2 b2 hp.2.2 hq.2.2 ha.2.2 hb.2.2 hz.1 hz.2
  exact ⟨cellIndex dims cx cy cz, (mem_cellIndices _ _ _ _ _ _).2 ⟨cx, cy, cz, hcx1, hcy1, hcz1, rfl⟩,
    (mem_cellIndices _ _ _ _ _ _).2 ⟨cx, cy, cz, hcx2, hcy2, hcz2, rfl⟩⟩

theorem readCells_false (cells : List Bool) :
    ∀ idxs : List Int, readCells cells idxs = some false →
      ∀ idx ∈ idxs, 0 ≤ idx ∧ idx < cells.length ∧ cells.getD idx.toNat false = false := by
  intro idxs
  induction idxs with
  | nil => intro _ idx hidx; simp at hidx
  | cons i rest ih =>
    intro h idx hidx
    simp only [readCells] at h
    by_cases hr : 0 ≤ i ∧ i < cells.length
    · rw [if_pos hr] at h
      cases hc : cells.getD i.toNat false with
      | true => rw [hc] at h; simp at h
      | false =>
        rw [hc] at h
        simp only [Bool.false_eq_true, if_false] at h
        rcases List.mem_cons.1 hidx with rfl | hmem
        · exact ⟨hr.1, hr.2, hc⟩
        · exact ih h idx hmem
    · rw [if_neg hr] at h
      simp at h

theorem readCells_true (cells : List Bool) :
    ∀ idxs : List Int, readCells cells idxs = some true →
      ∃ idx ∈ idxs, cells.getD idx.toNat false = true := by
  intro idxs
  induction idxs with
  | nil => intro h; simp [readCells] at h
  | cons i rest ih =>
    intro h
    simp only [readCells] at h
    by_cases hr : 0 ≤ i ∧ i < cells.length
    · rw [if_pos hr] at h
      cases hc : cells.getD i.toNat false with
      | true => exact ⟨i, List.mem_cons_self _ _, hc⟩
      | false =>
        rw [hc] at h
        simp only [Bool.false_eq_true, if_false] at h
        obtain ⟨idx, hmem, hset⟩ := ih h
        exact ⟨idx, List.mem_cons_of_mem _ hmem, hset⟩
    · rw [if_neg hr] at h
      simp at h

theorem writeCells_true :
    ∀ (idxs : List Int) (cells cells1 : List Bool),
      writeCells true cells idxs = some cells1 →
      cells1.length = cells.length ∧
        (∀ idx ∈ idxs, 0 ≤ idx ∧ cells1.getD idx.toNat false = true) ∧
        (∀ n : Nat, cells.getD n false = true → cells1.getD n false = true) := by
  intro idxs
  induction idxs with
  | nil =>
    intro cells cells1 h
    simp only [writeCells, Option.some.injEq] at h
    subst h
    exact ⟨rfl, by intro idx hidx; simp at hidx, fun _ hn => hn⟩
  | cons i rest ih =>
    intro cells cells1 h
    simp only [writeCells] at h
    by_cases hr : 0 ≤ i ∧ i < cells.length
    swap
    · rw [if_neg hr] at h
      simp at h
    rw [if_pos hr] at h
    obtain ⟨hlen, hset, hkeep⟩ := ih _ _ h
    have hstep : ∀ n : Nat, cells.getD n false = true →
        (cells.set i.toNat true).getD n false = true := by
      intro n hn
      simp only [List.getD_eq_getElem?_getD, List.getElem?_set] at hn ⊢
      split_ifs with h1 h2
      · rfl
      · simp
        omega
      · exact hn
    refine ⟨by rw [hlen, List.length_set], ?_, fun n hn => hkeep n (hstep n hn)⟩
    intro idx hidx
    rcases List.mem_cons.1 hidx with rfl | hmem
    · refine ⟨hr.1, hkeep _ ?_⟩
      simp only [List.getD_eq_getElem?_getD, List.getElem?_set]
      have : idx.toNat < cells.length := by omega
      simp [this]
    · exact hset idx hmem

theorem isWithinBounds_true {g : BoxPlacement} {pos : Int × Int × Int} {size : List Int}
    (h : isWithinBounds g pos size = some true) :
    ∃ s0 s1 s2 : Int, ∃ rest : List Int, size = s0 :: s1 :: s2 :: rest ∧
      boxWithin g.pallet_dimensions pos.1 pos.2.1 pos.2.2 s0 s1 s2 := by
  obtain ⟨x, y, z⟩ := pos
  match size, h with
  | [], h => simp [isWithinBounds] at h
  | [s0], h =>
    simp only [isWithinBounds] at h
    split_ifs at h <;> simp at h
  | [s0, s1], h =>
    simp only [isWithinBounds] at h
    split_ifs at h <;> simp at h
  | s0 :: s1 :: s2 :: rest, h =>
    simp only [isWithinBounds] at h
    split_ifs at h with hx hx1 hy hy1 hz
    · simp only [Option.some.injEq, decide_eq_true_eq] at h
      exact ⟨s0, s1, s2, rest, rfl, hx, hx1, hy, hy1, hz, h⟩
    all_goals simp at h

/-- What a successful `canPlaceBox` has established. -/
theorem canPlaceBox_true {g : BoxPlacement} {box_size : List Int}
    {pos : Int × Int × Int} {rot : Int} (h : canPlaceBox g box_size pos rot = some true) :
    ∃ s0 s1 s2 : Int, ∃ rest : List Int,
      getRotatedSize box_size rot = some (s0 :: s1 :: s2 :: rest) ∧
      boxWithin g.pallet_dimensions pos.1 pos.2.1 pos.2.2 s0 s1 s2 ∧
      ∀ idx ∈ cellIndices g.pallet_dimensions pos s0 s1 s2,
        0 ≤ idx ∧ idx < g.grid_cells.length ∧ g.grid_cells.getD idx.toNat false = false := by
  unfold canPlaceBox at h
  split at h
  · simp at h
  · rename_i rs hrs
    split at h
    · simp at h
    · simp at h
    · rename_i hb
      obtain ⟨s0, s1, s2, rest, rfl, hin⟩ := isWithinBounds_true hb
      refine ⟨s0, s1, s2, rest, hrs, hin, ?_⟩
      cases ho : hasOverlap g pos (s0 :: s1 :: s2 :: rest) with
      | none => simp [ho] at h
      | some b =>
        simp only [ho, Option.map_some', Option.some.injEq, Bool.not_eq_true'] at h
        subst h
        simp only [hasOverlap] at ho
        exact readCells_false _ _ ho

/-- What `placeBox` does after a successful `canPlaceBox`: the cells of the box are set,
no cell is cleared, and the box is appended to `placed_boxes`. -/
theorem placeBox_spec {g g1 : BoxPlacement} {box_size : List Int}
    {pos : Int × Int × Int} {rot : Int} {s0 s1 s2 : Int} {rest : List Int}
    (hrs : getRotatedSize box_size rot = some (s0 :: s1 :: s2 :: rest))
    (h : placeBox g box_size pos rot = some g1) :
    g1.pallet_dimensions = g.pallet_dimensions ∧
      g1.placed_boxes = g.placed_boxes ++
        [{ position := pos, size := s0 :: s1 :: s2 :: rest, rotation := rot }] ∧
      (∀ idx ∈ cellIndices g.pallet_dimensions pos s0 s1 s2,
        0 ≤ idx ∧ g1.grid_cells.getD idx.toNat false = true) ∧
      (∀ n : Nat, g.grid_cells.getD n false = true → g1.grid_cells.getD n false = true) := by
  unfold placeBox at h
  simp only [hrs, markGridCells] at h
  cases hw : writeCells true g.grid_cells (cellIndices g.pallet_dimensions pos s0 s1 s2) with
  | none => simp [hw] at h
  | some cells1 =>
    simp only [hw, Option.map_some', Option.some.injEq] at h
    subst h
    obtain ⟨-, hset, hkeep⟩ := writeCells_true _ _ _ hw
    exact ⟨rfl, rfl, hset, hkeep⟩

end BoxPlacement

/-- A successful nest accepted the result at some corner inside the bounds, for any
stride. -/
theorem scan3_accepts {α : Type} {body : Int → Int → Int → Option (Option α)}
    {step xb yb zb : Int} {r : α} (h : scan3 body step xb yb zb = some (some r)) :
    ∃ x y z : Int, x ≤ xb ∧ y ≤ yb ∧ z ≤ zb ∧ body x y z = some (some r) := by
  obtain ⟨k, hk1, hk2, -⟩ := scan_found h
  obtain ⟨j, hj1, hj2, -⟩ := scan_found hk2
  obtain ⟨i, hi1, hi2, -⟩ := scan_found hj2
  exact ⟨_, _, _, hi1, hj1, hk1, hi2⟩

namespace StackingAlgorithm

/-! ## Sorted-Rotation-Optimized -/

theorem try_rotations_found {g g1 : BoxPlacement} {box_size : List Int}
    {pos p : Int × Int × Int} {rot : Int}
    (h : try_rotations g box_size pos = some (some (p, rot, g1))) :
    p = pos ∧ g.placeBox box_size pos rot = some g1 ∧
      ((rot = 0 ∧ g.canPlaceBox box_size pos 0 = some true) ∨
       (rot = 90 ∧ g.canPlaceBox box_size pos 0 = some false ∧
          g.canPlaceBox box_size pos 90 = some true)) := by
  unfold try_rotations at h
  split at h
  · simp at h
  · rename_i h0
    cases hp : g.placeBox box_size pos 0 with
    | none => simp [hp] at h
    | some g2 =>
      simp only [hp, Option.map_some', Option.some.injEq, Prod.mk.injEq] at h
      obtain ⟨rfl, rfl, rfl⟩ := h
      exact ⟨rfl, hp, Or.inl ⟨rfl, h0⟩⟩
  · rename_i h0
    split at h
    · simp at h
    · rename_i h90
      cases hp : g.placeBox box_size pos 90 with
      | none => simp [hp] at h
      | some g2 =>
        simp only [hp, Option.map_some', Option.some.injEq, Prod.mk.injEq] at h
        obtain ⟨rfl, rfl, rfl⟩ := h
        exact ⟨rfl, hp, Or.inr ⟨rfl, h0, h90⟩⟩
    · simp at h

theorem try_rotations_none {g : BoxPlacement} {box_size : List Int} {pos : Int × Int × Int}
    (h : try_rotations g box_size pos = some none) :
    g.canPlaceBox box_size pos 0 = some false ∧ g.canPlaceBox box_size pos 90 = some false := by
  unfold try_rotations at h
  split at h
  · simp at h
  · cases hp : g.placeBox box_size pos 0 with
    | none => simp [hp] at h
    | some g2 => simp [hp] at h
  · rename_i h0
    split at h
    · simp at h
    · cases hp : g.placeBox box_size pos 90 with
      | none => simp [hp] at h
      | some g2 => simp [hp] at h
    · rename_i h90
      exact ⟨h0, h90⟩

/-- What an accepted `tryPlaceBox` has established, for any stride. -/
theorem tryPlaceBox_accepts {e : StackingAlgorithm} {g g1 : BoxPlacement}
    {box_size : List Int} {pos : Int × Int × Int} {rot : Int}
    (h : tryPlaceBox e g box_size = some (some (pos, rot, g1))) :
    (rot = 0 ∨ rot = 90) ∧ g.canPlaceBox box_size pos rot = some true ∧
      g.placeBox box_size pos rot = some g1 := by
  unfold tryPlaceBox at h
  split at h
  · obtain ⟨x, y, z, -, -, -, hb⟩ := scan3_accepts h
    obtain ⟨rfl, hp, hrot⟩ := try_rotations_found hb
    rcases hrot with ⟨rfl, h0⟩ | ⟨rfl, -, h90⟩
    · exact ⟨Or.inl rfl, h0, hp⟩
    · exact ⟨Or.inr rfl, h90, hp⟩
  · simp at h

/-- A box that `tryPlaceBox` accepts fits the container unrotated: the scan only visits
corners up to `W - w`, `L - l`, `H - h`, and `canPlaceBox` rejects negative corners. -/
theorem tryPlaceBox_fits {e : StackingAlgorithm} {g g1 : BoxPlacement}
    {box_size : List Int} {pos : Int × Int × Int} {rot : Int}
    (h : tryPlaceBox e g box_size = some (some (pos, rot, g1))) :
    ∃ w l hh : Int, ∃ rest : List Int, box_size = w :: l :: hh :: rest ∧
      w ≤ e.pallet_size.1 ∧ l ≤ e.pallet_size.2.1 ∧ hh ≤ e.pallet_size.2.2 := by
  obtain ⟨-, hcan, -⟩ := tryPlaceBox_accepts h
  obtain ⟨s0, s1, s2, rest, -, hin, -⟩ := BoxPlacement.canPlaceBox_true hcan
  obtain ⟨hx0, -, hy0, -, hz0, -⟩ := hin
  unfold tryPlaceBox at h
  split at h
  · rename_i w l hh rest1
    obtain ⟨x, y, z, hx, hy, hz, hb⟩ := scan3_accepts h
    obtain ⟨hpos, -, -⟩ := try_rotations_found hb
    subst hpos
    exact ⟨w, l, hh, rest1, rfl, by simp only at hx0; omega, by simp only at hy0; omega,
      by simp only at hz0; omega⟩
  · simp at h

/-- First fit among the corners that `tryPlaceBox` scans: the pair `(corner, rotation)` it
accepts is the first one, in the order `z` outermost, then `y`, then `x` and rotation 0
before 90 at each corner, among the multiples of the gap inside `H - h`, `L - l`, `W - w`
of the unrotated size, for which `canPlaceBox` succeeds on the grid.  Corners outside
these bounds are not scanned, also when the rotated box would fit there. -/
theorem tryPlaceBox_first_fit (e : StackingAlgorithm) (g g1 : BoxPlacement)
    (box_size : List Int) (pos : Int × Int × Int) (rot : Int)
    (hgap : 0 < e.stacking_interval)
    (h : tryPlaceBox e g box_size = some (some (pos, rot, g1))) :
    ∃ s0 s1 s2 : Int, ∃ rest : List Int, box_size = s0 :: s1 :: s2 :: rest ∧
      (∃ i j k : Nat, pos = ((i : Int) * e.stacking_interval, (j : Int) * e.stacking_interval,
        (k : Int) * e.stacking_interval)) ∧
      pos.1 ≤ e.pallet_size.1 - s0 ∧ pos.2.1 ≤ e.pallet_size.2.1 - s1 ∧
      pos.2.2 ≤ e.pallet_size.2.2 - s2 ∧
      (rot = 0 ∨ rot = 90) ∧ g.canPlaceBox box_size pos rot = some true ∧
      (rot = 90 → g.canPlaceBox box_size pos 0 = some false) ∧
      (∀ i j k : Nat, (i : Int) * e.stacking_interval ≤ e.pallet_size.1 - s0 →
        (j : Int) * e.stacking_interval ≤ e.pallet_size.2.1 - s1 →
        ((k : Int) * e.stacking_interval < pos.2.2 ∨
          ((k : Int) * e.stacking_interval = pos.2.2 ∧
            ((j : Int) * e.stacking_interval < pos.2.1 ∨
              ((j : Int) * e.stacking_interval = pos.2.1 ∧
                (i : Int) * e.stacking_interval < pos.1)))) →
        ∀ r : Int, r = 0 ∨ r = 90 →
          g.canPlaceBox box_size ((i : Int) * e.stacking_interval,
            (j : Int) * e.stacking_interval, (k : Int) * e.stacking_interval) r =
              some false) ∧
      g.placeBox box_size pos rot = some g1 ∧
      ∀ (results : List StackResult) (box_id : String),
        optimized_step e (g, results) (box_id, box_size) =
          some (g1, results ++ [{ box_id := box_id,
                                  box_loc := (pos.1 + ceilHalf s0, pos.2.1 + ceilHalf s1,
                                              pos.2.2),
                                  box_rot := rot, pallet_id := 1 }]) := by
  have h' := h
  unfold tryPlaceBox at h
  split at h
  swap
  · simp at h
  rename_i s0 s1 s2 rest
  obtain ⟨i, j, k, hi, hj, hk, hbody, hbefore⟩ := scan3_found hgap h
  obtain ⟨hpos, hplace, hrot⟩ := try_rotations_found hbody
  have hmono : ∀ a b : Nat, (a : Int) * e.stacking_interval < b * e.stacking_interval →
      a < b := by
    intro a b hab
    by_contra hge
    have : (b : Int) ≤ a := by exact_mod_cast Nat.le_of_not_lt hge
    have := mul_le_mul_of_nonneg_right this hgap.le
    linarith
  have hinj : ∀ a b : Nat, (a : Int) * e.stacking_interval = b * e.stacking_interval →
      a = b := by
    intro a b hab
    have := mul_right_cancel₀ hgap.ne' hab
    exact_mod_cast this
  subst hpos
  refine ⟨s0, s1, s2, rest, rfl, ⟨i, j, k, rfl⟩, hi, hj, hk, ?_, ?_, ?_, ?_, hplace, ?_⟩
  · rcases hrot with ⟨rfl, -⟩ | ⟨rfl, -, -⟩
    · exact Or.inl rfl
    · exact Or.inr rfl
  · rcases hrot with ⟨rfl, h0⟩ | ⟨rfl, -, h90⟩
    · exact h0
    · exact h90
  · intro h90
    rcases hrot with ⟨rfl, -⟩ | ⟨-, h0, -⟩
    · exact absurd h90 (by decide)
    · exact h0
  · intro i1 j1 k1 hi1 hj1 hlex r hr
    have hlex1 : k1 < k ∨ (k1 = k ∧ (j1 < j ∨ (j1 = j ∧ i1 < i))) := by
      rcases hlex with h1 | ⟨h1, h2 | ⟨h2, h3⟩⟩
      · exact Or.inl (hmono _ _ h1)
      · exact Or.inr ⟨hinj _ _ h1, Or.inl (hmono _ _ h2)⟩
      · exact Or.inr ⟨hinj _ _ h1, Or.inr ⟨hinj _ _ h2, hmono _ _ h3⟩⟩
    obtain ⟨hf0, hf90⟩ := try_rotations_none (hbefore i1 j1 k1 hi1 hj1 hlex1)
    rcases hr with rfl | rfl
    · exact hf0
    · exact hf90
  · intro results box_id
    simp only [optimized_step, h']

theorem getRotatedSize_positive {size rs : List Int} {rot : Int}
    (hpos : positiveDims size) (h : BoxPlacement.getRotatedSize size rot = some rs) :
    positiveDims rs := by
  obtain ⟨w, l, hh, rest, rfl, hw, hl, hhh⟩ := hpos
  unfold BoxPlacement.getRotatedSize at h
  split_ifs at h
  · simp only [Option.some.injEq] at h
    exact ⟨l, w, hh, rest, h.symm, hl, hw, hhh⟩
  · simp only [Option.some.injEq] at h
    exact ⟨w, l, hh, rest, h.symm, hw, hl, hhh⟩

/-- One accepted box keeps the grid invariant: the new box meets no committed box. -/
theorem tryPlaceBox_gridInv {e : StackingAlgorithm} {g g1 : BoxPlacement}
    {box_size : List Int} {pos : Int × Int × Int} {rot : Int}
    (hsize : positiveDims box_size) (hinv : GridInv g)
    (h : tryPlaceBox e g box_size = some (some (pos, rot, g1))) :
    GridInv g1 ∧ g1.pallet_dimensions = g.pallet_dimensions ∧
      g1.placed_boxes.length = g.placed_boxes.length + 1 := by
  obtain ⟨-, hcan, hplace⟩ := tryPlaceBox_accepts h
  obtain ⟨s0, s1, s2, rest, hrs, hin, hfree⟩ := BoxPlacement.canPlaceBox_true hcan
  obtain ⟨hdims, hpb, hset, hkeep⟩ := BoxPlacement.placeBox_spec hrs hplace
  obtain ⟨w, l, hh, rest1, hrs1, hw, hl, hhh⟩ := getRotatedSize_positive hsize hrs
  simp only [List.cons.injEq] at hrs1
  obtain ⟨rfl, rfl, rfl, rfl⟩ := hrs1
  obtain ⟨hcells, hpair⟩ := hinv
  obtain ⟨hx0, -, hy0, -, hz0, -⟩ := hin
  refine ⟨⟨?_, ?_⟩, hdims, by rw [hpb]; simp⟩
  · intro pb hmem
    rw [hpb] at hmem
    rcases List.mem_append.1 hmem with hold | hnew
    · obtain ⟨a0, a1, a2, arest, ha, h0, h1, h2, hp0, hp1, hp2, hc⟩ := hcells pb hold
      refine ⟨a0, a1, a2, arest, ha, h0, h1, h2, hp0, hp1, hp2, ?_⟩
      intro idx hidx
      rw [hdims] at hidx
      exact ⟨(hc idx hidx).1, hkeep _ (hc idx hidx).2⟩
    · rw [List.mem_singleton] at hnew
      subst hnew
      refine ⟨s0, s1, s2, rest, rfl, hw, hl, hhh, hx0, hy0, hz0, ?_⟩
      intro idx hidx
      rw [hdims] at hidx
      exact hset idx hidx
  · rw [hpb, List.pairwise_append]
    refine ⟨hpair, List.pairwise_singleton _ _, ?_⟩
    intro a ha b hb
    rw [List.mem_singleton] at hb
    subst hb
    obtain ⟨a0, a1, a2, arest, hasz, h0, h1, h2, hp0, hp1, hp2, hc⟩ := hcells a ha
    intro hint
    unfold PlacedBox.intersects at hint
    simp only [hasz, List.getD_cons_zero, List.getD_cons_succ] at hint
    obtain ⟨i1, i2, i3, i4, i5, i6⟩ := hint
    obtain ⟨idx, hia, hib⟩ := BoxPlacement.common_cell g.pallet_dimensions a.position pos
      a0 a1 a2 s0 s1 s2 ⟨hp0, hp1, hp2⟩ ⟨hx0, hy0, hz0⟩ ⟨h0, h1, h2⟩ ⟨hw, hl, hhh⟩
      ⟨i1, i2⟩ ⟨i3, i4⟩ ⟨i5, i6⟩
    have hset1 := (hc idx hia).2
    have hfree1 := (hfree idx hib).2.2
    rw [hset1] at hfree1
    exact absurd hfree1 (by decide)

/-- C2: in one run of `optimized_stack` over boxes with positive dimensions, no two
committed boxes, each taken as `[corner, corner + rotated size)` at the corner written to
the grid, intersect; there is one committed box per returned placement.  (`std_sort`
rearranges the list; the container need not be a multiple of the cell size for this.) -/
theorem optimized_stack_no_overlap
    (std_sort : StdSort)
    (e : StackingAlgorithm) (res : List StackResult) (e1 : StackingAlgorithm)
    (hsort : (std_sort sort_comp (sorted_boxes_input e)).Perm (sorted_boxes_input e))
    (hpos : ∀ b ∈ e.boxes, positiveDims (parseBoxSize b.box_size))
    (h : optimized_stack std_sort e = some (res, e1)) :
    ∃ g : BoxPlacement, e1.placement_manager = some g ∧
      res.length = g.placed_boxes.length ∧
      g.placed_boxes.Pairwise (fun a b => ¬ a.intersects b) := by
  unfold optimized_stack at h
  split at h
  · simp at h
  · rename_i g0 hg0
    cases hf : (std_sort sort_comp (sorted_boxes_input e)).foldlM (optimized_step e) (g0, []) with
    | none => simp [hf] at h
    | some st =>
      simp only [hf, Option.map_some', Option.some.injEq, Prod.mk.injEq] at h
      obtain ⟨rfl, rfl⟩ := h
      have hg0' : g0.placed_boxes = [] := by
        unfold BoxPlacement.new at hg0
        dsimp only at hg0
        split_ifs at hg0
        simp only [Option.some.injEq] at hg0
        rw [← hg0]
      have hinit : GridInv g0 ∧ ([] : List StackResult).length = g0.placed_boxes.length := by
        refine ⟨⟨?_, ?_⟩, ?_⟩
        · intro pb hmem; rw [hg0'] at hmem; simp at hmem
        · rw [hg0']; exact List.Pairwise.nil
        · rw [hg0']; rfl
      have hfinal := foldlM_inv
        (fun s : BoxPlacement × List StackResult =>
          GridInv s.1 ∧ s.2.length = s.1.placed_boxes.length)
        (optimized_step e) _ (g0, []) st ?_ hinit hf
      · exact ⟨st.1, rfl, hfinal.2, hfinal.1.2⟩
      · intro t entry t1 hmem hP hstep
        have hentry : positiveDims entry.2 := by
          have hm := hsort.mem_iff.1 hmem
          simp only [sorted_boxes_input, List.mem_map] at hm
          obtain ⟨b, hb, rfl⟩ := hm
          exact hpos b hb
        unfold optimized_step at hstep
        split at hstep
        · simp at hstep
        · simp only [Option.some.injEq] at hstep
          exact hstep ▸ hP
        · rename_i position rotation g1 htry
          obtain ⟨hinv1, -, hlen⟩ := tryPlaceBox_gridInv hentry hP.1 htry
          split at hstep
          · simp only [Option.some.injEq] at hstep
            subst hstep
            refine ⟨hinv1, ?_⟩
            simp only [List.length_append, List.length_singleton]
            rw [hlen, hP.2]
          · simp at hstep

/-- Witness for C2: two boxes `(5,5,5)` in a `20×10×10` container with gap 5 are
committed at `(0,0,0)` and `(10,0,0)`. -/
theorem optimized_stack_no_overlap_witness :
    ∃ g : BoxPlacement,
      some ({ pallet_dimensions := (20, 10, 10),
              grid_cells := List.replicate 16 true,
              placed_boxes := [⟨(0, 0, 0), [5, 5, 5], 0⟩, ⟨(10, 0, 0), [5, 5, 5], 0⟩] } :
            BoxPlacement) = some g ∧
        [(⟨"A", (3, 3, 0), 0, 1⟩ : StackResult), ⟨"B", (13, 3, 0), 0, 1⟩].length =
          g.placed_boxes.length ∧
        g.placed_boxes.Pairwise (fun a b => ¬ a.intersects b) :=
  optimized_stack_no_overlap stable_sort
    (new [⟨"A", "[5,5,5]"⟩, ⟨"B", "[5,5,5]"⟩] (20, 10, 10) 5)
    [⟨"A", (3, 3, 0), 0, 1⟩, ⟨"B", (13, 3, 0), 0, 1⟩]
    { new [⟨"A", "[5,5,5]"⟩, ⟨"B", "[5,5,5]"⟩] (20, 10, 10) 5 with
      placement_manager := some
        { pallet_dimensions := (20, 10, 10),
          grid_cells := List.replicate 16 true,
          placed_boxes := [⟨(0, 0, 0), [5, 5, 5], 0⟩, ⟨(10, 0, 0), [5, 5, 5], 0⟩] } }
    (by decide)
    (by
      intro b hb
      simp only [new, List.mem_cons, List.mem_singleton, List.not_mem_nil, or_false] at hb
      rcases hb with rfl | rfl
      · exact ⟨5, 5, 5, [], by decide, by decide, by decide, by decide⟩
      · exact ⟨5, 5, 5, [], by decide, by decide, by decide, by decide⟩)
    (by decide)

theorem new_grid_empty {dims : Int × Int × Int} {g0 : BoxPlacement}
    (h : BoxPlacement.new dims = some g0) :
    g0.placed_boxes = [] ∧ g0.pallet_dimensions = dims := by
  unfold BoxPlacement.new at h
  dsimp only at h
  split_ifs at h
  simp only [Option.some.injEq] at h
  rw [← h]
  exact ⟨rfl, rfl⟩

/-- C3: every placement `optimized_stack` returns corresponds, in order, to one committed
box; the committed corner is non-negative and corner plus rotated size (width and length
swapped for rotation 90) stays within `(W, L, H)`.  A box is placed, on any grid, only if
it fits the container unrotated, so a box that exceeds the container in both rotations is
never placed; the single box `(120,40,40)` in a `100×100×100` container is absent from
the result. -/
theorem optimized_stack_bounds
    (std_sort : StdSort)
    (e : StackingAlgorithm) (res : List StackResult) (e1 : StackingAlgorithm)
    (h : optimized_stack std_sort e = some (res, e1)) :
    (∃ g : BoxPlacement, e1.placement_manager = some g ∧
      List.Forall₂ (committedWithin e (std_sort sort_comp (sorted_boxes_input e))) res
        g.placed_boxes) ∧
    (∀ (g g1 : BoxPlacement) (w l hh : Int) (rest : List Int) (pos : Int × Int × Int)
        (rot : Int), (e.pallet_size.1 < w ∨ e.pallet_size.2.1 < l ∨ e.pallet_size.2.2 < hh) →
      tryPlaceBox e g (w :: l :: hh :: rest) ≠ some (some (pos, rot, g1))) ∧
    (optimized_stack stable_sort
        (new [⟨"A", "[120,40,40]"⟩] (100, 100, 100) 5)).map Prod.fst = some [] := by
  refine ⟨?_, ?_, by decide⟩
  swap
  · intro g g1 w l hh rest pos rot hbig hplaced
    obtain ⟨w1, l1, h1, rest1, hsz, hw, hl, hh1⟩ := tryPlaceBox_fits hplaced
    simp only [List.cons.injEq] at hsz
    obtain ⟨rfl, rfl, rfl, -⟩ := hsz
    omega
  unfold optimized_stack at h
  split at h
  · simp at h
  · rename_i g0 hg0
    cases hf : (std_sort sort_comp (sorted_boxes_input e)).foldlM (optimized_step e) (g0, []) with
    | none => simp [hf] at h
    | some st =>
      simp only [hf, Option.map_some', Option.some.injEq, Prod.mk.injEq] at h
      obtain ⟨rfl, rfl⟩ := h
      obtain ⟨hempty, hdims0⟩ := new_grid_empty hg0
      have hfinal := foldlM_inv
        (fun s : BoxPlacement × List StackResult =>
          s.1.pallet_dimensions = e.pallet_size ∧
            List.Forall₂ (committedWithin e (std_sort sort_comp (sorted_boxes_input e))) s.2
              s.1.placed_boxes)
        (optimized_step e) _ (g0, []) st ?_ ⟨hdims0, by rw [hempty]; exact List.Forall₂.nil⟩ hf
      · exact ⟨st.1, rfl, hfinal.2⟩
      · intro t entry t1 hmem hP hstep
        unfold optimized_step at hstep
        split at hstep
        · simp at hstep
        · simp only [Option.some.injEq] at hstep
          exact hstep ▸ hP
        · rename_i position rotation g1 htry
          obtain ⟨hrot, hcan, hplace⟩ := tryPlaceBox_accepts htry
          obtain ⟨s0, s1, s2, rest, hrs, hin, -⟩ := BoxPlacement.canPlaceBox_true hcan
          obtain ⟨hdims, hpb, -, -⟩ := BoxPlacement.placeBox_spec hrs hplace
          split at hstep
          · simp only [Option.some.injEq] at hstep
            subst hstep
            refine ⟨by rw [hdims]; exact hP.1, ?_⟩
            dsimp only
            rw [hpb]
            refine List.rel_append hP.2 (List.Forall₂.cons ?_ List.Forall₂.nil)
            refine ⟨rfl, hrot, ⟨entry, hmem, rfl, hrs⟩, s0, s1, s2, rest, rfl, ?_⟩
            exact hP.1 ▸ hin
          · simp at hstep

/-- Witness for C3: two boxes `(5,5,5)` in a `20×10×10` container with gap 5. -/
theorem optimized_stack_bounds_witness :
    ∃ g : BoxPlacement,
      some ({ pallet_dimensions := (20, 10, 10),
              grid_cells := List.replicate 16 true,
              placed_boxes := [⟨(0, 0, 0), [5, 5, 5], 0⟩, ⟨(10, 0, 0), [5, 5, 5], 0⟩] } :
            BoxPlacement) = some g ∧
        List.Forall₂
          (committedWithin (new [⟨"A", "[5,5,5]"⟩, ⟨"B", "[5,5,5]"⟩] (20, 10, 10) 5)
            (stable_sort sort_comp (sorted_boxes_input
              (new [⟨"A", "[5,5,5]"⟩, ⟨"B", "[5,5,5]"⟩] (20, 10, 10) 5))))
          [⟨"A", (3, 3, 0), 0, 1⟩, ⟨"B", (13, 3, 0), 0, 1⟩] g.placed_boxes :=
  (optimized_stack_bounds stable_sort
    (new [⟨"A", "[5,5,5]"⟩, ⟨"B", "[5,5,5]"⟩] (20, 10, 10) 5)
    [⟨"A", (3, 3, 0), 0, 1⟩, ⟨"B", (13, 3, 0), 0, 1⟩]
    { new [⟨"A", "[5,5,5]"⟩, ⟨"B", "[5,5,5]"⟩] (20, 10, 10) 5 with
      placement_manager := some
        { pallet_dimensions := (20, 10, 10),
          grid_cells := List.replicate 16 true,
          placed_boxes := [⟨(0, 0, 0), [5, 5, 5], 0⟩, ⟨(10, 0, 0), [5, 5, 5], 0⟩] } }
    (by decide)).1

/-- An instance of `tryPlaceBox_first_fit`: the second box `(5,5,5)` in a `20×10×10`
container with gap 5 is accepted at `(10,0,0)` with rotation 0, and `canPlaceBox` fails
for both rotations at the earlier corner `(5,0,0)`. -/
theorem tryPlaceBox_first_fit_witness :
    (BoxPlacement.canPlaceBox
        { pallet_dimensions := (20, 10, 10),
          grid_cells := [true, true, false, false, true, true, false, false,
                         true, true, false, false, true, true, false, false],
          placed_boxes := [⟨(0, 0, 0), [5, 5, 5], 0⟩] }
        [5, 5, 5] (10, 0, 0) 0 = some true) ∧
      (BoxPlacement.canPlaceBox
          { pallet_dimensions := (20, 10, 10),
            grid_cells := [true, true, false, false, true, true, false, false,
                           true, true, false, false, true, true, false, false],
            placed_boxes := [⟨(0, 0, 0), [5, 5, 5], 0⟩] }
          [5, 5, 5] (((1 : Nat) : Int) * 5, ((0 : Nat) : Int) * 5, ((0 : Nat) : Int) * 5) 0 =
            some false) ∧
      (BoxPlacement.canPlaceBox
          { pallet_dimensions := (20, 10, 10),
            grid_cells := [true, true, false, false, true, true, false, false,
                           true, true, false, false, true, true, false, false],
            placed_boxes := [⟨(0, 0, 0), [5, 5, 5], 0⟩] }
          [5, 5, 5] (((1 : Nat) : Int) * 5, ((0 : Nat) : Int) * 5, ((0 : Nat) : Int) * 5) 90 =
            some false) := by
  obtain ⟨s0, s1, s2, rest, hsz, -, -, -, -, -, hcan, -, hbefore, -, -⟩ :=
    tryPlaceBox_first_fit
      (new [⟨"A", "[5,5,5]"⟩, ⟨"B", "[5,5,5]"⟩] (20, 10, 10) 5)
      { pallet_dimensions := (20, 10, 10),
        grid_cells := [true, true, false, false, true, true, false, false,
                       true, true, false, false, true, true, false, false],
        placed_boxes := [⟨(0, 0, 0), [5, 5, 5], 0⟩] }
      { pallet_dimensions := (20, 10, 10),
        grid_cells := List.replicate 16 true,
        placed_boxes := [⟨(0, 0, 0), [5, 5, 5], 0⟩, ⟨(10, 0, 0), [5, 5, 5], 0⟩] }
      [5, 5, 5] (10, 0, 0) 0 (by decide) (by decide)
  simp only [List.cons.injEq] at hsz
  obtain ⟨rfl, rfl, rfl, rfl⟩ := hsz
  have hb := hbefore 1 0 0 (by decide) (by decide)
    (Or.inr ⟨by decide, Or.inr ⟨by decide, by decide⟩⟩)
  exact ⟨hcan, hb 0 (Or.inl rfl), hb 90 (Or.inr rfl)⟩

/-- C7, at a concrete grid: `twoBoxGrid` is the grid after `optimized_stack` has committed
`(20,5,5)` at `(0,0,0)` and `(5,15,5)` at `(25,0,0)` in a `35×20×10` container.  The box
`(5,5,5)` at `(20,10,0)` with rotation 0 is inside the container and covers exactly the
voxel `(4,2,0)` (index 18), which is free, yet `canPlaceBox` returns false: the loops of
`hasOverlap` run up to `(x + w) / 5` inclusive and read the set voxel `(5,2,0)` (index
19), whose cell `[25,30) × [10,15) × [0,5)` the box does not touch. -/
theorem canPlaceBox_rejects_free_box :
    (optimized_stack stable_sort
        (new [⟨"A", "[20,5,5]"⟩, ⟨"B", "[5,15,5]"⟩] (35, 20, 10) 5)).map
          (fun r => r.2.placement_manager) = some (some twoBoxGrid) ∧
      BoxPlacement.isWithinBounds twoBoxGrid (20, 10, 0) [5, 5, 5] = some true ∧
      BoxPlacement.cellIndex (35, 20, 10) 4 2 0 = 18 ∧
      twoBoxGrid.grid_cells.getD 18 false = false ∧
      BoxPlacement.cellIndex (35, 20, 10) 5 2 0 = 19 ∧
      twoBoxGrid.grid_cells.getD 19 false = true ∧
      BoxPlacement.cellIndices (35, 20, 10) (20, 10, 0) 5 5 5 =
        [18, 19, 25, 26, 46, 47, 53, 54] ∧
      twoBoxGrid.canPlaceBox [5, 5, 5] (20, 10, 0) 0 = some false := by
  refine ⟨by decide, by decide, by decide, by decide, by decide, by decide, by decide,
    by decide⟩

/-- C10, at a concrete input: boxes `(15,30,5)`, `(10,35,5)`, `(25,10,5)` in a
`50×65×10` container with gap 5.  The third box is committed at corner `(0,35,0)` with
rotation 90, so its footprint on the grid is `10 × 25`; the reported anchor is
`(13,40,0) = corner + (ceil(25/2), ceil(10/2), 0)`, computed from the unrotated size,
and not the centre `(5,48,0)` of the rotated footprint. -/
theorem optimized_stack_anchor_ignores_rotation :
    (optimized_stack stable_sort
        (new [⟨"A", "[15,30,5]"⟩, ⟨"B", "[10,35,5]"⟩, ⟨"C", "[25,10,5]"⟩]
          (50, 65, 10) 5)).map
          (fun r => (r.1, r.2.placement_manager.map (fun g => g.placed_boxes))) =
      some ([⟨"A", (8, 15, 0), 0, 1⟩, ⟨"B", (25, 18, 0), 0, 1⟩, ⟨"C", (13, 40, 0), 90, 1⟩],
            some [⟨(0, 0, 0), [15, 30, 5], 0⟩, ⟨(20, 0, 0), [10, 35, 5], 0⟩,
                  ⟨(0, 35, 0), [10, 25, 5], 90⟩]) ∧
    ((13 : Int), (40 : Int), (0 : Int)) = (0 + ceilHalf 25, 35 + ceilHalf 10, 0) ∧
    ((13 : Int), (40 : Int), (0 : Int)) ≠ (0 + ceilHalf 10, 35 + ceilHalf 25, 0) := by
  refine ⟨by decide, by decide, by decide⟩

/-- C9, at a concrete input: boxes `A` `(30,10,5)` and `B` `(10,25,5)` in a `30×35×30`
container with gap 5.  `A` is committed at `(0,0,0)`.  At the turn of `B`, `tryPlaceBox`
accepts corner `(0,0,10)` with rotation 0, although `canPlaceBox` succeeds on the same
grid for rotation 90 at the lattice corner `(0,20,0)`, which lies inside the container and
comes earlier in the order `z`, `y`, `x`: the `y` loop is bounded by
`L - box_size[1] = 10` of the unrotated size, so the corner is never tried. -/
theorem tryPlaceBox_passes_over_rotated_corner :
    (optimized_stack stable_sort
        (new [⟨"A", "[30,10,5]"⟩, ⟨"B", "[10,25,5]"⟩] (30, 35, 30) 5)).map Prod.fst =
        some [⟨"A", (15, 5, 0), 0, 1⟩, ⟨"B", (5, 13, 10), 0, 1⟩] ∧
      ((BoxPlacement.new (30, 35, 30)).bind fun g0 =>
        (tryPlaceBox (new [⟨"A", "[30,10,5]"⟩, ⟨"B", "[10,25,5]"⟩] (30, 35, 30) 5) g0
          [30, 10, 5]).map (Option.map fun r => (r.1, r.2.1))) =
        some (some ((0, 0, 0), 0)) ∧
      ((BoxPlacement.new (30, 35, 30)).bind fun g0 =>
        (g0.placeBox [30, 10, 5] (0, 0, 0) 0).bind fun gA =>
          (tryPlaceBox (new [⟨"A", "[30,10,5]"⟩, ⟨"B", "[10,25,5]"⟩] (30, 35, 30) 5) gA
            [10, 25, 5]).map (Option.map fun r => (r.1, r.2.1))) =
        some (some ((0, 0, 10), 0)) ∧
      ((BoxPlacement.new (30, 35, 30)).bind fun g0 =>
        (g0.placeBox [30, 10, 5] (0, 0, 0) 0).bind fun gA =>
          gA.canPlaceBox [10, 25, 5] (0, 20, 0) 90) = some true ∧
      (20 : Int) = ((4 : Nat) : Int) * 5 ∧ (0 : Int) < 10 := by
  refine ⟨by decide, by decide, by decide, by decide, by decide, by decide⟩

end StackingAlgorithm

/-- A step function that is defined on every element has a defined `foldlM`. -/
theorem foldlM_defined {σ α : Type} (f : σ → α → Option σ) :
    ∀ (l : List α) (s : σ), (∀ t a, a ∈ l → f t a ≠ none) → l.foldlM f s ≠ none := by
  intro l
  induction l with
  | nil => intro s _; simp [pure]
  | cons a rest ih =>
    intro s h
    simp only [List.foldlM_cons, bind, Option.bind]
    cases hf : f s a with
    | none => exact absurd hf (h s a (List.mem_cons_self _ _))
    | some t => exact ih t fun t0 b hb => h t0 b (List.mem_cons_of_mem _ hb)

/-- An invariant of the loop body is an invariant of `foldScan`, for any stride. -/
theorem foldScan_pres {σ : Type} (P : σ → Prop) {body : Int → σ → Option σ}
    {step bound : Int} (hbody : ∀ i s s1, P s → body i s = some s1 → P s1)
    {s s1 : σ} (hP : P s) (h : foldScan body step bound s = some s1) : P s1 := by
  have key : ∀ (fuel : Nat) (i : Int) (s s1 : σ), P s →
      foldFrom body step bound fuel i s = some s1 → P s1 := by
    intro fuel
    induction fuel with
    | zero => intro i s s1 _ h; simp [foldFrom] at h
    | succ n ih =>
      intro i s s1 hP h
      simp only [foldFrom] at h
      split_ifs at h with hb
      · cases hbd : body i s with
        | none => simp [hbd] at h
        | some s2 =>
          simp only [hbd] at h
          exact ih (i + step) s2 s1 (hbody i s s2 hP hbd) h
      · simp only [Option.some.injEq] at h
        exact h ▸ hP
  exact key _ 0 s s1 hP h

/-- Erasing an element that satisfies `q` lowers the number of elements satisfying `q`
by one. -/
theorem length_filter_eraseIdx {α : Type} (q : α → Bool) :
    ∀ (l : List α) (i : Nat) (a : α), l[i]? = some a → q a = true →
      ((l.eraseIdx i).filter q).length + 1 = (l.filter q).length := by
  intro l
  induction l with
  | nil => intro i a h; simp at h
  | cons b rest ih =>
    intro i a h hq
    cases i with
    | zero =>
      simp only [List.getElem?_cons_zero, Option.some.injEq] at h
      subst h
      simp [List.filter_cons, hq]
    | succ j =>
      simp only [List.getElem?_cons_succ] at h
      have := ih j a h hq
      simp only [List.eraseIdx_cons_succ, List.filter_cons]
      split_ifs
      · simp only [List.length_cons]
        omega
      · exact this

/-- The position `findIdx?` returns holds an element that satisfies the predicate. -/
theorem findIdx?_getElem? {α : Type} {p : α → Bool} {l : List α} {i : Nat}
    (h : l.findIdx? p = some i) : ∃ a, l[i]? = some a ∧ p a = true := by
  obtain ⟨hi, hp, -⟩ := List.findIdx?_eq_some_iff_getElem.1 h
  exact ⟨l[i], by simp [hi], hp⟩

/-- A list is a rearrangement of one of its elements followed by the rest. -/
theorem perm_cons_eraseIdx {α : Type} :
    ∀ (l : List α) (i : Nat) (a : α), l[i]? = some a → l.Perm (a :: l.eraseIdx i) := by
  intro l
  induction l with
  | nil => intro i a h; simp at h
  | cons b rest ih =>
    intro i a h
    cases i with
    | zero =>
      simp only [List.getElem?_cons_zero, Option.some.injEq] at h
      subst h
      simp
    | succ j =>
      simp only [List.getElem?_cons_succ] at h
      simp only [List.eraseIdx_cons_succ]
      exact ((ih j a h).cons b).trans (List.Perm.swap a b _)

namespace StackingAlgorithm

/-! ## Effects of the buffer operations -/

theorem try_place_in_buffer_effect {e e1 : StackingAlgorithm} {box : Box} {b : Bool}
    (h : try_place_in_buffer e box = some (b, e1)) :
    (b = false ∧ e1 = e) ∨
      (b = true ∧ e1.boxes = e.boxes ∧ e1.buffer_count = e.buffer_count + 1 ∧
        ∃ r : StackResult, r.pallet_id = 2 ∧ r.box_id = box.box_id ∧
          e1.final_placements = e.final_placements ++ [r]) := by
  unfold try_place_in_buffer at h
  split at h
  · split at h
    · simp at h
    · simp only [Option.some.injEq, Prod.mk.injEq] at h
      obtain ⟨rfl, rfl⟩ := h
      exact Or.inr ⟨rfl, rfl, rfl, _, rfl, rfl, rfl⟩
    · simp only [Option.some.injEq, Prod.mk.injEq] at h
      obtain ⟨rfl, rfl⟩ := h
      exact Or.inl ⟨rfl, rfl⟩
  · simp only [Option.some.injEq, Prod.mk.injEq] at h
    obtain ⟨rfl, rfl⟩ := h
    exact Or.inl ⟨rfl, rfl⟩

theorem try_place_in_main_effect {e e1 : StackingAlgorithm} {box : Box} {b : Bool}
    (h : try_place_in_main e box = some (b, e1)) :
    (b = false ∧ e1 = e) ∨
      (b = true ∧ e1.boxes = e.boxes ∧ e1.buffer_count = e.buffer_count ∧
        ∃ r : StackResult, r.pallet_id = 1 ∧ r.box_id = box.box_id ∧
          e1.final_placements = e.final_placements ++ [r]) := by
  unfold try_place_in_main at h
  split at h
  · split at h
    · simp at h
    · simp only [Option.some.injEq, Prod.mk.injEq] at h
      obtain ⟨rfl, rfl⟩ := h
      exact Or.inr ⟨rfl, rfl, rfl, _, rfl, rfl, rfl⟩
    · simp only [Option.some.injEq, Prod.mk.injEq] at h
      obtain ⟨rfl, rfl⟩ := h
      exact Or.inl ⟨rfl, rfl⟩
  · simp only [Option.some.injEq, Prod.mk.injEq] at h
    obtain ⟨rfl, rfl⟩ := h
    exact Or.inl ⟨rfl, rfl⟩

/-- What a call of `move_best_fit_from_buffer_to_main` does: nothing when it returns
`false`; when it returns `true`, the first buffer entry with the id of the best fit is
erased, `buffer_placements` is rebuilt, and the best fit is appended to `main_placements`
and, as a `pallet_id` 1 entry, to `final_placements`. -/
theorem move_effect {e e1 : StackingAlgorithm} {b : Bool}
    (h : move_best_fit_from_buffer_to_main e = some (b, e1)) :
    (b = false ∧ e1 = e) ∨
      (b = true ∧ ∃ (best : BestFit) (i : Nat) (rebuilt : List Placement) (s0 s1 s2 : Int)
          (rest : List Int),
        find_best_fit_from_buffer e = some best ∧ best.best_box_id ≠ "" ∧
        e.final_placements.findIdx?
          (fun r => decide (r.pallet_id = 2) && r.box_id == best.best_box_id) = some i ∧
        (e.final_placements.eraseIdx i).foldlM (rebuild_step e) [] = some rebuilt ∧
        best.best_box_size = s0 :: s1 :: s2 :: rest ∧
        e1 = { e with
          buffer_count := e.buffer_count - 1,
          buffer_placements := rebuilt,
          main_placements := e.main_placements ++
            [padded e.stacking_interval best.best_location.1 best.best_location.2.1
              best.best_location.2.2 s0 s1 s2],
          final_placements := e.final_placements.eraseIdx i ++
            [resultAt best.best_box_id best.best_location.1 best.best_location.2.1
              best.best_location.2.2 s0 s1 1] }) := by
  unfold move_best_fit_from_buffer_to_main at h
  split at h
  · simp at h
  · rename_i best hbest
    split_ifs at h with hne
    · split at h
      · rename_i i hidx
        dsimp only at h
        split at h
        · rename_i rebuilt s0 s1 s2 rest hreb hbs
          simp only [Option.some.injEq, Prod.mk.injEq] at h
          obtain ⟨rfl, rfl⟩ := h
          exact Or.inr ⟨rfl, best, i, rebuilt, s0, s1, s2, rest, hbest, hne, hidx, hreb, hbs,
            rfl⟩
        · simp at h
      · simp only [Option.some.injEq, Prod.mk.injEq] at h
        obtain ⟨rfl, rfl⟩ := h
        exact Or.inl ⟨rfl, rfl⟩
    · simp only [Option.some.injEq, Prod.mk.injEq] at h
      obtain ⟨rfl, rfl⟩ := h
      exact Or.inl ⟨rfl, rfl⟩

/-- A successful move keeps the configuration, lowers `buffer_count` by one and lowers the
number of `pallet_id` 2 entries by exactly one. -/
theorem move_true_counts {e e1 : StackingAlgorithm}
    (h : move_best_fit_from_buffer_to_main e = some (true, e1)) :
    e1.boxes = e.boxes ∧ e1.stacking_interval = e.stacking_interval ∧
      e1.pallet_size = e.pallet_size ∧ e1.buffer_count = e.buffer_count - 1 ∧
      buffered e1.final_placements + 1 = buffered e.final_placements ∧
      (∀ r ∈ e1.final_placements, r.pallet_id = 2 → r ∈ e.final_placements) := by
  rcases move_effect h with ⟨hb, -⟩ | ⟨-, best, i, rebuilt, s0, s1, s2, rest, -, -, hidx, -, -, rfl⟩
  · exact absurd hb (by decide)
  · obtain ⟨a, ha, hpa⟩ := findIdx?_getElem? hidx
    simp only [Bool.and_eq_true, decide_eq_true_eq] at hpa
    refine ⟨rfl, rfl, rfl, rfl, ?_, ?_⟩
    · have := length_filter_eraseIdx (fun r : StackResult => decide (r.pallet_id = 2))
        e.final_placements i a ha (by simpa using hpa.1)
      simp only [buffered, List.filter_append, List.length_append]
      have hnew : (List.filter (fun r : StackResult => decide (r.pallet_id = 2))
          [resultAt best.best_box_id best.best_location.1 best.best_location.2.1
            best.best_location.2.2 s0 s1 1]).length = 0 := by
        simp [resultAt]
      rw [hnew]
      omega
    · intro r hr h2
      simp only [List.mem_append, List.mem_singleton] at hr
      rcases hr with hr | rfl
      · exact List.mem_of_mem_eraseIdx hr
      · simp [resultAt] at h2

/-! ## Buffer capacity and termination of the promotion phase -/

theorem buffered_append_singleton (l : List StackResult) (r : StackResult) :
    buffered (l ++ [r]) = buffered l + (if r.pallet_id = 2 then 1 else 0) := by
  simp only [buffered, List.filter_append, List.length_append, List.filter_cons,
    List.filter_nil]
  by_cases h : r.pallet_id = 2 <;> simp [h]

theorem fill_step_capacity {e e1 : StackingAlgorithm} {box : Box}
    (hinv : withinCapacity e) (h : fill_step e box = some e1) : withinCapacity e1 := by
  have hmain : ∀ e2 e3 : StackingAlgorithm, withinCapacity e2 →
      (try_place_in_main e2 box).map Prod.snd = some e3 → withinCapacity e3 := by
    intro e2 e3 hinv2 hm
    cases hm1 : try_place_in_main e2 box with
    | none => simp [hm1] at hm
    | some p =>
      obtain ⟨b, e4⟩ := p
      simp only [hm1, Option.map_some', Option.some.injEq] at hm
      subst hm
      rcases try_place_in_main_effect hm1 with ⟨-, rfl⟩ | ⟨-, -, hc, r, hr, -, hf⟩
      · exact hinv2
      · unfold withinCapacity at hinv2 ⊢
        rw [hf, hc, buffered_append_singleton]
        simp only [hr, show ¬ (1 : Int) = 2 by decide, if_false, Nat.add_zero]
        exact hinv2
  unfold fill_step at h
  split_ifs at h with hused hcount
  · simp only [Option.some.injEq] at h
    exact h ▸ hinv
  · split at h
    · simp at h
    · rename_i e2 hbuf
      simp only [Option.some.injEq] at h
      subst h
      rcases try_place_in_buffer_effect hbuf with ⟨hb, -⟩ | ⟨-, -, hc, r, hr, -, hf⟩
      · exact absurd hb (by decide)
      · unfold withinCapacity at hinv ⊢
        rw [hf, hc, buffered_append_singleton]
        simp only [hr, if_true]
        refine ⟨by push_cast; omega, ?_⟩
        unfold MAX_BUFFER_COUNT at hcount ⊢
        omega
    · rename_i e2 hbuf
      rcases try_place_in_buffer_effect hbuf with ⟨-, rfl⟩ | ⟨hb, -⟩
      · exact hmain _ _ hinv h
      · exact absurd hb (by decide)
  · exact hmain _ _ hinv h

theorem moves_capacity : ∀ (n : Nat) (e e1 : StackingAlgorithm), withinCapacity e →
    moves n e = some e1 → withinCapacity e1 := by
  intro n
  induction n with
  | zero =>
    intro e e1 hinv h
    simp only [moves, Option.some.injEq] at h
    exact h ▸ hinv
  | succ m ih =>
    intro e e1 hinv h
    simp only [moves] at h
    split at h
    · rename_i e2 hm
      obtain ⟨-, -, -, hc, hb, -⟩ := move_true_counts hm
      refine ih e2 e1 ?_ h
      unfold withinCapacity at hinv ⊢
      rw [hc]
      refine ⟨by omega, by omega⟩
    · simp at h

/-- C11: during a Buffer-Then-Promote run on a fresh engine, after each box of the fill
phase (the state after any prefix of the box list) and after each promotion step (the
state after any number of successful moves following the fill phase), the number of
`pallet_id` 2 entries of the result set equals `buffer_count` and is at most
`MAX_BUFFER_COUNT = 100`. -/
theorem buffer_capacity (boxes : List Box) (pallet_size : Int × Int × Int) (gap : Int) :
    MAX_BUFFER_COUNT = 100 ∧
    (∀ (k : Nat) (e : StackingAlgorithm),
      (boxes.take k).foldlM fill_step (new boxes pallet_size gap) = some e →
        withinCapacity e) ∧
    (∀ (e1 : StackingAlgorithm) (n : Nat) (e : StackingAlgorithm),
      boxes.foldlM fill_step (new boxes pallet_size gap) = some e1 →
        moves n e1 = some e → withinCapacity e) := by
  have h0 : withinCapacity (new boxes pallet_size gap) := by
    unfold withinCapacity new buffered MAX_BUFFER_COUNT
    simp
  have hfill : ∀ (l : List Box) (e : StackingAlgorithm),
      l.foldlM fill_step (new boxes pallet_size gap) = some e → withinCapacity e :=
    fun l e h => foldlM_inv withinCapacity fill_step l _ e
      (fun _ _ _ _ hP hf => fill_step_capacity hP hf) h0 h
  exact ⟨rfl, fun k e h => hfill _ e h,
    fun e1 n e h1 h2 => moves_capacity n e1 e (hfill _ e1 h1) h2⟩

/-- Witness for C11: one box `(5,5,5)` in a `20×10×10` container with gap 5 is in the
buffer after the fill phase. -/
theorem buffer_capacity_witness : withinCapacity oneBuffered :=
  (buffer_capacity [⟨"A", "[5,5,5]"⟩] (20, 10, 10) 5).2.1 1 oneBuffered (by decide)

/-! ### Termination -/

theorem best_fit_step_defined {e : StackingAlgorithm} (hgap : 0 < e.stacking_interval)
    (b : BestFit) (r : StackResult)
    (hwf : ∀ box : Box, bufferedBox e r box → 3 ≤ (parseBoxSize box.box_size).length) :
    best_fit_step e b r ≠ none := by
  unfold best_fit_step
  split_ifs with hp
  · split
    · rename_i box hfind
      have hlen := hwf box ⟨hp, hfind⟩
      split
      · exact foldScan_defined _ hgap (fun z s => foldScan_defined _ hgap
          (fun y s => foldScan_defined _ hgap (fun x s => by simp) s) s) b
      · rename_i hne
        exfalso
        match hsz : parseBoxSize box.box_size, hlen, hne with
        | [], hl, _ => simp at hl
        | [_], hl, _ => simp at hl
        | [_, _], hl, _ => simp at hl
        | s0 :: s1 :: s2 :: rest, _, hn => exact hn s0 s1 s2 rest rfl
    · simp
  · simp

theorem rebuild_step_defined {e : StackingAlgorithm} (acc : List Placement)
    (r : StackResult)
    (hwf : ∀ box : Box, bufferedBox e r box → 3 ≤ (parseBoxSize box.box_size).length) :
    rebuild_step e acc r ≠ none := by
  unfold rebuild_step
  split_ifs with hp
  · split
    · rename_i box hfind
      have hlen := hwf box ⟨hp, hfind⟩
      split
      · simp
      · rename_i hne
        exfalso
        match hsz : parseBoxSize box.box_size, hlen, hne with
        | [], hl, _ => simp at hl
        | [_], hl, _ => simp at hl
        | [_, _], hl, _ => simp at hl
        | s0 :: s1 :: s2 :: rest, _, hn => exact hn s0 s1 s2 rest rfl
    · simp
  · simp

/-- With a positive gap and well-formed buffer entries a call of
`move_best_fit_from_buffer_to_main` has a defined result. -/
theorem move_defined {e : StackingAlgorithm} (hgap : 0 < e.stacking_interval)
    (hwf : buffersWellFormed e) : move_best_fit_from_buffer_to_main e ≠ none := by
  unfold move_best_fit_from_buffer_to_main
  split
  · rename_i hnone
    exact absurd hnone (foldlM_defined _ _ _ fun t a ha =>
      best_fit_step_defined hgap t a (hwf a ha))
  · rename_i best hbest
    split_ifs with hne
    · split
      · rename_i i hidx
        dsimp only
        have hreb : (e.final_placements.eraseIdx i).foldlM (rebuild_step e) [] ≠ none :=
          foldlM_defined _ _ _ fun t a ha =>
            rebuild_step_defined t a (hwf a (List.mem_of_mem_eraseIdx ha))
        rcases find_best_fit_ok hgap hbest with hemp | ⟨_, _, _, s0, s1, s2, rest, _, hbs, _⟩
        · exact absurd hemp hne
        · cases hr : (e.final_placements.eraseIdx i).foldlM (rebuild_step e) [] with
          | none => exact absurd hr hreb
          | some rebuilt => simp [hbs]
      · simp
    · simp

theorem move_true_wellFormed {e e1 : StackingAlgorithm} (hwf : buffersWellFormed e)
    (h : move_best_fit_from_buffer_to_main e = some (true, e1)) : buffersWellFormed e1 := by
  obtain ⟨hb, -, -, -, -, hsub⟩ := move_true_counts h
  intro r hr box hbox
  obtain ⟨h2, hfind⟩ := hbox
  exact hwf r (hsub r hr h2) box ⟨h2, hb ▸ hfind⟩

theorem promote_terminates : ∀ (fuel : Nat) (e : StackingAlgorithm),
    0 < e.stacking_interval → buffersWellFormed e → buffered e.final_placements < fuel →
    ∃ (n : Nat) (e1 : StackingAlgorithm), n ≤ buffered e.final_placements ∧
      moves n e = some e1 ∧ move_best_fit_from_buffer_to_main e1 = some (false, e1) ∧
      promote fuel e = some e1 := by
  intro fuel
  induction fuel with
  | zero => intro e _ _ h; omega
  | succ m ih =>
    intro e hgap hwf hlt
    cases hm : move_best_fit_from_buffer_to_main e with
    | none => exact absurd hm (move_defined hgap hwf)
    | some p =>
      obtain ⟨b, e2⟩ := p
      cases b with
      | false =>
        rcases move_effect hm with ⟨-, rfl⟩ | ⟨hb, -⟩
        · exact ⟨0, e2, Nat.zero_le _, rfl, hm, by simp [promote, hm]⟩
        · exact absurd hb (by decide)
      | true =>
        obtain ⟨-, hg, -, -, hcount, -⟩ := move_true_counts hm
        obtain ⟨n, e1, hn, hmv, hend, hpr⟩ := ih e2 (hg ▸ hgap)
          (move_true_wellFormed hwf hm) (by omega)
        exact ⟨n + 1, e1, by omega, by simp [moves, hm, hmv], hend, by simp [promote, hm, hpr]⟩

/-- C12: with a positive gap and well-formed buffer entries, the loop
`while (move_best_fit_from_buffer_to_main()) {}` terminates from any engine state: after
some number `n` of successful moves, at most the number of `pallet_id` 2 entries at the
start, a call returns `false`, and `promote` ends in that state.  Every successful move
lowers the number of `pallet_id` 2 entries by exactly one. -/
theorem promotion_terminates (e : StackingAlgorithm) (hgap : 0 < e.stacking_interval)
    (hwf : buffersWellFormed e) :
    (∃ (n : Nat) (e1 : StackingAlgorithm), n ≤ buffered e.final_placements ∧
      moves n e = some e1 ∧ move_best_fit_from_buffer_to_main e1 = some (false, e1) ∧
      promote (buffered e.final_placements + 1) e = some e1) ∧
    (∀ e2 e3 : StackingAlgorithm, move_best_fit_from_buffer_to_main e2 = some (true, e3) →
      buffered e3.final_placements + 1 = buffered e2.final_placements) :=
  ⟨promote_terminates _ e hgap hwf (Nat.lt_succ_self _),
    fun _ _ h => (move_true_counts h).2.2.2.2.1⟩

theorem oneBuffered_wellFormed : buffersWellFormed oneBuffered := by
  intro r hr box hbox
  obtain ⟨-, hfind⟩ := hbox
  have hr1 : r = ⟨"A", (3, 3, 0), 0, 2⟩ := by simpa [oneBuffered] using hr
  subst hr1
  have hb : oneBuffered.boxes.find? (fun bx => bx.box_id == "A") =
      some ⟨"A", "[5,5,5]"⟩ := by decide
  rw [hb] at hfind
  simp only [Option.some.injEq] at hfind
  subst hfind
  decide

/-- Witness for C12: from `oneBuffered` the promotion loop makes one successful move and
ends in `onePromoted`. -/
theorem promotion_terminates_witness :
    ∃ (n : Nat) (e1 : StackingAlgorithm), n ≤ buffered oneBuffered.final_placements ∧
      moves n oneBuffered = some e1 ∧
      move_best_fit_from_buffer_to_main e1 = some (false, e1) ∧
      promote (buffered oneBuffered.final_placements + 1) oneBuffered = some e1 :=
  (promotion_terminates oneBuffered (by decide) oneBuffered_wellFormed).1

/-! ### Frame of a promotion step -/

/-- The best fit found so far is nothing, or the size recorded is the parsed size of the
box looked up for the recorded id. -/
theorem find_best_fit_link {e : StackingAlgorithm} {best : BestFit}
    (h : find_best_fit_from_buffer e = some best) :
    best.best_box_id = "" ∨
      ∃ box : Box, e.boxes.find? (fun bx => bx.box_id == best.best_box_id) = some box ∧
        parseBoxSize box.box_size = best.best_box_size := by
  let P : BestFit → Prop := fun b => b.best_box_id = "" ∨
      ∃ box : Box, e.boxes.find? (fun bx => bx.box_id == b.best_box_id) = some box ∧
        parseBoxSize box.box_size = b.best_box_size
  refine foldlM_inv P (best_fit_step e) e.final_placements _ best ?_ (Or.inl rfl) h
  intro b placement b1 _ hP hstep
  unfold best_fit_step at hstep
  split_ifs at hstep with hp
  · split at hstep
    · rename_i box hfind
      split at hstep
      · rename_i s0 s1 s2 rest hsize
        refine foldScan_pres P ?_ hP hstep
        intro z s t hs ht
        refine foldScan_pres P ?_ hs ht
        intro y s t hs ht
        refine foldScan_pres P ?_ hs ht
        intro x s t hs ht
        simp only [Option.some.injEq] at ht
        subst ht
        unfold best_fit_update
        split_ifs
        · exact Or.inr ⟨box, hfind, hsize⟩
        · exact hs
        · exact hs
      · simp at hstep
    · simp only [Option.some.injEq] at hstep
      exact hstep ▸ hP
  · simp only [Option.some.injEq] at hstep
    exact hstep ▸ hP

/-- C15: a successful promotion step changes exactly one box.  The result entry at some
position `i` is a buffer entry (`pallet_id` 2) of a box with parsed size `(s0, s1, s2)`;
it is erased, every other entry stays as it was and in place, one `pallet_id` 1 entry
with the same box id is appended, `main_placements` grows by exactly the padded box
of that size at the chosen corner, and the box ids of the result set are the same
multiset as before. -/
theorem promotion_step_frame (e e1 : StackingAlgorithm)
    (h : move_best_fit_from_buffer_to_main e = some (true, e1)) :
    ∃ (i : Nat) (r : StackResult) (box : Box) (s0 s1 s2 : Int) (rest : List Int)
        (x y z : Int),
      e.final_placements[i]? = some r ∧ bufferedBox e r box ∧
      parseBoxSize box.box_size = s0 :: s1 :: s2 :: rest ∧
      e1.final_placements =
        e.final_placements.eraseIdx i ++ [resultAt r.box_id x y z s0 s1 1] ∧
      (resultAt r.box_id x y z s0 s1 1).pallet_id = 1 ∧
      e1.main_placements =
        e.main_placements ++ [padded e.stacking_interval x y z s0 s1 s2] ∧
      (e1.final_placements.map fun p => p.box_id).Perm
        (e.final_placements.map fun p => p.box_id) ∧
      e1.boxes = e.boxes := by
  rcases move_effect h with ⟨hb, -⟩ |
    ⟨-, best, i, rebuilt, s0, s1, s2, rest, hbest, hne, hidx, -, hbs, rfl⟩
  · exact absurd hb (by decide)
  · obtain ⟨r, hr, hpr⟩ := findIdx?_getElem? hidx
    simp only [Bool.and_eq_true, decide_eq_true_eq, beq_iff_eq] at hpr
    obtain ⟨hr2, hrid⟩ := hpr
    rcases find_best_fit_link hbest with hemp | ⟨box, hfind, hsize⟩
    · exact absurd hemp hne
    · refine ⟨i, r, box, s0, s1, s2, rest, best.best_location.1, best.best_location.2.1,
        best.best_location.2.2, hr, ⟨hr2, by rw [hrid]; exact hfind⟩, by rw [hsize, hbs],
        by rw [hrid], rfl, rfl, ?_, rfl⟩
      have hperm := (perm_cons_eraseIdx e.final_placements i r hr).map fun p => p.box_id
      simp only [List.map_append, List.map_cons, List.map_nil, resultAt]
      refine (List.perm_append_comm.trans ?_).trans hperm.symm
      simp only [List.singleton_append, List.map_cons, hrid]
      exact List.Perm.refl _

/-- Witness for C15: the promotion step from `oneBuffered` to `onePromoted`. -/
theorem promotion_step_frame_witness :
    ∃ (i : Nat) (r : StackResult) (box : Box) (s0 s1 s2 : Int) (rest : List Int)
        (x y z : Int),
      oneBuffered.final_placements[i]? = some r ∧ bufferedBox oneBuffered r box ∧
      parseBoxSize box.box_size = s0 :: s1 :: s2 :: rest ∧
      onePromoted.final_placements =
        oneBuffered.final_placements.eraseIdx i ++ [resultAt r.box_id x y z s0 s1 1] ∧
      (resultAt r.box_id x y z s0 s1 1).pallet_id = 1 ∧
      onePromoted.main_placements =
        oneBuffered.main_placements ++
          [padded oneBuffered.stacking_interval x y z s0 s1 s2] ∧
      (onePromoted.final_placements.map fun p => p.box_id).Perm
        (oneBuffered.final_placements.map fun p => p.box_id) ∧
      onePromoted.boxes = oneBuffered.boxes :=
  promotion_step_frame oneBuffered onePromoted (by decide)

end StackingAlgorithm

/-! ## Products inside the range of `int` -/

theorem wrapInt_of_range {n : Int} (h1 : -2147483648 ≤ n) (h2 : n ≤ 2147483647) :
    wrapInt n = n := by
  unfold wrapInt
  omega

theorem int_mul_of_range {a b : Int} (h1 : -2147483648 ≤ a * b) (h2 : a * b ≤ 2147483647) :
    int_mul a b = a * b :=
  wrapInt_of_range h1 h2

/-- Inside the range of `int` the product the code forms is the volume `w * l * h`. -/
theorem int_volume_of_range {w l h : Int} {rest : List Int}
    (hr : volumeInRange (w :: l :: h :: rest)) :
    int_mul (int_mul w l) h = w * l * h := by
  obtain ⟨h1, h2, h3, h4⟩ := hr
  rw [int_mul_of_range h1 h2, int_mul_of_range h3 h4]

theorem volume_of_range {size : List Int} (hr : volumeInRange size) :
    StackingAlgorithm.volume size = boxVolume size := by
  match size, hr with
  | [], _ => rfl
  | [_], _ => rfl
  | [_, _], _ => rfl
  | w :: l :: h :: rest, hr => exact int_volume_of_range hr

namespace StackingAlgorithm

/-! ## Order of processing in `optimized_stack` -/

/-- The results of the placing loop are recorded, in order, for a subsequence of the
processed list. -/
theorem optimized_loop_sublist (e : StackingAlgorithm) :
    ∀ (l : List (String × List Int)) (st st1 : BoxPlacement × List StackResult),
      l.foldlM (optimized_step e) st = some st1 →
      ∃ (placed : List (String × List Int)) (added : List StackResult),
        placed.Sublist l ∧ st1.2 = st.2 ++ added ∧
        List.Forall₂ (fun r entry => r.box_id = entry.1) added placed := by
  intro l
  induction l with
  | nil =>
    intro st st1 h
    simp only [List.foldlM_nil, pure, Option.some.injEq] at h
    subst h
    exact ⟨[], [], List.Sublist.refl _, by simp, List.Forall₂.nil⟩
  | cons entry rest ih =>
    intro st st1 h
    simp only [List.foldlM_cons, bind, Option.bind] at h
    cases hstep : optimized_step e st entry with
    | none => simp [hstep] at h
    | some st2 =>
      simp only [hstep] at h
      obtain ⟨placed, added, hsub, hres, hrel⟩ := ih st2 st1 h
      unfold optimized_step at hstep
      split at hstep
      · simp at hstep
      · simp only [Option.some.injEq] at hstep
        subst hstep
        exact ⟨placed, added, hsub.cons _, hres, hrel⟩
      · rename_i position rotation g1 htry
        split at hstep
        · rename_i s0 s1 tail hsz
          simp only [Option.some.injEq] at hstep
          subst hstep
          refine ⟨entry :: placed,
            { box_id := entry.1,
              box_loc := (position.1 + ceilHalf s0, position.2.1 + ceilHalf s1, position.2.2),
              box_rot := rotation, pallet_id := 1 } :: added,
            hsub.cons₂ _, ?_, List.Forall₂.cons rfl hrel⟩
          rw [hres]
          simp
        · simp at hstep

theorem sort_comp_false_iff (a b : String × List Int) :
    sort_comp b a = false ↔ volume a.2 ≥ volume b.2 := by
  unfold sort_comp
  simp only [decide_eq_false_iff_not, not_lt, ge_iff_le, gt_iff_lt]

/-- C16: when `std::sort` has done what the standard promises for the comparator
`sort_comp` of the source (`vol_a > vol_b` on `int` products), and the volumes of the
boxes are inside the range of `int`, the placements `optimized_stack` returns are
recorded, in order, for a subsequence `placed` of the sorted box list, and along `placed`
the box volume `w * l * h` never increases: of any two result entries the earlier one
belongs to a box of greater or equal volume. -/
theorem optimized_stack_volume_order
    (std_sort : StdSort)
    (e : StackingAlgorithm) (res : List StackResult) (e1 : StackingAlgorithm)
    (hsort : StdSortSpec std_sort)
    (hrange : ∀ box ∈ e.boxes, volumeInRange (parseBoxSize box.box_size))
    (h : optimized_stack std_sort e = some (res, e1)) :
    ∃ placed : List (String × List Int),
      placed.Sublist (std_sort sort_comp (sorted_boxes_input e)) ∧
      (∀ entry ∈ placed, ∃ box ∈ e.boxes,
        entry = (box.box_id, parseBoxSize box.box_size)) ∧
      List.Forall₂ (fun r entry => r.box_id = entry.1) res placed ∧
      placed.Pairwise (fun a b => boxVolume a.2 ≥ boxVolume b.2) := by
  unfold optimized_stack at h
  split at h
  · simp at h
  · rename_i g0 hg0
    cases hf : (std_sort sort_comp (sorted_boxes_input e)).foldlM (optimized_step e)
        (g0, []) with
    | none => simp [hf] at h
    | some st =>
      simp only [hf, Option.map_some', Option.some.injEq, Prod.mk.injEq] at h
      obtain ⟨rfl, -⟩ := h
      obtain ⟨placed, added, hsub, hres, hrel⟩ := optimized_loop_sublist e _ _ _ hf
      simp only [List.nil_append] at hres
      have hbox : ∀ entry ∈ placed, ∃ box ∈ e.boxes,
          entry = (box.box_id, parseBoxSize box.box_size) := by
        intro entry hmem
        have hm := (hsort (sorted_boxes_input e)).1.mem_iff.1 (hsub.subset hmem)
        simp only [sorted_boxes_input, List.mem_map] at hm
        obtain ⟨box, hbox, rfl⟩ := hm
        exact ⟨box, hbox, rfl⟩
      have hvol : ∀ entry ∈ placed, volume entry.2 = boxVolume entry.2 := by
        intro entry hmem
        obtain ⟨box, hb, rfl⟩ := hbox entry hmem
        exact volume_of_range (hrange box hb)
      refine ⟨placed, hsub, hbox, hres ▸ hrel, ?_⟩
      refine List.Pairwise.imp_of_mem ?_ ((hsort (sorted_boxes_input e)).2.sublist hsub)
      intro a b ha hb hab
      rw [← hvol a ha, ← hvol b hb]
      exact (sort_comp_false_iff a b).1 hab

theorem stable_sort_spec : StdSortSpec stable_sort := by
  intro l
  haveI : IsTotal (String × List Int) (fun a b => sort_comp b a = false) :=
    ⟨fun a b => by
      simp only [sort_comp_false_iff]
      exact le_total _ _⟩
  haveI : IsTrans (String × List Int) (fun a b => sort_comp b a = false) :=
    ⟨fun a b c hab hbc => by
      simp only [sort_comp_false_iff] at hab hbc ⊢
      exact le_trans hbc hab⟩
  exact ⟨List.perm_insertionSort _ l,
    List.sorted_insertionSort (fun a b : String × List Int => sort_comp b a = false) l⟩

theorem reversing_sort_spec : StdSortSpec reversing_sort := by
  intro l
  haveI : IsTotal (String × List Int) (fun a b => sort_comp b a = false) :=
    ⟨fun a b => by
      simp only [sort_comp_false_iff]
      exact le_total _ _⟩
  haveI : IsTrans (String × List Int) (fun a b => sort_comp b a = false) :=
    ⟨fun a b c hab hbc => by
      simp only [sort_comp_false_iff] at hab hbc ⊢
      exact le_trans hbc hab⟩
  exact ⟨(List.perm_insertionSort _ l.reverse).trans (List.reverse_perm l),
    List.sorted_insertionSort
      (fun a b : String × List Int => sort_comp b a = false) l.reverse⟩

theorem volumeInRange_555_1055 :
    ∀ box ∈ (new [⟨"A", "[5,5,5]"⟩, ⟨"B", "[10,5,5]"⟩] (30, 10, 10) 5).boxes,
      volumeInRange (parseBoxSize box.box_size) := by
  intro bx hbx
  have hbx1 : bx = ⟨"A", "[5,5,5]"⟩ ∨ bx = ⟨"B", "[10,5,5]"⟩ := by
    simpa [new] using hbx
  rcases hbx1 with rfl | rfl
  · have hs : parseBoxSize "[5,5,5]" = [5, 5, 5] := by decide
    rw [hs]
    unfold volumeInRange
    decide
  · have hs : parseBoxSize "[10,5,5]" = [10, 5, 5] := by decide
    rw [hs]
    unfold volumeInRange
    decide

/-- Witness for C16: boxes `A` `(5,5,5)` and `B` `(10,5,5)`, given in this order, in a
`30×10×10` container with gap 5; the run returns `B` before `A`. -/
theorem optimized_stack_volume_order_witness :
    ∃ placed : List (String × List Int),
      placed.Sublist (stable_sort sort_comp (sorted_boxes_input
        (new [⟨"A", "[5,5,5]"⟩, ⟨"B", "[10,5,5]"⟩] (30, 10, 10) 5))) ∧
      (∀ entry ∈ placed, ∃ box ∈ (new [⟨"A", "[5,5,5]"⟩, ⟨"B", "[10,5,5]"⟩]
          (30, 10, 10) 5).boxes,
        entry = (box.box_id, parseBoxSize box.box_size)) ∧
      List.Forall₂ (fun r entry => r.box_id = entry.1)
        [(⟨"B", (5, 3, 0), 0, 1⟩ : StackResult), ⟨"A", (18, 3, 0), 0, 1⟩] placed ∧
      placed.Pairwise (fun a b => boxVolume a.2 ≥ boxVolume b.2) :=
  optimized_stack_volume_order stable_sort
    (new [⟨"A", "[5,5,5]"⟩, ⟨"B", "[10,5,5]"⟩] (30, 10, 10) 5)
    [⟨"B", (5, 3, 0), 0, 1⟩, ⟨"A", (18, 3, 0), 0, 1⟩]
    { new [⟨"A", "[5,5,5]"⟩, ⟨"B", "[10,5,5]"⟩] (30, 10, 10) 5 with
      placement_manager := some
        { pallet_dimensions := (30, 10, 10),
          grid_cells := [true, true, true, true, true, false, true, true, true, true, true,
            false, true, true, true, true, true, false, true, true, true, true, true, false],
          placed_boxes := [⟨(0, 0, 0), [10, 5, 5], 0⟩, ⟨(15, 0, 0), [5, 5, 5], 0⟩] } }
    stable_sort_spec volumeInRange_555_1055 (by decide)

/-- A rearrangement of a two-element list that the contract of `std::sort` allows is the
list itself or the swapped list; when the comparator orders the second element before
the first, it is the swapped list. -/
theorem sorted_pair_swapped {std_sort : StdSort} (hsort : StdSortSpec std_sort)
    (a b : String × List Int) (hab : a ≠ b) (hcomp : sort_comp b a = true) :
    std_sort sort_comp [a, b] = [b, a] := by
  obtain ⟨hperm, hpw⟩ := hsort [a, b]
  have hlen := hperm.length_eq
  match hl : std_sort sort_comp [a, b], hlen with
  | [x, y], _ =>
    rw [hl] at hperm hpw
    have hx : x ∈ [a, b] := hperm.subset (List.mem_cons_self _ _)
    have hy : y ∈ [a, b] := hperm.subset (List.mem_cons_of_mem _ (List.mem_cons_self _ _))
    have hnd : [x, y].Nodup := hperm.nodup_iff.2 (by simp [hab])
    have hxy : x ≠ y := by
      intro h
      simp [h] at hnd
    have hrel : sort_comp y x = false := by
      have := List.pairwise_cons.1 hpw
      exact this.1 y (List.mem_cons_self _ _)
    simp only [List.mem_cons, List.mem_singleton, List.not_mem_nil, or_false] at hx hy
    rcases hx with rfl | rfl <;> rcases hy with rfl | rfl
    · exact absurd rfl hxy
    · rw [hcomp] at hrel
      exact absurd hrel (by decide)
    · rfl
    · exact absurd rfl hxy

end StackingAlgorithm

/-! ## Running the search forwards -/

theorem scanFrom_intro {α : Type} (body : Int → Option (Option α)) (step bound : Int)
    (hstep : 0 < step) (r : α) :
    ∀ (k fuel : Nat) (i : Int), i + k * step ≤ bound → body (i + k * step) = some (some r) →
      (∀ j : Nat, j < k → body (i + j * step) = some none) → k < fuel →
      scanFrom body step bound fuel i = some (some r) := by
  intro k
  induction k with
  | zero =>
    intro fuel i hk hb _ hf
    obtain ⟨f, rfl⟩ : ∃ f, fuel = f + 1 := ⟨fuel - 1, by omega⟩
    simp only [Nat.cast_zero, zero_mul, add_zero] at hk hb
    simp only [scanFrom, if_pos hk, hb]
  | succ k ih =>
    intro fuel i hk hb hpre hf
    obtain ⟨f, rfl⟩ : ∃ f, fuel = f + 1 := ⟨fuel - 1, by omega⟩
    have e1 : i + ((k + 1 : Nat) : Int) * step = i + step + k * step := by
      push_cast; ring
    have hk0 : (0 : Int) ≤ (k : Int) * step := mul_nonneg (Int.ofNat_nonneg k) hstep.le
    have hi : i ≤ bound := by rw [e1] at hk; omega
    have h0 : body i = some none := by simpa using hpre 0 (Nat.succ_pos k)
    simp only [scanFrom, if_pos hi, h0]
    refine ih f (i + step) (by rw [← e1]; exact hk) (by rw [← e1]; exact hb) ?_ (by omega)
    intro j hj
    have e2 : i + ((j + 1 : Nat) : Int) * step = i + step + j * step := by
      push_cast; ring
    rw [← e2]
    exact hpre (j + 1) (by omega)

/-- A `scan` with positive stride returns the result of the first multiple of the stride,
inside the bound, at which the body finds one. -/
theorem scan_intro {α : Type} {body : Int → Option (Option α)} {step bound : Int} {r : α}
    (hstep : 0 < step) (k : Nat) (hk : (k : Int) * step ≤ bound)
    (hb : body (k * step) = some (some r))
    (hpre : ∀ j : Nat, j < k → body (j * step) = some none) :
    scan body step bound = some (some r) := by
  unfold scan
  have hk0 : (k : Int) ≤ (k : Int) * step := by
    have := mul_le_mul_of_nonneg_left (show (1 : Int) ≤ step by omega) (Int.ofNat_nonneg k)
    simpa using this
  exact scanFrom_intro body step bound hstep r k _ 0 (by simpa using hk) (by simpa using hb)
    (fun j hj => by simpa using hpre j hj) (by omega)

namespace BoxPlacement

theorem readCells_clear (cells : List Bool) : ∀ idxs : List Int,
    (∀ idx ∈ idxs, 0 ≤ idx ∧ idx < cells.length ∧ cells.getD idx.toNat false = false) →
      readCells cells idxs = some false := by
  intro idxs
  induction idxs with
  | nil => intro _; rfl
  | cons i rest ih =>
    intro h
    obtain ⟨h1, h2, h3⟩ := h i (List.mem_cons_self _ _)
    simp only [readCells, if_pos (And.intro h1 h2), h3, Bool.false_eq_true, if_false]
    exact ih fun idx hidx => h idx (List.mem_cons_of_mem _ hidx)

theorem readCells_set (cells : List Bool) : ∀ idxs : List Int,
    (∀ idx ∈ idxs, 0 ≤ idx ∧ idx < cells.length) →
    (∃ idx ∈ idxs, cells.getD idx.toNat false = true) →
      readCells cells idxs = some true := by
  intro idxs
  induction idxs with
  | nil => intro _ h; obtain ⟨_, hm, _⟩ := h; simp at hm
  | cons i rest ih =>
    intro h hex
    have hr := h i (List.mem_cons_self _ _)
    simp only [readCells, if_pos hr]
    cases hc : cells.getD i.toNat false with
    | true => simp
    | false =>
      simp only [Bool.false_eq_true, if_false]
      refine ih (fun idx hidx => h idx (List.mem_cons_of_mem _ hidx)) ?_
      obtain ⟨idx, hm, hs⟩ := hex
      rcases List.mem_cons.1 hm with rfl | hm
      · rw [hc] at hs; exact absurd hs (by decide)
      · exact ⟨idx, hm, hs⟩

theorem writeCells_defined : ∀ (idxs : List Int) (cells : List Bool),
    (∀ idx ∈ idxs, 0 ≤ idx ∧ idx < cells.length) →
    ∃ cells1, writeCells true cells idxs = some cells1 ∧ cells1.length = cells.length ∧
      ∀ n : Nat, cells1.getD n false = true →
        cells.getD n false = true ∨ (n : Int) ∈ idxs := by
  intro idxs
  induction idxs with
  | nil => intro cells _; exact ⟨cells, rfl, rfl, fun n hn => Or.inl hn⟩
  | cons i rest ih =>
    intro cells h
    have hr := h i (List.mem_cons_self _ _)
    obtain ⟨cells1, hw, hlen, hback⟩ := ih (cells.set i.toNat true) (fun idx hidx => by
      rw [List.length_set]; exact h idx (List.mem_cons_of_mem _ hidx))
    refine ⟨cells1, by simp only [writeCells, if_pos hr]; exact hw,
      by rw [hlen, List.length_set], ?_⟩
    intro n hn
    rcases hback n hn with hset | hmem
    · simp only [List.getD_eq_getElem?_getD, List.getElem?_set] at hset ⊢
      split_ifs at hset with h1 h2
      · exact Or.inr (by rw [← h1]; simp [Int.toNat_of_nonneg hr.1])
      · simp at hset
      · exact Or.inl hset
    · exact Or.inr (List.mem_cons_of_mem _ hmem)

/-- The value of `canPlaceBox` for a rotated size `(r0, r1, r2)` that lies inside the
container, from the value of the overlap test. -/
theorem canPlaceBox_of_read (g : BoxPlacement) {box_size : List Int}
    (pos : Int × Int × Int) {rot r0 r1 r2 : Int} {rest : List Int} {b : Bool}
    (hrs : getRotatedSize box_size rot = some (r0 :: r1 :: r2 :: rest))
    (hin : boxWithin g.pallet_dimensions pos.1 pos.2.1 pos.2.2 r0 r1 r2)
    (hread : readCells g.grid_cells (cellIndices g.pallet_dimensions pos r0 r1 r2) = some b) :
    canPlaceBox g box_size pos rot = some (!b) := by
  obtain ⟨x, y, z⟩ := pos
  obtain ⟨h1, h2, h3, h4, h5, h6⟩ := hin
  simp only at h1 h2 h3 h4 h5 h6
  simp [canPlaceBox, hrs, isWithinBounds, h1, h2, h3, h4, h5, h6, hasOverlap, hread]

/-- A call of `placeBox` whose cells are all inside the vector returns; the grid keeps its
size and the cells set afterwards are those set before and those of the box. -/
theorem placeBox_defined (g : BoxPlacement) {box_size : List Int}
    (pos : Int × Int × Int) {rot r0 r1 r2 : Int} {rest : List Int}
    (hrs : getRotatedSize box_size rot = some (r0 :: r1 :: r2 :: rest))
    (hrange : ∀ idx ∈ cellIndices g.pallet_dimensions pos r0 r1 r2,
      0 ≤ idx ∧ idx < g.grid_cells.length) :
    ∃ g1, placeBox g box_size pos rot = some g1 ∧
      g1.pallet_dimensions = g.pallet_dimensions ∧
      g1.grid_cells.length = g.grid_cells.length ∧
      (∀ n : Nat, g1.grid_cells.getD n false = true →
        g.grid_cells.getD n false = true ∨
          (n : Int) ∈ cellIndices g.pallet_dimensions pos r0 r1 r2) ∧
      (∀ idx ∈ cellIndices g.pallet_dimensions pos r0 r1 r2,
        g1.grid_cells.getD idx.toNat false = true) := by
  obtain ⟨cells1, hw, hlen, hback⟩ := writeCells_defined _ g.grid_cells hrange
  obtain ⟨-, hset, -⟩ := writeCells_true _ _ _ hw
  refine ⟨BoxPlacement.mk g.pallet_dimensions cells1
      (g.placed_boxes ++ [PlacedBox.mk pos (r0 :: r1 :: r2 :: rest) rot]),
    by simp only [placeBox, hrs, markGridCells, hw, Option.map_some'], rfl, hlen,
    hback, fun idx hidx => (hset idx hidx).2⟩

/-- The constructor returns for a container whose cell count is not negative. -/
theorem new_defined (dims : Int × Int × Int)
    (h : 0 ≤ dims.1.tdiv grid_size * dims.2.1.tdiv grid_size * dims.2.2.tdiv grid_size) :
    ∃ g0, BoxPlacement.new dims = some g0 := by
  unfold BoxPlacement.new
  dsimp only
  rw [if_pos h]
  exact ⟨_, rfl⟩

/-- A fresh grid has `(W/5) * (L/5) * (H/5)` cells, none of them set. -/
theorem new_grid_clear {dims : Int × Int × Int} {g0 : BoxPlacement}
    (h : BoxPlacement.new dims = some g0) :
    g0.pallet_dimensions = dims ∧
      (g0.grid_cells.length : Int) =
        dims.1.tdiv grid_size * dims.2.1.tdiv grid_size * dims.2.2.tdiv grid_size ∧
      ∀ n : Nat, g0.grid_cells.getD n false = false := by
  unfold BoxPlacement.new at h
  dsimp only at h
  split_ifs at h with hn
  simp only [Option.some.injEq] at h
  subst h
  refine ⟨rfl, ?_, ?_⟩
  · simp only [List.length_replicate]
    exact Int.toNat_of_nonneg hn
  · intro n
    simp only [List.getD_eq_getElem?_getD, List.getElem?_replicate]
    split_ifs <;> rfl

end BoxPlacement

namespace StackingAlgorithm

/-! ## A run in which the product of the dimensions leaves the range of `int` -/

/-- The cells the marking loop visits for the box `(10,10,10)` at `(0,0,0)` in the
`1400×1305×1305` container (280 × 261 × 261 cells). -/
theorem mem_cells_small (idx : Int) :
    idx ∈ BoxPlacement.cellIndices (1400, 1305, 1305) (0, 0, 0) 10 10 10 ↔
      ∃ x y z : Int, (0 ≤ x ∧ x ≤ 2) ∧ (0 ≤ y ∧ y ≤ 2) ∧ (0 ≤ z ∧ z ≤ 2) ∧
        idx = z * 280 * 261 + y * 280 + x :=
  BoxPlacement.mem_cellIndices _ _ _ _ _ _

/-- The cells the overlap test visits for the box `(1300,1300,1300)` at `(5 c, 0, 0)`. -/
theorem mem_cells_large (c : Nat) (idx : Int) :
    idx ∈ BoxPlacement.cellIndices (1400, 1305, 1305) ((c : Int) * 5, 0, 0) 1300 1300 1300 ↔
      ∃ x y z : Int, ((c : Int) ≤ x ∧ x ≤ c + 260) ∧ (0 ≤ y ∧ y ≤ 260) ∧
        (0 ≤ z ∧ z ≤ 260) ∧ idx = z * 280 * 261 + y * 280 + x := by
  have h1 : ((c : Int) * 5).tdiv BoxPlacement.grid_size = c := by
    rw [Int.tdiv_eq_ediv (by omega) (by decide)]
    simp only [BoxPlacement.grid_size]
    omega
  have h2 : ((c : Int) * 5 + 1300).tdiv BoxPlacement.grid_size = c + 260 := by
    rw [Int.tdiv_eq_ediv (by omega) (by decide)]
    simp only [BoxPlacement.grid_size]
    omega
  rw [BoxPlacement.mem_cellIndices]
  simp only [h1, h2]
  exact Iff.rfl

/-- On the empty grid of the `1400×1305×1305` container `tryPlaceBox` commits the box
`(10,10,10)` at `(0,0,0)` with rotation 0; afterwards exactly the cells of that box are
set. -/
theorem tryPlaceBox_small_first (boxes : List Box) (g : BoxPlacement)
    (hd : g.pallet_dimensions = (1400, 1305, 1305))
    (hlen : (g.grid_cells.length : Int) = 19073880)
    (hclear : ∀ n : Nat, g.grid_cells.getD n false = false) :
    ∃ gA, tryPlaceBox (new boxes (1400, 1305, 1305) 5) g [10, 10, 10] =
        some (some ((0, 0, 0), 0, gA)) ∧
      gA.pallet_dimensions = (1400, 1305, 1305) ∧
      (gA.grid_cells.length : Int) = 19073880 ∧
      (∀ n : Nat, gA.grid_cells.getD n false = true →
        (n : Int) ∈ BoxPlacement.cellIndices (1400, 1305, 1305) (0, 0, 0) 10 10 10) ∧
      (∀ idx ∈ BoxPlacement.cellIndices (1400, 1305, 1305) (0, 0, 0) 10 10 10,
        gA.grid_cells.getD idx.toNat false = true) := by
  have hrs : BoxPlacement.getRotatedSize [10, 10, 10] 0 = some [10, 10, 10] := rfl
  have hrange : ∀ idx ∈ BoxPlacement.cellIndices g.pallet_dimensions (0, 0, 0) 10 10 10,
      0 ≤ idx ∧ idx < g.grid_cells.length := by
    intro idx hidx
    rw [hd] at hidx
    obtain ⟨x, y, z, hx, hy, hz, rfl⟩ := (mem_cells_small idx).1 hidx
    omega
  have hcan : g.canPlaceBox [10, 10, 10] (0, 0, 0) 0 = some true := by
    have := BoxPlacement.canPlaceBox_of_read g (0, 0, 0) hrs
      (by rw [hd]; simp [boxWithin])
      (BoxPlacement.readCells_clear _ _ fun idx hidx =>
        ⟨(hrange idx hidx).1, (hrange idx hidx).2, hclear _⟩)
    simpa using this
  obtain ⟨gA, hplace, hdA, hlenA, hback, hset⟩ :=
    BoxPlacement.placeBox_defined g (0, 0, 0) hrs hrange
  refine ⟨gA, ?_, hdA.trans hd, by rw [hlenA]; exact hlen, ?_, ?_⟩
  · have hbody : try_rotations g [10, 10, 10] (0, 0, 0) = some (some ((0, 0, 0), 0, gA)) := by
      simp only [try_rotations, hcan, hplace, Option.map_some']
    show scan (fun z => scan (fun y => scan (fun x => try_rotations g [10, 10, 10] (x, y, z))
      5 (1400 - 10)) 5 (1305 - 10)) 5 (1305 - 10) = _
    refine scan_intro (by decide) 0 (by decide) ?_ (fun j hj => absurd hj (Nat.not_lt_zero j))
    refine scan_intro (by decide) 0 (by decide) ?_ (fun j hj => absurd hj (Nat.not_lt_zero j))
    refine scan_intro (by decide) 0 (by decide) ?_ (fun j hj => absurd hj (Nat.not_lt_zero j))
    simpa using hbody
  · intro n hn
    rcases hback n hn with h | h
    · rw [hclear n] at h; exact absurd h (by decide)
    · rw [hd] at h; exact h
  · intro idx hidx
    exact hset idx (by rw [hd]; exact hidx)

/-- On the grid that holds the box `(10,10,10)` at `(0,0,0)`, `tryPlaceBox` finds the cells
of the box `(1300,1300,1300)` taken at the corners `(0,0,0)`, `(5,0,0)` and `(10,0,0)`, in
both rotations, and commits it at `(15,0,0)` with rotation 0. -/
theorem tryPlaceBox_large_second (boxes : List Box) (gA : BoxPlacement)
    (hd : gA.pallet_dimensions = (1400, 1305, 1305))
    (hlen : (gA.grid_cells.length : Int) = 19073880)
    (hback : ∀ n : Nat, gA.grid_cells.getD n false = true →
      (n : Int) ∈ BoxPlacement.cellIndices (1400, 1305, 1305) (0, 0, 0) 10 10 10)
    (hset : ∀ idx ∈ BoxPlacement.cellIndices (1400, 1305, 1305) (0, 0, 0) 10 10 10,
      gA.grid_cells.getD idx.toNat false = true) :
    ∃ gB, tryPlaceBox (new boxes (1400, 1305, 1305) 5) gA [1300, 1300, 1300] =
        some (some ((15, 0, 0), 0, gB)) := by
  have hrs0 : BoxPlacement.getRotatedSize [1300, 1300, 1300] 0 = some [1300, 1300, 1300] :=
    rfl
  have hrs90 : BoxPlacement.getRotatedSize [1300, 1300, 1300] 90 = some [1300, 1300, 1300] :=
    rfl
  have hrange : ∀ c : Nat, c ≤ 3 →
      ∀ idx ∈ BoxPlacement.cellIndices gA.pallet_dimensions ((c : Int) * 5, 0, 0)
        1300 1300 1300, 0 ≤ idx ∧ idx < gA.grid_cells.length := by
    intro c hc idx hidx
    rw [hd] at hidx
    obtain ⟨x, y, z, hx, hy, hz, rfl⟩ := (mem_cells_large c idx).1 hidx
    omega
  have hin : ∀ c : Nat, c ≤ 3 →
      boxWithin gA.pallet_dimensions ((c : Int) * 5) 0 0 1300 1300 1300 := by
    intro c hc
    rw [hd]
    simp only [boxWithin]
    omega
  have htaken : ∀ c : Nat, c < 3 →
      try_rotations gA [1300, 1300, 1300] ((c : Int) * 5, 0, 0) = some none := by
    intro c hc
    have hread : BoxPlacement.readCells gA.grid_cells
        (BoxPlacement.cellIndices gA.pallet_dimensions ((c : Int) * 5, 0, 0)
          1300 1300 1300) = some true := by
      refine BoxPlacement.readCells_set _ _ (hrange c (by omega)) ⟨2, ?_, ?_⟩
      · rw [hd]
        exact (mem_cells_large c 2).2 ⟨2, 0, 0, by omega, by omega, by omega, by norm_num⟩
      · exact hset 2 ((mem_cells_small 2).2
          ⟨2, 0, 0, by omega, by omega, by omega, by norm_num⟩)
    have h0 := BoxPlacement.canPlaceBox_of_read gA ((c : Int) * 5, 0, 0)
      hrs0 (hin c (by omega)) hread
    have h90 := BoxPlacement.canPlaceBox_of_read gA ((c : Int) * 5, 0, 0)
      hrs90 (hin c (by omega)) hread
    simp only [Bool.not_true] at h0 h90
    simp only [try_rotations, h0, h90]
  have hfree : gA.canPlaceBox [1300, 1300, 1300] (((3 : Nat) : Int) * 5, 0, 0) 0 =
      some true := by
    have := BoxPlacement.canPlaceBox_of_read gA (((3 : Nat) : Int) * 5, 0, 0)
      hrs0 (hin 3 (by omega))
      (BoxPlacement.readCells_clear _ _ fun idx hidx => by
        refine ⟨(hrange 3 (by omega) idx hidx).1, (hrange 3 (by omega) idx hidx).2, ?_⟩
        cases hc : gA.grid_cells.getD idx.toNat false with
        | false => rfl
        | true =>
          exfalso
          have hnn := (hrange 3 (by omega) idx hidx).1
          have hA := hback _ hc
          rw [Int.toNat_of_nonneg hnn] at hA
          rw [hd] at hidx
          obtain ⟨x, y, z, hx, hy, hz, h1⟩ := (mem_cells_large 3 idx).1 hidx
          obtain ⟨x1, y1, z1, hx1, hy1, hz1, h2⟩ := (mem_cells_small idx).1 hA
          push_cast at hx
          omega)
    simpa using this
  obtain ⟨gB, hplace, -⟩ :=
    BoxPlacement.placeBox_defined gA (((3 : Nat) : Int) * 5, 0, 0) hrs0
      (hrange 3 (by omega))
  refine ⟨gB, ?_⟩
  have hbody : try_rotations gA [1300, 1300, 1300] (((3 : Nat) : Int) * 5, 0, 0) =
      some (some ((15, 0, 0), 0, gB)) := by
    simp only [try_rotations, hfree, hplace, Option.map_some']
    rfl
  show scan (fun z => scan (fun y => scan (fun x =>
    try_rotations gA [1300, 1300, 1300] (x, y, z))
    5 (1400 - 1300)) 5 (1305 - 1300)) 5 (1305 - 1300) = _
  refine scan_intro (by decide) 0 (by decide) ?_ (fun j hj => absurd hj (Nat.not_lt_zero j))
  refine scan_intro (by decide) 0 (by decide) ?_ (fun j hj => absurd hj (Nat.not_lt_zero j))
  refine scan_intro (by decide) 3 (by decide) ?_ (fun j hj => ?_)
  · simpa using hbody
  · simpa using htaken j hj

/-- C16 fails as stated: the comparator of `optimized_stack` compares `int` products.  For
the boxes `B` `(1300,1300,1300)` and `A` `(10,10,10)`, given in this order, the product
`1300 * 1300 * 1300 = 2197000000` leaves the range of `int` and becomes `-2097967296`, so
the comparator orders `A` (volume 1000) before `B`.  In a `1400×1305×1305` container with
gap 5 the run returns both boxes, `A` at corner `(0,0,0)` first and `B` at corner
`(15,0,0)` second: the earlier result entry has the smaller volume.  This holds for the
stable sort and for every other rearrangement that `std::sort` may make. -/
theorem optimized_stack_orders_by_int_product :
    parseBoxSize "[1300,1300,1300]" = [1300, 1300, 1300] ∧
      parseBoxSize "[10,10,10]" = [10, 10, 10] ∧
      boxVolume [1300, 1300, 1300] = 2197000000 ∧ boxVolume [10, 10, 10] = 1000 ∧
      volume [1300, 1300, 1300] = -2097967296 ∧ volume [10, 10, 10] = 1000 ∧
      sort_comp ("A", [10, 10, 10]) ("B", [1300, 1300, 1300]) = true ∧
      (∃ e1 : StackingAlgorithm, optimized_stack stable_sort
          (new [⟨"B", "[1300,1300,1300]"⟩, ⟨"A", "[10,10,10]"⟩] (1400, 1305, 1305) 5) =
            some ([⟨"A", (5, 5, 0), 0, 1⟩, ⟨"B", (665, 650, 0), 0, 1⟩], e1)) ∧
      ∀ std_sort : StdSort, StdSortSpec std_sort →
        ∃ e1 : StackingAlgorithm, optimized_stack std_sort
          (new [⟨"B", "[1300,1300,1300]"⟩, ⟨"A", "[10,10,10]"⟩] (1400, 1305, 1305) 5) =
            some ([⟨"A", (5, 5, 0), 0, 1⟩, ⟨"B", (665, 650, 0), 0, 1⟩], e1) := by
  have hall : ∀ std_sort : StdSort, StdSortSpec std_sort →
      ∃ e1 : StackingAlgorithm, optimized_stack std_sort
        (new [⟨"B", "[1300,1300,1300]"⟩, ⟨"A", "[10,10,10]"⟩] (1400, 1305, 1305) 5) =
          some ([⟨"A", (5, 5, 0), 0, 1⟩, ⟨"B", (665, 650, 0), 0, 1⟩], e1) := by
    intro std_sort hsort
    have hin : sorted_boxes_input
        (new [⟨"B", "[1300,1300,1300]"⟩, ⟨"A", "[10,10,10]"⟩] (1400, 1305, 1305) 5) =
        [("B", [1300, 1300, 1300]), ("A", [10, 10, 10])] := rfl
    have hsorted := sorted_pair_swapped hsort ("B", [1300, 1300, 1300]) ("A", [10, 10, 10])
      (by decide) (by decide)
    obtain ⟨g0, hnew⟩ := BoxPlacement.new_defined (1400, 1305, 1305) (by decide)
    obtain ⟨hd0, hlen0, hclear0⟩ := BoxPlacement.new_grid_clear hnew
    obtain ⟨gA, hA, hdA, hlenA, hbackA, hsetA⟩ :=
      tryPlaceBox_small_first [⟨"B", "[1300,1300,1300]"⟩, ⟨"A", "[10,10,10]"⟩] g0 hd0
        (hlen0.trans rfl) hclear0
    obtain ⟨gB, hB⟩ :=
      tryPlaceBox_large_second [⟨"B", "[1300,1300,1300]"⟩, ⟨"A", "[10,10,10]"⟩] gA hdA
        hlenA hbackA hsetA
    refine ⟨StackingAlgorithm.mk [⟨"B", "[1300,1300,1300]"⟩, ⟨"A", "[10,10,10]"⟩]
      (1400, 1305, 1305) 5 (some gB) [] [] [] [] 0, ?_⟩
    unfold optimized_stack
    have hp : (new [⟨"B", "[1300,1300,1300]"⟩, ⟨"A", "[10,10,10]"⟩]
        (1400, 1305, 1305) 5).pallet_size = (1400, 1305, 1305) := rfl
    rw [hp, hnew]
    simp only [hin, hsorted, List.foldlM_cons, List.foldlM_nil, optimized_step, hA, hB,
      Option.bind_eq_bind, Option.some_bind, Option.pure_def, Option.map_some',
      List.nil_append, List.singleton_append]
    rfl
  exact ⟨by decide, by decide, by decide, by decide, by decide, by decide, by decide,
    hall stable_sort stable_sort_spec, hall⟩

/-- The contract of `std::sort` does not fix the order of boxes of equal volume.  Boxes
`(10,50,10)` then `(50,10,10)` in a `70×55×15` container with gap 5: `stable_sort` and
`reversing_sort` both meet the contract; with the first the boxes are processed, and
appear in the result, in input order, with the second in the opposite order. -/
theorem optimized_stack_order_not_fixed :
    StdSortSpec stable_sort ∧ StdSortSpec reversing_sort ∧
    (optimized_stack stable_sort
        (new [⟨"A", "[10,50,10]"⟩, ⟨"B", "[50,10,10]"⟩] (70, 55, 15) 5)).map
          (fun r => r.1.map fun p => p.box_id) = some ["A", "B"] ∧
    (optimized_stack reversing_sort
        (new [⟨"A", "[10,50,10]"⟩, ⟨"B", "[50,10,10]"⟩] (70, 55, 15) 5)).map
          (fun r => r.1.map fun p => p.box_id) = some ["B", "A"] :=
  ⟨stable_sort_spec, reversing_sort_spec, by decide, by decide⟩

/-! ## The facade -/

/-- C18: `Stack` returns the result of the matching strategy for each of the five
selectors (underlying values 0 to 4 of `StackingMethod`), and for every other selector
value it throws `std::invalid_argument` and returns no placement list. -/
theorem Stack_dispatch (std_sort : StdSort)
    (e : StackingAlgorithm) :
    Stack std_sort e 0 = StackOutcome.ofResult e (stack_pallet_origin_out_of_bound e) ∧
    Stack std_sort e 1 = StackOutcome.ofResult e (stack_all_boxes e) ∧
    Stack std_sort e 2 = StackOutcome.ofRun (stack_buffer e) ∧
    Stack std_sort e 3 = StackOutcome.ofRun (stack_with_buffer e) ∧
    Stack std_sort e 4 = StackOutcome.ofRun (optimized_stack std_sort e) ∧
    ∀ m : Int, m ≠ 0 → m ≠ 1 → m ≠ 2 → m ≠ 3 → m ≠ 4 →
      Stack std_sort e m = StackOutcome.invalid_argument ∧
      ∀ (r : List StackResult) (e1 : StackingAlgorithm),
        Stack std_sort e m ≠ StackOutcome.returned r e1 := by
  refine ⟨rfl, rfl, rfl, rfl, rfl, ?_⟩
  intro m h0 h1 h2 h3 h4
  have hm : Stack std_sort e m = StackOutcome.invalid_argument := by
    unfold Stack
    simp only [h0, h1, h2, h3, h4, if_false]
  refine ⟨hm, ?_⟩
  intro r e1 hr
  rw [hm] at hr
  exact StackOutcome.noConfusion hr

/-- Witness for C18: the selector value 7 on an engine with one box. -/
theorem Stack_dispatch_witness :
    Stack stable_sort (new [⟨"A", "[5,5,5]"⟩] (20, 10, 10) 5) 7 =
      StackOutcome.invalid_argument :=
  ((Stack_dispatch stable_sort (new [⟨"A", "[5,5,5]"⟩] (20, 10, 10) 5)).2.2.2.2.2 7
    (by decide) (by decide) (by decide) (by decide) (by decide)).1

/-! ## Malformed box sizes -/

/-- An element on which the step function does nothing can be dropped from a `foldlM`. -/
theorem foldlM_skip {σ α : Type} (f : σ → α → Option σ) (bad : α)
    (hbad : ∀ t, f t bad = some t) (post : List α) :
    ∀ (pre : List α) (s : σ),
      (pre ++ bad :: post).foldlM f s = (pre ++ post).foldlM f s := by
  intro pre
  induction pre with
  | nil =>
    intro s
    simp only [List.nil_append, List.foldlM_cons, hbad, bind, Option.bind]
  | cons a rest ih =>
    intro s
    simp only [List.cons_append, List.foldlM_cons, bind, Option.bind]
    cases f s a with
    | none => rfl
    | some t => exact ih t

/-- The body of the loop of `stack_all_boxes` reads only the container and the gap of the
engine. -/
theorem stack_all_step_congr {e1 e2 : StackingAlgorithm}
    (hp : e1.pallet_size = e2.pallet_size)
    (hg : e1.stacking_interval = e2.stacking_interval) :
    stack_all_step e1 = stack_all_step e2 := by
  funext st box
  simp only [stack_all_step, primary_scan, fallback_scan, hp, hg]

/-- A box with fewer than three parsed dimensions is skipped by `stack_all_boxes`. -/
theorem stack_all_step_short (e : StackingAlgorithm)
    (st : List Placement × List StackResult) (box : Box)
    (hshort : (parseBoxSize box.box_size).length < 3) :
    stack_all_step e st box = some st := by
  unfold stack_all_step
  split
  · rename_i w l h rest hsize
    rw [hsize] at hshort
    simp only [List.length_cons] at hshort
    omega
  · rfl

/-- With a positive gap every iteration of the loop of `stack_all_boxes` has a defined
result. -/
theorem stack_all_step_defined (e : StackingAlgorithm) (hgap : 0 < e.stacking_interval)
    (st : List Placement × List StackResult) (box : Box) :
    stack_all_step e st box ≠ none := by
  unfold stack_all_step
  split
  · rename_i w l h rest hsize
    have hprim : primary_scan e st.1 w l h ≠ none :=
      scan3_defined _ _ _ hgap (fun x y z => by simp)
    have hfall : fallback_scan e st.1 w l h ≠ none :=
      scan_defined _ hgap (fun z => by simp)
    split
    · rename_i hnone
      exact absurd hnone hprim
    · simp
    · split
      · rename_i hnone
        exact absurd hnone hfall
      · simp
      · simp
  · simp

/-- Every placement the loop of `stack_all_boxes` adds belongs to a processed box with at
least three parsed dimensions. -/
theorem stack_all_step_ids (e : StackingAlgorithm) (boxes : List Box)
    {st st1 : List Placement × List StackResult} {box : Box} (hbox : box ∈ boxes)
    (hinv : ∀ r ∈ st.2, ∃ b ∈ boxes, b.box_id = r.box_id ∧
      3 ≤ (parseBoxSize b.box_size).length)
    (h : stack_all_step e st box = some st1) :
    ∀ r ∈ st1.2, ∃ b ∈ boxes, b.box_id = r.box_id ∧
      3 ≤ (parseBoxSize b.box_size).length := by
  unfold stack_all_step at h
  split at h
  · rename_i w l hh rest hsize
    have hnew : ∀ x y z : Int, ∃ b ∈ boxes, b.box_id = (resultAt box.box_id x y z w l 1).box_id ∧
        3 ≤ (parseBoxSize b.box_size).length :=
      fun x y z => ⟨box, hbox, rfl, by rw [hsize]; simp⟩
    split at h
    · simp at h
    · simp only [Option.some.injEq] at h
      subst h
      intro r hr
      rcases List.mem_append.1 hr with hr | hr
      · exact hinv r hr
      · rw [List.mem_singleton] at hr
        subst hr
        exact hnew _ _ _
    · split at h
      · simp at h
      · simp only [Option.some.injEq] at h
        subst h
        intro r hr
        rcases List.mem_append.1 hr with hr | hr
        · exact hinv r hr
        · rw [List.mem_singleton] at hr
          subst hr
          exact hnew _ _ _
      · simp only [Option.some.injEq] at h
        exact h ▸ hinv
  · simp only [Option.some.injEq] at h
    exact h ▸ hinv

/-- C19: with a positive gap, Greedy-Fill-All on a box list in which the box `bad` has a
size string that parses to fewer than three integers completes, and returns exactly the
placement list it returns for the same list with `bad` removed; every returned placement
belongs to one of the other boxes, which has at least three parsed dimensions. -/
theorem greedy_skips_malformed (pre post : List Box) (bad : Box)
    (pallet_size : Int × Int × Int) (gap : Int) (hgap : 0 < gap)
    (hshort : (parseBoxSize bad.box_size).length < 3) :
    ∃ res : List StackResult,
      stack_all_boxes (new (pre ++ bad :: post) pallet_size gap) = some res ∧
      stack_all_boxes (new (pre ++ post) pallet_size gap) = some res ∧
      ∀ r ∈ res, ∃ b ∈ pre ++ post, b.box_id = r.box_id ∧
        3 ≤ (parseBoxSize b.box_size).length := by
  have hcongr : stack_all_step (new (pre ++ bad :: post) pallet_size gap) =
      stack_all_step (new (pre ++ post) pallet_size gap) :=
    stack_all_step_congr rfl rfl
  have heq : stack_all_run (new (pre ++ bad :: post) pallet_size gap) =
      stack_all_run (new (pre ++ post) pallet_size gap) := by
    unfold stack_all_run
    rw [hcongr]
    exact foldlM_skip _ bad (fun t => stack_all_step_short _ t bad hshort) post pre _
  cases hrun : stack_all_run (new (pre ++ post) pallet_size gap) with
  | none =>
    exact absurd hrun (foldlM_defined _ _ _ fun t a _ =>
      stack_all_step_defined _ hgap t a)
  | some st =>
    refine ⟨st.2, by simp [stack_all_boxes, heq, hrun], by simp [stack_all_boxes, hrun], ?_⟩
    exact foldlM_inv
      (fun s : List Placement × List StackResult => ∀ r ∈ s.2, ∃ b ∈ pre ++ post,
        b.box_id = r.box_id ∧ 3 ≤ (parseBoxSize b.box_size).length)
      (stack_all_step (new (pre ++ post) pallet_size gap)) (pre ++ post) ([], []) st
      (fun _ _ _ ha hP hf => stack_all_step_ids _ _ ha hP hf)
      (by intro r hr; simp at hr) hrun

/-- Witness for C19: the box `"[10,10]"` between two boxes `(40,40,40)` in a
`100×100×100` container with gap 5. -/
theorem greedy_skips_malformed_witness :
    ∃ res : List StackResult,
      stack_all_boxes (new ([⟨"A", "[40,40,40]"⟩] ++ ⟨"X", "[10,10]"⟩ ::
        [⟨"B", "[40,40,40]"⟩]) (100, 100, 100) 5) = some res ∧
      stack_all_boxes (new ([⟨"A", "[40,40,40]"⟩] ++ [⟨"B", "[40,40,40]"⟩])
        (100, 100, 100) 5) = some res ∧
      ∀ r ∈ res, ∃ b ∈ [(⟨"A", "[40,40,40]"⟩ : Box)] ++ [⟨"B", "[40,40,40]"⟩],
        b.box_id = r.box_id ∧ 3 ≤ (parseBoxSize b.box_size).length :=
  greedy_skips_malformed [⟨"A", "[40,40,40]"⟩] [⟨"B", "[40,40,40]"⟩] ⟨"X", "[10,10]"⟩
    (100, 100, 100) 5 (by decide) (by decide)

/-- C20, at a concrete input: boxes `"[10,10]"` and `(5,5,5)` in a `20×10×10` container
with gap 5.  `optimized_stack` has no size check: it reads `box_size[2]` of the two-entry
vector, so the run has no defined result, whatever order `std::sort` leaves the boxes in.
`stack_all_boxes` skips the malformed box and places the other, and so does
`optimized_stack` once the malformed box is removed. -/
theorem optimized_stack_reads_missing_dimension :
    parseBoxSize "[10,10]" = [10, 10] ∧
    optimized_stack stable_sort
        (new [⟨"X", "[10,10]"⟩, ⟨"B", "[5,5,5]"⟩] (20, 10, 10) 5) = none ∧
    optimized_stack reversing_sort
        (new [⟨"X", "[10,10]"⟩, ⟨"B", "[5,5,5]"⟩] (20, 10, 10) 5) = none ∧
    tryPlaceBox (new [⟨"X", "[10,10]"⟩, ⟨"B", "[5,5,5]"⟩] (20, 10, 10) 5)
        { pallet_dimensions := (20, 10, 10), grid_cells := List.replicate 16 false,
          placed_boxes := [] } [10, 10] = none ∧
    (optimized_stack stable_sort
        (new [⟨"B", "[5,5,5]"⟩] (20, 10, 10) 5)).map Prod.fst =
      some [⟨"B", (3, 3, 0), 0, 1⟩] ∧
    stack_all_boxes (new [⟨"X", "[10,10]"⟩, ⟨"B", "[5,5,5]"⟩] (20, 10, 10) 5) =
      some [⟨"B", (3, 3, 0), 0, 1⟩] := by
  refine ⟨by decide, by decide, by decide, by decide, by decide, by decide⟩

end StackingAlgorithm

/-! ## The best fit of the promotion phase -/

theorem foldFrom_absorbing {σ ρ : Type} (step bound : Int) (hstep : 0 < step)
    (search : Int → Option (Option ρ)) (hsearch : ∀ i, search i ≠ none)
    (mk : ρ → σ) (imp : σ → Bool) (hmk : ∀ r, imp (mk r) = false)
    (body : Int → σ → Option σ)
    (hbody : ∀ i s, body i s = some (if imp s = true then foundOr s mk (search i) else s)) :
    ∀ (fuel : Nat) (i : Int) (s : σ), (bound + 1 - i).toNat + 1 ≤ fuel →
      foldFrom body step bound fuel i s =
        some (if imp s = true then foundOr s mk (scanFrom search step bound fuel i)
              else s) := by
  intro fuel
  induction fuel with
  | zero => intro i s h; omega
  | succ n ih =>
    intro i s h
    simp only [foldFrom, scanFrom]
    split_ifs with hi himp
    · rw [hbody, if_pos himp]
      cases hs : search i with
      | none => exact absurd hs (hsearch i)
      | some o =>
        cases o with
        | some r =>
          simp only [foundOr]
          rw [ih (i + step) (mk r) (by omega)]
          simp [hmk r]
        | none =>
          simp only [foundOr]
          rw [ih (i + step) s (by omega), if_pos himp]
          rfl
    · rw [hbody, if_neg himp]
      dsimp only
      rw [ih (i + step) s (by omega), if_neg himp]
    · rfl
    · rfl

/-- A loop whose body replaces the state by `mk r` when the state can still be improved
and the search at the current candidate finds `r`, and whose replaced state cannot be
improved again, ends with `mk r` for the first candidate at which the search finds
something, and otherwise with the state it started from. -/
theorem foldScan_absorbing {σ ρ : Type} {step : Int} (bound : Int) (hstep : 0 < step)
    (search : Int → Option (Option ρ)) (hsearch : ∀ i, search i ≠ none)
    (mk : ρ → σ) (imp : σ → Bool) (hmk : ∀ r, imp (mk r) = false)
    (body : Int → σ → Option σ)
    (hbody : ∀ i s, body i s = some (if imp s = true then foundOr s mk (search i) else s))
    (s : σ) :
    foldScan body step bound s =
      some (if imp s = true then foundOr s mk (scan search step bound) else s) :=
  foldFrom_absorbing step bound hstep search hsearch mk imp hmk body hbody _ 0 s (by omega)

namespace StackingAlgorithm

theorem main_first_fit_defined (e : StackingAlgorithm) (hgap : 0 < e.stacking_interval)
    (s0 s1 s2 : Int) : main_first_fit e s0 s1 s2 ≠ none :=
  scan3_defined _ _ _ hgap (fun x y z => by simp)

theorem main_first_fit_found {e : StackingAlgorithm} (hgap : 0 < e.stacking_interval)
    {s0 s1 s2 : Int} {p : Int × Int × Int}
    (h : main_first_fit e s0 s1 s2 = some (some p)) :
    feasibleInMain e s0 s1 s2 ∧ boxWithin e.pallet_size p.1 p.2.1 p.2.2 s0 s1 s2 ∧
      is_overlap (p.1, p.2.1, p.2.2, s0, s1, s2) e.main_placements = false := by
  obtain ⟨i, j, k, hi, hj, hk, hbody, -⟩ := scan3_found hgap h
  have hacc : is_overlap ((i : Int) * e.stacking_interval, (j : Int) * e.stacking_interval,
      (k : Int) * e.stacking_interval, s0, s1, s2) e.main_placements = false ∧
      ((i : Int) * e.stacking_interval, (j : Int) * e.stacking_interval,
        (k : Int) * e.stacking_interval) = p := by
    cases hov : is_overlap ((i : Int) * e.stacking_interval, (j : Int) * e.stacking_interval,
      (k : Int) * e.stacking_interval, s0, s1, s2) e.main_placements with
    | true => simp [hov] at hbody
    | false => simpa [hov] using hbody
  obtain ⟨hfree, rfl⟩ := hacc
  refine ⟨⟨i, j, k, hi, hj, hk, hfree⟩, ?_, hfree⟩
  have h0 : ∀ n : Nat, (0 : Int) ≤ (n : Int) * e.stacking_interval :=
    fun n => mul_nonneg (Int.ofNat_nonneg n) hgap.le
  unfold boxWithin
  dsimp only
  exact ⟨h0 i, by linarith, h0 j, by linarith, h0 k, by linarith⟩

theorem main_first_fit_none {e : StackingAlgorithm} (hgap : 0 < e.stacking_interval)
    {s0 s1 s2 : Int} (h : main_first_fit e s0 s1 s2 = some none) :
    ¬ feasibleInMain e s0 s1 s2 := by
  rintro ⟨i, j, k, hi, hj, hk, hfree⟩
  have := scan3_exhausted hgap h i j k hi hj hk
  simp [hfree] at this

/-- What one iteration of the loop of `find_best_fit_from_buffer` does for a buffer entry
whose box has size `(s0, s1, s2)`, with a positive gap: when the `int` product of the
three sizes beats the best score so far and the box has a feasible main-container corner, the best fit becomes this
box at its first feasible corner; otherwise nothing changes. -/
theorem best_fit_step_eq {e : StackingAlgorithm} (hgap : 0 < e.stacking_interval)
    (b : BestFit) (r : StackResult) (box : Box) (s0 s1 s2 : Int) (rest : List Int)
    (hbox : bufferedBox e r box) (hsize : parseBoxSize box.box_size = s0 :: s1 :: s2 :: rest) :
    best_fit_step e b r =
      some (if int_mul (int_mul s0 s1) s2 > b.best_fit_score then
        foundOr b (fun p =>
          { best_box_id := r.box_id, best_box_size := s0 :: s1 :: s2 :: rest,
            best_location := p, best_fit_score := int_mul (int_mul s0 s1) s2 })
          (main_first_fit e s0 s1 s2) else b) := by
  obtain ⟨hp, hfind⟩ := hbox
  let mk : Int × Int × Int → BestFit := fun p =>
    { best_box_id := r.box_id, best_box_size := s0 :: s1 :: s2 :: rest,
      best_location := p, best_fit_score := int_mul (int_mul s0 s1) s2 }
  let imp : BestFit → Bool := fun t => decide (int_mul (int_mul s0 s1) s2 > t.best_fit_score)
  let sx : Int → Int → Int → Option (Option (Int × Int × Int)) := fun z y x =>
    some (if !is_overlap (x, y, z, s0, s1, s2) e.main_placements then some (x, y, z) else none)
  have hsx : ∀ z y x, sx z y x ≠ none := fun z y x => by simp [sx]
  have hmk : ∀ p, imp (mk p) = false := by
    intro p
    simp [imp, mk]
  have hx : ∀ (z y x : Int) (t : BestFit),
      some (best_fit_update e r.box_id (s0 :: s1 :: s2 :: rest) s0 s1 s2 x y z t) =
        some (if imp t = true then foundOr t mk (sx z y x) else t) := by
    intro z y x t
    unfold best_fit_update
    cases hov : is_overlap (x, y, z, s0, s1, s2) e.main_placements <;>
      by_cases hv : int_mul (int_mul s0 s1) s2 > t.best_fit_score <;> simp [imp, mk, sx, foundOr, hv, hov]
  have hy : ∀ (z y : Int) (t : BestFit),
      foldScan (fun x b1 => some (best_fit_update e r.box_id (s0 :: s1 :: s2 :: rest)
          s0 s1 s2 x y z b1)) e.stacking_interval (e.pallet_size.1 - s0) t =
        some (if imp t = true then
          foundOr t mk (scan (sx z y) e.stacking_interval (e.pallet_size.1 - s0)) else t) :=
    fun z y t => foldScan_absorbing (e.pallet_size.1 - s0) hgap (sx z y) (hsx z y) mk imp hmk
      _ (hx z y) t
  have hz : ∀ (z : Int) (t : BestFit),
      foldScan (fun y => foldScan (fun x b1 => some (best_fit_update e r.box_id
          (s0 :: s1 :: s2 :: rest) s0 s1 s2 x y z b1)) e.stacking_interval
          (e.pallet_size.1 - s0)) e.stacking_interval (e.pallet_size.2.1 - s1) t =
        some (if imp t = true then
          foundOr t mk (scan (fun y => scan (sx z y) e.stacking_interval
            (e.pallet_size.1 - s0)) e.stacking_interval (e.pallet_size.2.1 - s1)) else t) :=
    fun z t => foldScan_absorbing (e.pallet_size.2.1 - s1) hgap
      (fun y => scan (sx z y) e.stacking_interval (e.pallet_size.1 - s0))
      (fun y => scan_defined _ hgap (hsx z y)) mk imp hmk _ (hy z) t
  have hall := foldScan_absorbing (e.pallet_size.2.2 - s2) hgap
    (fun z => scan (fun y => scan (sx z y) e.stacking_interval (e.pallet_size.1 - s0))
      e.stacking_interval (e.pallet_size.2.1 - s1))
    (fun z => scan_defined _ hgap (fun y => scan_defined _ hgap (hsx z y)))
    mk imp hmk _ hz b
  unfold best_fit_step
  rw [if_pos hp, hfind]
  simp only [hsize]
  rw [hall]
  simp only [imp, mk, sx, decide_eq_true_eq, main_first_fit, scan3]

end StackingAlgorithm

/-- A monadic fold whose step keeps an invariant of (visited prefix, state) returns, and
the invariant holds of the whole list and the returned state. -/
theorem foldlM_prefix_inv {α σ : Type} (f : σ → α → Option σ) (J : List α → σ → Prop) :
    ∀ (l : List α), (∀ pre a s, a ∈ l → J pre s → ∃ s1, f s a = some s1 ∧ J (pre ++ [a]) s1) →
      ∀ (pre : List α) (s : σ), J pre s →
        ∃ s1, l.foldlM f s = some s1 ∧ J (pre ++ l) s1 := by
  intro l
  induction l with
  | nil =>
    intro _ pre s h
    exact ⟨s, rfl, by simpa using h⟩
  | cons a l ih =>
    intro hstep pre s h
    obtain ⟨s1, h1, hJ⟩ := hstep pre a s (List.mem_cons_self _ _) h
    obtain ⟨s2, h2, hJ2⟩ := ih (fun p b t hb => hstep p b t (List.mem_cons_of_mem _ hb))
      (pre ++ [a]) s1 hJ
    refine ⟨s2, ?_, by simpa using hJ2⟩
    simp only [List.foldlM, h1]
    exact h2

namespace StackingAlgorithm

theorem entryVolume_eq {e : StackingAlgorithm} {r : StackResult} {box : Box}
    {s0 s1 s2 : Int} {rest : List Int} (hbox : bufferedBox e r box)
    (hsize : parseBoxSize box.box_size = s0 :: s1 :: s2 :: rest) :
    entryVolume e r = s0 * s1 * s2 := by
  unfold entryVolume
  rw [hbox.2]
  simp only [hsize, boxVolume]

theorem promotable_iff {e : StackingAlgorithm} {r : StackResult} {box : Box}
    {s0 s1 s2 : Int} {rest : List Int} (hbox : bufferedBox e r box)
    (hsize : parseBoxSize box.box_size = s0 :: s1 :: s2 :: rest) :
    promotable e r ↔ feasibleInMain e s0 s1 s2 := by
  constructor
  · rintro ⟨box1, hb1, t0, t1, t2, rest1, hs1, hfeas⟩
    have hEq : box1 = box := by
      have := hb1.2.symm.trans hbox.2
      simpa using this
    subst hEq
    rw [hsize] at hs1
    simp only [List.cons.injEq] at hs1
    obtain ⟨rfl, rfl, rfl, -⟩ := hs1
    exact hfeas
  · intro h
    exact ⟨box, hbox, s0, s1, s2, rest, hsize, h⟩

/-- Visiting an entry that is no candidate keeps what has been found so far. -/
theorem bestSoFar_skip {e : StackingAlgorithm} {pre : List StackResult} {b : BestFit}
    {r : StackResult} (h : bestSoFar e pre b) (hr : ¬ promotable e r) :
    bestSoFar e (pre ++ [r]) b := by
  rcases h with ⟨hnone, hb⟩ | ⟨p1, r0, p2, box, s0, s1, s2, rest, loc, hpre, hbox, hsize, hfit,
    hb, hpos, hlt, hle⟩
  · left
    refine ⟨?_, hb⟩
    intro q hq
    rcases List.mem_append.1 hq with hq | hq
    · exact hnone q hq
    · simp only [List.mem_singleton] at hq
      subst hq
      exact hr
  · right
    refine ⟨p1, r0, p2 ++ [r], box, s0, s1, s2, rest, loc, by simp [hpre], hbox, hsize, hfit,
      hb, hpos, hlt, ?_⟩
    intro q hq hprom
    rcases List.mem_append.1 hq with hq | hq
    · exact hle q hq hprom
    · simp only [List.mem_singleton] at hq
      subst hq
      exact absurd hprom hr

/-- One iteration of the loop of `find_best_fit_from_buffer` returns and keeps the
description of what has been found so far. -/
theorem best_fit_step_bestSoFar {e : StackingAlgorithm} (hgap : 0 < e.stacking_interval)
    (hdims : ∀ bx ∈ e.boxes, positiveDims (parseBoxSize bx.box_size))
    (hrange : ∀ bx ∈ e.boxes, volumeInRange (parseBoxSize bx.box_size))
    (pre : List StackResult) (r : StackResult) (b : BestFit) (h : bestSoFar e pre b) :
    ∃ b1, best_fit_step e b r = some b1 ∧ bestSoFar e (pre ++ [r]) b1 := by
  by_cases hp : r.pallet_id = 2
  · cases hfind : e.boxes.find? (fun bx => bx.box_id == r.box_id) with
    | none =>
      refine ⟨b, ?_, bestSoFar_skip h ?_⟩
      · unfold best_fit_step
        rw [if_pos hp, hfind]
      · rintro ⟨box1, hb1, -⟩
        rw [hb1.2] at hfind
        exact Option.noConfusion hfind
    | some box =>
      have hbox : bufferedBox e r box := ⟨hp, hfind⟩
      obtain ⟨s0, s1, s2, rest, hsize, h0, h1, h2⟩ := hdims box (List.mem_of_find?_eq_some hfind)
      have hvol : 0 < s0 * s1 * s2 := mul_pos (mul_pos h0 h1) h2
      have hstep := best_fit_step_eq hgap b r box s0 s1 s2 rest hbox hsize
      have hint : int_mul (int_mul s0 s1) s2 = s0 * s1 * s2 := by
        have hr := hrange box (List.mem_of_find?_eq_some hfind)
        rw [hsize] at hr
        exact int_volume_of_range hr
      rw [hint] at hstep
      have hev := entryVolume_eq hbox hsize
      cases hfit : main_first_fit e s0 s1 s2 with
      | none => exact absurd hfit (main_first_fit_defined e hgap s0 s1 s2)
      | some o =>
        cases o with
        | none =>
          have hnot : ¬ promotable e r := fun hprom =>
            main_first_fit_none hgap hfit ((promotable_iff hbox hsize).1 hprom)
          refine ⟨b, ?_, bestSoFar_skip h hnot⟩
          rw [hstep, hfit]
          simp [foundOr]
        | some loc =>
          by_cases hbeat : s0 * s1 * s2 > b.best_fit_score
          · refine ⟨BestFit.mk r.box_id (s0 :: s1 :: s2 :: rest) loc (s0 * s1 * s2), ?_, ?_⟩
            · rw [hstep, hfit, if_pos hbeat]
              rfl
            · right
              refine ⟨pre, r, [], box, s0, s1, s2, rest, loc, rfl, hbox, hsize, hfit, rfl,
                hvol, ?_, by simp⟩
              rcases h with ⟨hnone, -⟩ | ⟨p1, r0, p2, box0, t0, t1, t2, rest0, loc0, hpre,
                hbox0, hsize0, hfit0, hb, hpos0, hlt, hle⟩
              · intro q hq hprom
                exact absurd hprom (hnone q hq)
              · subst hb
                dsimp only at hbeat
                intro q hq hprom
                rw [hpre] at hq
                rcases List.mem_append.1 hq with hq | hq
                · have := hlt q hq hprom
                  omega
                · rcases List.mem_cons.1 hq with hq | hq
                  · subst hq
                    rw [entryVolume_eq hbox0 hsize0]
                    omega
                  · have := hle q hq hprom
                    omega
          · refine ⟨b, ?_, ?_⟩
            · rw [hstep, if_neg hbeat]
            · rcases h with ⟨-, hb⟩ | ⟨p1, r0, p2, box0, t0, t1, t2, rest0, loc0, hpre,
                hbox0, hsize0, hfit0, hb, hpos0, hlt, hle⟩
              · subst hb
                simp only [noBestFit] at hbeat
                omega
              · right
                refine ⟨p1, r0, p2 ++ [r], box0, t0, t1, t2, rest0, loc0, by simp [hpre],
                  hbox0, hsize0, hfit0, hb, hpos0, hlt, ?_⟩
                subst hb
                dsimp only at hbeat
                intro q hq hprom
                rcases List.mem_append.1 hq with hq | hq
                · exact hle q hq hprom
                · simp only [List.mem_singleton] at hq
                  subst hq
                  rw [hev]
                  omega
  · refine ⟨b, ?_, bestSoFar_skip h ?_⟩
    · unfold best_fit_step
      rw [if_neg hp]
    · rintro ⟨box1, hb1, -⟩
      exact hp hb1.1

/-- With a positive gap and positive box dimensions `find_best_fit_from_buffer` returns,
and its locals describe the best candidate of the whole result list. -/
theorem find_best_fit_bestSoFar {e : StackingAlgorithm} (hgap : 0 < e.stacking_interval)
    (hdims : ∀ bx ∈ e.boxes, positiveDims (parseBoxSize bx.box_size))
    (hrange : ∀ bx ∈ e.boxes, volumeInRange (parseBoxSize bx.box_size)) :
    ∃ best, find_best_fit_from_buffer e = some best ∧
      bestSoFar e e.final_placements best := by
  have h0 : bestSoFar e [] noBestFit := Or.inl ⟨by simp, rfl⟩
  obtain ⟨best, h1, h2⟩ := foldlM_prefix_inv (best_fit_step e) (bestSoFar e)
    e.final_placements (fun pre a s _ hs => best_fit_step_bestSoFar hgap hdims hrange pre a s hs) []
    noBestFit h0
  exact ⟨best, h1, by simpa using h2⟩

/-- C13: with a positive gap, positive box dimensions and volumes inside the range of
`int` (the score `fit_score` is an `int` product), `find_best_fit_from_buffer` returns.
Either no buffer entry has a feasible main-container position and the locals are the
initial ones (empty id), or the returned id is that of a buffer entry `r` with a
feasible position whose volume is larger than that of every candidate before it in the
result set and not smaller than that of every candidate after it; the returned size is
the parsed size of its box and the returned location is the first feasible corner. -/
theorem find_best_fit_selects (e : StackingAlgorithm) (hgap : 0 < e.stacking_interval)
    (hdims : ∀ bx ∈ e.boxes, positiveDims (parseBoxSize bx.box_size))
    (hrange : ∀ bx ∈ e.boxes, volumeInRange (parseBoxSize bx.box_size)) :
    ∃ best, find_best_fit_from_buffer e = some best ∧
      ((best = noBestFit ∧ ∀ r ∈ e.final_placements, ¬ promotable e r) ∨
        ∃ (pre : List StackResult) (r : StackResult) (post : List StackResult),
          e.final_placements = pre ++ r :: post ∧ promotable e r ∧
          best.best_box_id = r.box_id ∧
          (∀ q ∈ pre, promotable e q → entryVolume e q < entryVolume e r) ∧
          (∀ q ∈ post, promotable e q → entryVolume e q ≤ entryVolume e r) ∧
          ∃ (box : Box) (s0 s1 s2 : Int) (rest : List Int), bufferedBox e r box ∧
            parseBoxSize box.box_size = s0 :: s1 :: s2 :: rest ∧
            best.best_box_size = s0 :: s1 :: s2 :: rest ∧
            main_first_fit e s0 s1 s2 = some (some best.best_location)) := by
  obtain ⟨best, hbest, hsf⟩ := find_best_fit_bestSoFar hgap hdims hrange
  refine ⟨best, hbest, ?_⟩
  rcases hsf with ⟨hnone, hb⟩ | ⟨pre, r, post, box, s0, s1, s2, rest, loc, hpre, hbox, hsize,
    hfit, hb, -, hlt, hle⟩
  · exact Or.inl ⟨hb, hnone⟩
  · right
    have hev := entryVolume_eq hbox hsize
    subst hb
    refine ⟨pre, r, post, hpre, (promotable_iff hbox hsize).2 (main_first_fit_found hgap hfit).1,
      rfl, ?_, ?_, box, s0, s1, s2, rest, hbox, hsize, rfl, hfit⟩
    · intro q hq hprom
      rw [hev]
      exact hlt q hq hprom
    · intro q hq hprom
      rw [hev]
      exact hle q hq hprom

theorem twoBuffered_dims :
    ∀ bx ∈ twoBuffered.boxes, positiveDims (parseBoxSize bx.box_size) := by
  intro bx hbx
  have hbx1 : bx = ⟨"A", "[5,5,5]"⟩ ∨ bx = ⟨"B", "[10,5,5]"⟩ := by
    simpa [twoBuffered, new] using hbx
  rcases hbx1 with rfl | rfl
  · exact ⟨5, 5, 5, [], by decide, by decide, by decide, by decide⟩
  · exact ⟨10, 5, 5, [], by decide, by decide, by decide, by decide⟩

theorem twoBuffered_range :
    ∀ bx ∈ twoBuffered.boxes, volumeInRange (parseBoxSize bx.box_size) := by
  intro bx hbx
  have hbx1 : bx = ⟨"A", "[5,5,5]"⟩ ∨ bx = ⟨"B", "[10,5,5]"⟩ := by
    simpa [twoBuffered, new] using hbx
  rcases hbx1 with rfl | rfl
  · have hs : parseBoxSize "[5,5,5]" = [5, 5, 5] := by decide
    rw [hs]
    unfold volumeInRange
    decide
  · have hs : parseBoxSize "[10,5,5]" = [10, 5, 5] := by decide
    rw [hs]
    unfold volumeInRange
    decide

/-- Witness for C13: in `twoBuffered` both buffer entries have a feasible position; the
call returns `B`, the larger box, although `A` comes first in the result set. -/
theorem find_best_fit_selects_witness :
    find_best_fit_from_buffer twoBuffered =
        some ⟨"B", [10, 5, 5], (0, 0, 0), 250⟩ ∧
      ∃ best, find_best_fit_from_buffer twoBuffered = some best ∧
        ((best = noBestFit ∧ ∀ r ∈ twoBuffered.final_placements, ¬ promotable twoBuffered r) ∨
          ∃ (pre : List StackResult) (r : StackResult) (post : List StackResult),
            twoBuffered.final_placements = pre ++ r :: post ∧ promotable twoBuffered r ∧
            best.best_box_id = r.box_id ∧
            (∀ q ∈ pre, promotable twoBuffered q →
              entryVolume twoBuffered q < entryVolume twoBuffered r) ∧
            (∀ q ∈ post, promotable twoBuffered q →
              entryVolume twoBuffered q ≤ entryVolume twoBuffered r) ∧
            ∃ (box : Box) (s0 s1 s2 : Int) (rest : List Int), bufferedBox twoBuffered r box ∧
              parseBoxSize box.box_size = s0 :: s1 :: s2 :: rest ∧
              best.best_box_size = s0 :: s1 :: s2 :: rest ∧
              main_first_fit twoBuffered s0 s1 s2 = some (some best.best_location)) :=
  ⟨by decide, find_best_fit_selects twoBuffered (by decide) twoBuffered_dims
    twoBuffered_range⟩

/-- C13 fails as stated: `fit_score` is an `int` product.  In `largeBuffered`, the state
after the fill phase for the single box `(1100,1100,1800)` in a `1100×1100×1800` container,
the buffered box has a feasible main-container position (corner `(0,0,0)`), but its
volume `2178000000` leaves the range of `int`: the product becomes `-2116967296`, the test
`fit_score > best_fit_score` fails, and `find_best_fit_from_buffer` returns nothing (the
empty id). -/
theorem find_best_fit_misses_large_box :
    [(⟨"G", "[1100,1100,1800]"⟩ : Box)].foldlM fill_step
        (new [⟨"G", "[1100,1100,1800]"⟩] (1100, 1100, 1800) 5) = some largeBuffered ∧
      parseBoxSize "[1100,1100,1800]" = [1100, 1100, 1800] ∧
      boxVolume [1100, 1100, 1800] = 2178000000 ∧
      int_mul (int_mul 1100 1100) 1800 = -2116967296 ∧
      promotable largeBuffered ⟨"G", (550, 550, 0), 0, 2⟩ ∧
      find_best_fit_from_buffer largeBuffered = some noBestFit := by
  refine ⟨by decide, by decide, by decide, by decide, ?_, by decide⟩
  exact ⟨⟨"G", "[1100,1100,1800]"⟩, ⟨rfl, by decide⟩, 1100, 1100, 1800, [], by decide,
    ⟨0, 0, 0, by decide, by decide, by decide, by decide⟩⟩

/-! ### The end of the promotion loop -/

theorem find?_of_nodup : ∀ (l : List Box) (box : Box), (l.map fun b => b.box_id).Nodup →
    box ∈ l → l.find? (fun bx => bx.box_id == box.box_id) = some box := by
  intro l
  induction l with
  | nil => intro box _ h; simp at h
  | cons a l ih =>
    intro box hnd hmem
    simp only [List.map_cons, List.nodup_cons, List.mem_map, not_exists, not_and] at hnd
    rcases List.mem_cons.1 hmem with rfl | hmem
    · simp
    · have hne : a.box_id ≠ box.box_id := fun h => hnd.1 box hmem h.symm
      rw [List.find?_cons_of_neg _ (by simpa using hne)]
      exact ih box hnd.2 hmem

theorem try_place_in_buffer_defined (e : StackingAlgorithm) (hgap : 0 < e.stacking_interval)
    (box : Box) : try_place_in_buffer e box ≠ none := by
  unfold try_place_in_buffer
  split
  · split
    · rename_i hnone
      exact absurd hnone (scan_defined _ hgap fun y => scan_defined _ hgap fun x => by simp)
    · simp
    · simp
  · simp

theorem try_place_in_main_defined (e : StackingAlgorithm) (hgap : 0 < e.stacking_interval)
    (box : Box) : try_place_in_main e box ≠ none := by
  unfold try_place_in_main
  split
  · split
    · rename_i hnone
      exact absurd hnone (scan3_defined _ _ _ hgap fun x y z => by simp)
    · simp
    · simp
  · simp

/-- With a positive gap every iteration of the fill loop of `stack_with_buffer` has a
defined result. -/
theorem fill_step_defined (e : StackingAlgorithm) (hgap : 0 < e.stacking_interval)
    (box : Box) : fill_step e box ≠ none := by
  unfold fill_step
  split_ifs
  · simp
  · cases hb : try_place_in_buffer e box with
    | none => exact absurd hb (try_place_in_buffer_defined e hgap box)
    | some p =>
      obtain ⟨b, e1⟩ := p
      cases b with
      | true => simp
      | false =>
        have hg1 : e1.stacking_interval = e.stacking_interval := by
          rcases try_place_in_buffer_effect hb with ⟨-, rfl⟩ | ⟨hbt, -⟩
          · rfl
          · exact absurd hbt (by decide)
        cases hm : try_place_in_main e1 box with
        | none => exact absurd hm (try_place_in_main_defined e1 (hg1 ▸ hgap) box)
        | some q => simp [hm]
  · cases hm : try_place_in_main e box with
    | none => exact absurd hm (try_place_in_main_defined e hgap box)
    | some q => simp

/-- When `move_best_fit_from_buffer_to_main` returns `false` (positive gap, positive
dimensions with volumes inside the range of `int`, non-empty ids), no buffer entry has a
feasible main-container position. -/
theorem move_false_none_promotable {e : StackingAlgorithm} (hgap : 0 < e.stacking_interval)
    (hdims : ∀ bx ∈ e.boxes, positiveDims (parseBoxSize bx.box_size))
    (hrange : ∀ bx ∈ e.boxes, volumeInRange (parseBoxSize bx.box_size))
    (hne : ∀ bx ∈ e.boxes, bx.box_id ≠ "")
    (h : move_best_fit_from_buffer_to_main e = some (false, e)) :
    ∀ r ∈ e.final_placements, ¬ promotable e r := by
  obtain ⟨best, hbest, hsf⟩ := find_best_fit_bestSoFar hgap hdims hrange
  rcases hsf with ⟨hnone, -⟩ | ⟨pre, r, post, box, s0, s1, s2, rest, loc, hpre, hbox, hsize,
    hfit, hb, -, -, -⟩
  · exact hnone
  · exfalso
    have hmem := List.mem_of_find?_eq_some hbox.2
    have hid : box.box_id = r.box_id := by
      have := List.find?_some hbox.2
      simpa using this
    have hbid : best.best_box_id ≠ "" := by
      rw [hb]
      exact hid ▸ hne box hmem
    unfold move_best_fit_from_buffer_to_main at h
    rw [hbest] at h
    dsimp only at h
    rw [if_pos hbid] at h
    split at h
    · split at h
      · simp at h
      · simp at h
    · rename_i hidx
      rw [List.findIdx?_eq_none_iff] at hidx
      have := hidx r (by rw [hpre]; simp)
      rw [hb] at this
      simp [hbox.1] at this

/-- C14: on a fresh engine with a positive gap, distinct non-empty box ids and positive
dimensions whose volumes are inside the range of `int`, `stack_with_buffer` returns, and
no box it leaves in the buffer (`pallet_id` 2) has a feasible main-container position: at
every corner `(x, y, z)` on the lattice of
multiples of the gap with `x ≤ W - w`, `y ≤ L - l`, `z ≤ H - h` the box overlaps an entry of
`main_placements`. -/
theorem no_promotable_left (boxes : List Box) (pallet_size : Int × Int × Int) (gap : Int)
    (hgap : 0 < gap) (hids : (boxes.map fun b => b.box_id).Nodup)
    (hne : ∀ b ∈ boxes, b.box_id ≠ "")
    (hdims : ∀ b ∈ boxes, positiveDims (parseBoxSize b.box_size))
    (hrange : ∀ b ∈ boxes, volumeInRange (parseBoxSize b.box_size)) :
    ∃ (res : List StackResult) (e1 : StackingAlgorithm),
      stack_with_buffer (new boxes pallet_size gap) = some (res, e1) ∧
      ∀ r ∈ res, r.pallet_id = 2 → ∀ box ∈ boxes, box.box_id = r.box_id →
        ∀ (w l h : Int) (rest : List Int), parseBoxSize box.box_size = w :: l :: h :: rest →
          ∀ i j k : Nat, (i : Int) * gap ≤ pallet_size.1 - w →
            (j : Int) * gap ≤ pallet_size.2.1 - l → (k : Int) * gap ≤ pallet_size.2.2 - h →
            is_overlap ((i : Int) * gap, (j : Int) * gap, (k : Int) * gap, w, l, h)
              e1.main_placements = true := by
  have h0 : BufferInv (new boxes pallet_size gap) (new boxes pallet_size gap) :=
    ⟨rfl, rfl, rfl, by intro r hr; simp [new] at hr⟩
  obtain ⟨e2, hfill, hinv2⟩ := foldlM_prefix_inv fill_step
    (fun _ s => BufferInv (new boxes pallet_size gap) s) boxes
    (fun _ a s ha hs => by
      have hg : 0 < s.stacking_interval := by rw [hs.2.2.1]; exact hgap
      cases hf : fill_step s a with
      | none => exact absurd hf (fill_step_defined s hg a)
      | some s1 => exact ⟨s1, rfl, fill_step_inv hgap hs ha hf⟩)
    [] (new boxes pallet_size gap) h0
  have hg2 : 0 < e2.stacking_interval := by rw [hinv2.2.2.1]; exact hgap
  have hwf2 : buffersWellFormed e2 := by
    intro r _ box hbox
    have hmem : box ∈ boxes := by
      have := List.mem_of_find?_eq_some hbox.2
      rwa [hinv2.1] at this
    obtain ⟨_, _, _, _, hsz, -⟩ := hdims box hmem
    rw [hsz]
    simp only [List.length_cons]
    omega
  obtain ⟨n, e1, -, -, hend, hpr⟩ :=
    promote_terminates (buffered e2.final_placements + 1) e2 hg2 hwf2 (Nat.lt_succ_self _)
  obtain ⟨hb1, hp1, hg1, -⟩ := promote_inv hgap _ e2 e1 hinv2 hpr
  have hb1 : e1.boxes = boxes := hb1
  have hp1 : e1.pallet_size = pallet_size := hp1
  have hg1 : e1.stacking_interval = gap := hg1
  refine ⟨e1.final_placements, e1, ?_, ?_⟩
  · have hfill2 : boxes.foldlM fill_step (new boxes pallet_size gap) = some e2 := hfill
    unfold stack_with_buffer
    have hn : (new boxes pallet_size gap).boxes = boxes := rfl
    rw [hn, hfill2]
    dsimp only
    rw [hpr]
    rfl
  · intro r hr hr2 box hbox hid w l h rest hsize i j k hi hj hk
    have hnone := move_false_none_promotable (hg1 ▸ hgap) (hb1 ▸ hdims)
      (hb1 ▸ hrange) (hb1 ▸ hne) hend r hr
    have hbuf : bufferedBox e1 r box := by
      refine ⟨hr2, ?_⟩
      rw [hb1, ← hid]
      exact find?_of_nodup boxes box hids hbox
    cases hov : is_overlap ((i : Int) * gap, (j : Int) * gap, (k : Int) * gap, w, l, h)
        e1.main_placements with
    | true => rfl
    | false =>
      exfalso
      refine hnone ((promotable_iff hbuf hsize).2 ⟨i, j, k, ?_, ?_, ?_, ?_⟩)
      · rw [hg1, hp1]; exact hi
      · rw [hg1, hp1]; exact hj
      · rw [hg1, hp1]; exact hk
      · rw [hg1]; exact hov

/-- Witness for C14: two boxes `(5,5,5)` in a `5×5×5` container with gap 5.  `A` stays in
the buffer and `B` is in the main container; the one lattice corner `(0,0,0)` of `A`
overlaps the padded `B`. -/
theorem no_promotable_left_witness :
    stack_with_buffer (new [⟨"A", "[5,5,5]"⟩, ⟨"B", "[5,5,5]"⟩] (5, 5, 5) 5) =
        some (mainFull.final_placements, mainFull) ∧
      ⟨"A", (3, 3, 0), 0, 2⟩ ∈ mainFull.final_placements ∧
      is_overlap (((0 : Nat) : Int) * 5, ((0 : Nat) : Int) * 5, ((0 : Nat) : Int) * 5, 5, 5, 5)
        mainFull.main_placements = true := by
  obtain ⟨res, e1, hrun, hall⟩ := no_promotable_left
    [⟨"A", "[5,5,5]"⟩, ⟨"B", "[5,5,5]"⟩] (5, 5, 5) 5 (by decide) (by decide) (by decide)
    (by
      intro b hb
      have hb1 : b = ⟨"A", "[5,5,5]"⟩ ∨ b = ⟨"B", "[5,5,5]"⟩ := by simpa using hb
      rcases hb1 with rfl | rfl <;>
        exact ⟨5, 5, 5, [], by decide, by decide, by decide, by decide⟩)
    (by
      intro b hb
      have hb1 : b = ⟨"A", "[5,5,5]"⟩ ∨ b = ⟨"B", "[5,5,5]"⟩ := by simpa using hb
      have hs : parseBoxSize "[5,5,5]" = [5, 5, 5] := by decide
      rcases hb1 with rfl | rfl <;>
        (rw [hs]; unfold volumeInRange; decide))
  have hrun2 : stack_with_buffer (new [⟨"A", "[5,5,5]"⟩, ⟨"B", "[5,5,5]"⟩] (5, 5, 5) 5) =
      some (mainFull.final_placements, mainFull) := by decide
  rw [hrun2] at hrun
  simp only [Option.some.injEq, Prod.mk.injEq] at hrun
  obtain ⟨rfl, rfl⟩ := hrun
  exact ⟨hrun2, by decide,
    hall ⟨"A", (3, 3, 0), 0, 2⟩ (by decide) rfl ⟨"A", "[5,5,5]"⟩ (by decide) rfl 5 5 5 []
      (by decide) 0 0 0 (by decide) (by decide) (by decide)⟩

/-- C14 fails as stated: for the single box `(1100,1100,1800)` in a `1100×1100×1800`
container with gap 5, `stack_with_buffer` returns the box in the buffer (`pallet_id` 2)
although it does not overlap the (empty) main accepted list at the lattice corner
`(0,0,0)`, which satisfies `x ≤ W - w`, `y ≤ L - l`, `z ≤ H - h`: the `int` product
`fit_score` of the box is negative, so the box is never promoted. -/
theorem stack_with_buffer_keeps_large_box :
    stack_with_buffer (new [⟨"G", "[1100,1100,1800]"⟩] (1100, 1100, 1800) 5) =
        some ([⟨"G", (550, 550, 0), 0, 2⟩], largeBuffered) ∧
      parseBoxSize "[1100,1100,1800]" = [1100, 1100, 1800] ∧
      largeBuffered.main_placements = [] ∧
      ((0 : Nat) : Int) * 5 ≤ 1100 - 1100 ∧ ((0 : Nat) : Int) * 5 ≤ 1800 - 1800 ∧
      is_overlap (((0 : Nat) : Int) * 5, ((0 : Nat) : Int) * 5, ((0 : Nat) : Int) * 5,
        1100, 1100, 1800) largeBuffered.main_placements = false ∧
      int_mul (int_mul 1100 1100) 1800 = -2116967296 := by
  refine ⟨by decide, by decide, by decide, by decide, by decide, by decide, by decide⟩

/-! ## The grid after a commit -/

/-- C24, at a concrete input: the empty grid of a `20×10×10` container (4 × 2 × 2 voxels),
one box `(5,5,5)` committed at `(0,0,0)` after `canPlaceBox` returned true.  The box meets
only the cell of voxel `(0,0,0)`, but `markGridCells` has set eight voxels, among them
voxel `(1,0,0)` (index 1), whose cell `[5,10) × [0,5) × [0,5)` no committed box meets. -/
theorem placeBox_marks_uncovered_voxel :
    BoxPlacement.new (20, 10, 10) =
        some { pallet_dimensions := (20, 10, 10), grid_cells := List.replicate 16 false,
               placed_boxes := [] } ∧
      BoxPlacement.canPlaceBox
        { pallet_dimensions := (20, 10, 10), grid_cells := List.replicate 16 false,
          placed_boxes := [] } [5, 5, 5] (0, 0, 0) 0 = some true ∧
      BoxPlacement.placeBox
        { pallet_dimensions := (20, 10, 10), grid_cells := List.replicate 16 false,
          placed_boxes := [] } [5, 5, 5] (0, 0, 0) 0 =
        some { pallet_dimensions := (20, 10, 10),
               grid_cells := [true, true, false, false, true, true, false, false,
                              true, true, false, false, true, true, false, false],
               placed_boxes := [⟨(0, 0, 0), [5, 5, 5], 0⟩] } ∧
      BoxPlacement.cellIndex (20, 10, 10) 1 0 0 = 1 ∧
      [true, true, false, false, true, true, false, false,
        true, true, false, false, true, true, false, false].getD 1 false = true ∧
      ¬ PlacedBox.meetsCell ⟨(0, 0, 0), [5, 5, 5], 0⟩ 1 0 0 := by
  refine ⟨by decide, by decide, by decide, by decide, by decide, ?_⟩
  unfold PlacedBox.meetsCell
  decide

/-- C25, at a concrete input: the empty grid of a `10×10×10` container (2 × 2 × 2 voxels,
8 entries) and the box `(10,10,10)` at `(0,0,0)`, rotation 0, which passes the bounds test.
The loops of `hasOverlap` and `markGridCells` run up to index `(0 + 10)/5 = 2` on every
axis, which is `W/5`, outside the grid; the flattened index of voxel `(2,2,2)` is 14, not
smaller than the length 8 of the voxel array, so `canPlaceBox` and `placeBox` read and
write outside `grid_cells` and have no defined result. -/
theorem canPlaceBox_reads_outside_grid :
    BoxPlacement.new (10, 10, 10) =
        some { pallet_dimensions := (10, 10, 10), grid_cells := List.replicate 8 false,
               placed_boxes := [] } ∧
      BoxPlacement.isWithinBounds
        { pallet_dimensions := (10, 10, 10), grid_cells := List.replicate 8 false,
          placed_boxes := [] } (0, 0, 0) [10, 10, 10] = some true ∧
      (2 : Int) ∈ BoxPlacement.cellRange ((0 : Int).tdiv BoxPlacement.grid_size)
        ((0 + 10 : Int).tdiv BoxPlacement.grid_size) ∧
      ¬ (2 : Int) < (10 : Int).tdiv BoxPlacement.grid_size ∧
      BoxPlacement.cellIndex (10, 10, 10) 2 2 2 = 14 ∧
      (14 : Int) ∈ BoxPlacement.cellIndices (10, 10, 10) (0, 0, 0) 10 10 10 ∧
      (List.replicate 8 false).length = 8 ∧
      BoxPlacement.canPlaceBox
        { pallet_dimensions := (10, 10, 10), grid_cells := List.replicate 8 false,
          placed_boxes := [] } [10, 10, 10] (0, 0, 0) 0 = none ∧
      BoxPlacement.placeBox
        { pallet_dimensions := (10, 10, 10), grid_cells := List.replicate 8 false,
          placed_boxes := [] } [10, 10, 10] (0, 0, 0) 0 = none := by
  refine ⟨by decide, by decide, by decide, by decide, by decide, by decide, by decide,
    by decide, by decide⟩

/-- C29, at a concrete input: the single box `(20,10,5)` in a `15×25×10` container with
gap 5.  On the empty grid `canPlaceBox` accepts the box at corner `(0,0,0)` with rotation
90 (footprint `10×20`), but the `x` loop of `tryPlaceBox` is bounded by `W - box_size[0]
= -5`, so no corner is tried and `optimized_stack` omits the box. -/
theorem optimized_stack_drops_rotatable_box :
    BoxPlacement.new (15, 25, 10) =
        some { pallet_dimensions := (15, 25, 10), grid_cells := List.replicate 30 false,
               placed_boxes := [] } ∧
      parseBoxSize "[20,10,5]" = [20, 10, 5] ∧
      BoxPlacement.canPlaceBox
        { pallet_dimensions := (15, 25, 10), grid_cells := List.replicate 30 false,
          placed_boxes := [] } [20, 10, 5] (0, 0, 0) 90 = some true ∧
      tryPlaceBox (new [⟨"R", "[20,10,5]"⟩] (15, 25, 10) 5)
        { pallet_dimensions := (15, 25, 10), grid_cells := List.replicate 30 false,
          placed_boxes := [] } [20, 10, 5] = some none ∧
      (optimized_stack stable_sort (new [⟨"R", "[20,10,5]"⟩] (15, 25, 10) 5)).map
        Prod.fst = some [] := by
  refine ⟨by decide, by decide, by decide, by decide, by decide⟩

/-! ## Repeated calls on one engine -/

/-- C23 fails as stated.  `Stack(BUFFER)` on an engine that has served a `Stack(BUFFER)`
call works on the `buffer_placements` the first call left: for the single box `(5,5,5)` in
a `20×10×10` container with gap 5 the first call returns the box at anchor `(3,3,0)`, the
second at `(13,3,0)`.  For two boxes `(5,5,5)` in a `5×5×5` container
`Stack(STACK_WITH_BUFFER)` on a fresh engine returns `A` in the buffer and `B` in the main
container; after a `Stack(BUFFER)` call it returns only `A`, in the main container. -/
theorem Stack_reuse_changes_result :
    (Stack stable_sort (new [⟨"A", "[5,5,5]"⟩] (20, 10, 10) 5) 2).placements =
        some [⟨"A", (3, 3, 0), 0, 1⟩] ∧
      (Stack stable_sort
        (StackOutcome.engineAfter (new [⟨"A", "[5,5,5]"⟩] (20, 10, 10) 5)
          (Stack stable_sort (new [⟨"A", "[5,5,5]"⟩] (20, 10, 10) 5) 2)) 2).placements =
        some [⟨"A", (13, 3, 0), 0, 1⟩] ∧
      (Stack stable_sort
        (new [⟨"A", "[5,5,5]"⟩, ⟨"B", "[5,5,5]"⟩] (5, 5, 5) 5) 3).placements =
        some [⟨"A", (3, 3, 0), 0, 2⟩, ⟨"B", (3, 3, 0), 0, 1⟩] ∧
      (Stack stable_sort
        (StackOutcome.engineAfter (new [⟨"A", "[5,5,5]"⟩, ⟨"B", "[5,5,5]"⟩] (5, 5, 5) 5)
          (Stack stable_sort
            (new [⟨"A", "[5,5,5]"⟩, ⟨"B", "[5,5,5]"⟩] (5, 5, 5) 5) 2)) 3).placements =
        some [⟨"A", (3, 3, 0), 0, 1⟩] := by
  refine ⟨by decide, by decide, by decide, by decide⟩

/-! ## The fallback scan of Greedy-Fill-All -/

/-- C27: with a positive gap, whenever the primary scan of `stack_all_boxes` finds nothing
for a box of size `(w, l, h)` and the fallback scan accepts corner `(0, 0, z)`, the box is
recorded there and its width exceeds `W` or its length exceeds `L`; for a box with
`w ≤ W` and `l ≤ L` a failed primary scan makes the fallback fail too, and the box is
dropped (the lists stay as they were). -/
theorem greedy_fallback_only_oversized (e : StackingAlgorithm)
    (st : List Placement × List StackResult) (box : Box) (w l h : Int) (rest : List Int)
    (hgap : 0 < e.stacking_interval)
    (hsize : parseBoxSize box.box_size = w :: l :: h :: rest)
    (hprim : primary_scan e st.1 w l h = some none) :
    (∀ z : Int, fallback_scan e st.1 w l h = some (some z) →
      stack_all_step e st box =
        some (st.1 ++ [padded e.stacking_interval 0 0 z w l h],
              st.2 ++ [resultAt box.box_id 0 0 z w l 1]) ∧
      (e.pallet_size.1 < w ∨ e.pallet_size.2.1 < l)) ∧
    (w ≤ e.pallet_size.1 → l ≤ e.pallet_size.2.1 →
      fallback_scan e st.1 w l h = some none ∧ stack_all_step e st box = some st) := by
  have hkey : ∀ z : Int, fallback_scan e st.1 w l h = some (some z) →
      e.pallet_size.1 < w ∨ e.pallet_size.2.1 < l := by
    intro z hfall
    by_contra hcon
    obtain ⟨k, hk, hbody, -⟩ := scan_found hfall
    have hex := scan3_exhausted hgap hprim 0 0 k (by simp; omega) (by simp; omega) hk
    simp only [Nat.cast_zero, zero_mul] at hex
    cases hov : is_overlap (0, 0, (k : Int) * e.stacking_interval, w, l, h) st.1 with
    | true => simp [hov] at hbody
    | false => simp [hov] at hex
  refine ⟨fun z hfall => ⟨?_, hkey z hfall⟩, fun hw hl => ?_⟩
  · simp only [stack_all_step, hsize, hprim, hfall]
  · have hfall : fallback_scan e st.1 w l h = some none := by
      cases hf : fallback_scan e st.1 w l h with
      | none => exact absurd hf (scan_defined _ hgap (fun z => by simp))
      | some o =>
        cases o with
        | none => rfl
        | some z =>
          rcases hkey z hf with h1 | h1 <;> omega
    refine ⟨hfall, ?_⟩
    simp only [stack_all_step, hsize, hprim, hfall]

/-- Witness for C27: a second box `(10,10,10)` in a `10×10×10` container whose only corner
is taken; the primary scan fails, the box is not wider or longer than the container, and
it is dropped. -/
theorem greedy_fallback_only_oversized_witness :
    fallback_scan (new [⟨"A", "[10,10,10]"⟩, ⟨"B", "[10,10,10]"⟩] (10, 10, 10) 5)
        [(0, 0, 0, 15, 15, 15)] 10 10 10 = some none ∧
      stack_all_step (new [⟨"A", "[10,10,10]"⟩, ⟨"B", "[10,10,10]"⟩] (10, 10, 10) 5)
        ([(0, 0, 0, 15, 15, 15)], [⟨"A", (5, 5, 0), 0, 1⟩]) ⟨"B", "[10,10,10]"⟩ =
        some ([(0, 0, 0, 15, 15, 15)], [⟨"A", (5, 5, 0), 0, 1⟩]) :=
  (greedy_fallback_only_oversized
    (new [⟨"A", "[10,10,10]"⟩, ⟨"B", "[10,10,10]"⟩] (10, 10, 10) 5)
    ([(0, 0, 0, 15, 15, 15)], [⟨"A", (5, 5, 0), 0, 1⟩]) ⟨"B", "[10,10,10]"⟩ 10 10 10 []
    (by decide) (by decide) (by decide)).2 (by decide) (by decide)

/-! ## Sizes that are not positive -/

/-- The loop of `stack_all_boxes` only appends to `out_placements`. -/
theorem stack_all_fold_appends (e : StackingAlgorithm) (l : List Box)
    (st st1 : List Placement × List StackResult)
    (h : l.foldlM (stack_all_step e) st = some st1) : ∃ more, st1.2 = st.2 ++ more := by
  refine foldlM_inv (fun s : List Placement × List StackResult => ∃ more, s.2 = st.2 ++ more)
    (stack_all_step e) l st st1 ?_ ⟨[], by simp⟩ h
  intro t a t1 _ hP hf
  obtain ⟨more, hmore⟩ := hP
  unfold stack_all_step at hf
  split at hf
  · split at hf
    · simp at hf
    · simp only [Option.some.injEq] at hf
      subst hf
      exact ⟨more ++ [_], by rw [hmore, List.append_assoc]⟩
    · split at hf
      · simp at hf
      · simp only [Option.some.injEq] at hf
        subst hf
        exact ⟨more ++ [_], by rw [hmore, List.append_assoc]⟩
      · simp only [Option.some.injEq] at hf
        subst hf
        exact ⟨more, hmore⟩
  · simp only [Option.some.injEq] at hf
    subst hf
    exact ⟨more, hmore⟩

/-- The first iteration of `stack_all_boxes` on empty lists: a box with three parsed
integers and `h ≤ H` is recorded at corner `(0,0,0)`, by the primary scan or by the
fallback. -/
theorem stack_all_step_first (e : StackingAlgorithm) (box : Box) (w l h : Int)
    (rest : List Int) (hgap : 0 < e.stacking_interval)
    (hsize : parseBoxSize box.box_size = w :: l :: h :: rest) (hh : h ≤ e.pallet_size.2.2) :
    stack_all_step e ([], []) box =
      some ([padded e.stacking_interval 0 0 0 w l h], [resultAt box.box_id 0 0 0 w l 1]) := by
  by_cases hfit : 0 ≤ e.pallet_size.1 - w ∧ 0 ≤ e.pallet_size.2.1 - l
  · have hprim : primary_scan e [] w l h = some (some (0, 0, 0)) := by
      have hz : 0 ≤ e.pallet_size.2.2 - h := by omega
      simp [primary_scan, scan3, scan, scanFrom, is_overlap, hfit.1, hfit.2, hz]
    simp only [stack_all_step, hsize, hprim, List.nil_append]
  · have hprim : primary_scan e [] w l h = some none := by
      cases hp : primary_scan e [] w l h with
      | none => exact absurd hp (scan3_defined _ _ _ hgap (fun x y z => by simp))
      | some o =>
        cases o with
        | none => rfl
        | some p =>
          exfalso
          obtain ⟨i, j, k, hi, hj, -, -, -⟩ := scan3_found hgap hp
          have hi0 : (0 : Int) ≤ (i : Int) * e.stacking_interval :=
            mul_nonneg (Int.ofNat_nonneg i) hgap.le
          have hj0 : (0 : Int) ≤ (j : Int) * e.stacking_interval :=
            mul_nonneg (Int.ofNat_nonneg j) hgap.le
          exact hfit ⟨by omega, by omega⟩
    have hfall : fallback_scan e [] w l h = some (some 0) := by
      have hz : 0 ≤ e.pallet_size.2.2 - h := by omega
      simp [fallback_scan, scan, scanFrom, is_overlap, hz]
    simp only [stack_all_step, hsize, hprim, hfall, List.nil_append]

/-- With a positive gap an iteration of the loop of `stack_buffer` has a defined result,
keeps the gap and the container, and only appends to `out_placements`. -/
theorem stack_buffer_step_appends (st : StackingAlgorithm × List StackResult) (box : Box)
    (hgap : 0 < st.1.stacking_interval) :
    ∃ st1, stack_buffer_step st box = some st1 ∧
      st1.1.stacking_interval = st.1.stacking_interval ∧ ∃ more, st1.2 = st.2 ++ more := by
  unfold stack_buffer_step
  split
  · split
    · rename_i hnone
      exact absurd hnone (scan_defined _ hgap fun y => scan_defined _ hgap fun x => by simp)
    · exact ⟨_, rfl, rfl, _, rfl⟩
    · exact ⟨_, rfl, rfl, [], by simp⟩
  · exact ⟨_, rfl, rfl, [], by simp⟩

/-- The first iteration of `stack_buffer` on a fresh engine: a box with three parsed
integers, `w ≤ W` and `l ≤ L` is recorded at corner `(0,0,0)`. -/
theorem stack_buffer_step_first (boxes : List Box) (pallet_size : Int × Int × Int)
    (gap : Int) (box : Box) (w l h : Int) (rest : List Int)
    (hsize : parseBoxSize box.box_size = w :: l :: h :: rest)
    (hw : w ≤ pallet_size.1) (hl : l ≤ pallet_size.2.1) :
    stack_buffer_step (new boxes pallet_size gap, []) box =
      some ({ new boxes pallet_size gap with
              buffer_placements := [padded gap 0 0 0 w l h] },
            [resultAt box.box_id 0 0 0 w l 1]) := by
  have hx : 0 ≤ pallet_size.1 - w := by omega
  have hy : 0 ≤ pallet_size.2.1 - l := by omega
  simp [stack_buffer_step, hsize, new, scan, scanFrom, is_position_occupied, hx, hy]

/-- The first iteration of the fill loop of `stack_with_buffer` on a fresh engine: a box
with three parsed integers, `w ≤ W` and `l ≤ L` goes to the buffer at corner `(0,0,0)`. -/
theorem fill_step_first (boxes : List Box) (pallet_size : Int × Int × Int)
    (gap : Int) (box : Box) (w l h : Int) (rest : List Int)
    (hsize : parseBoxSize box.box_size = w :: l :: h :: rest)
    (hw : w ≤ pallet_size.1) (hl : l ≤ pallet_size.2.1) :
    fill_step (new boxes pallet_size gap) box =
      some { new boxes pallet_size gap with
             buffer_placements := [padded gap 0 0 0 w l h],
             final_placements := [resultAt box.box_id 0 0 0 w l 2],
             buffer_count := 1,
             used_boxes := [box.box_id] } := by
  have hx : 0 ≤ pallet_size.1 - w := by omega
  have hy : 0 ≤ pallet_size.2.1 - l := by omega
  simp [fill_step, new, MAX_BUFFER_COUNT, try_place_in_buffer, hsize, scan, scanFrom,
    is_overlap, hx, hy]

/-- An iteration of the fill loop of `stack_with_buffer` keeps every result record. -/
theorem fill_step_keeps {e e1 : StackingAlgorithm} {box : Box}
    (h : fill_step e box = some e1) :
    ∀ r ∈ e.final_placements, r ∈ e1.final_placements := by
  have hbuf : ∀ {a a1 : StackingAlgorithm} {b : Bool}, try_place_in_buffer a box = some (b, a1) →
      ∀ r ∈ a.final_placements, r ∈ a1.final_placements := by
    intro a a1 b hb r hr
    rcases try_place_in_buffer_effect hb with ⟨-, rfl⟩ | ⟨-, -, -, q, -, -, hq⟩
    · exact hr
    · rw [hq]; exact List.mem_append_left _ hr
  have hmain : ∀ {a a1 : StackingAlgorithm} {b : Bool}, try_place_in_main a box = some (b, a1) →
      ∀ r ∈ a.final_placements, r ∈ a1.final_placements := by
    intro a a1 b hb r hr
    rcases try_place_in_main_effect hb with ⟨-, rfl⟩ | ⟨-, -, -, q, -, -, hq⟩
    · exact hr
    · rw [hq]; exact List.mem_append_left _ hr
  intro r hr
  unfold fill_step at h
  split_ifs at h
  · simp only [Option.some.injEq] at h
    exact h ▸ hr
  · split at h
    · simp at h
    · rename_i e2 hb
      simp only [Option.some.injEq] at h
      exact h ▸ hbuf hb r hr
    · rename_i e2 hb
      cases hm : try_place_in_main e2 box with
      | none => simp [hm] at h
      | some p =>
        obtain ⟨b, e3⟩ := p
        simp only [hm, Option.map_some', Option.some.injEq] at h
        exact h ▸ hmain hm r (hbuf hb r hr)
  · cases hm : try_place_in_main e box with
    | none => simp [hm] at h
    | some p =>
      obtain ⟨b, e3⟩ := p
      simp only [hm, Option.map_some', Option.some.injEq] at h
      exact h ▸ hmain hm r hr

/-- A call of `move_best_fit_from_buffer_to_main` keeps the ids of the result records: the
record it erases comes back, with the same id, as a `pallet_id` 1 record. -/
theorem move_keeps_id {e e1 : StackingAlgorithm} {b : Bool} {id : String}
    (h : move_best_fit_from_buffer_to_main e = some (b, e1))
    (hid : ∃ r ∈ e.final_placements, r.box_id = id) :
    ∃ r ∈ e1.final_placements, r.box_id = id := by
  rcases move_effect h with ⟨-, rfl⟩ |
    ⟨-, best, i, rebuilt, s0, s1, s2, rest, -, -, hidx, -, -, rfl⟩
  · exact hid
  · obtain ⟨a, ha, hpa⟩ := findIdx?_getElem? hidx
    simp only [Bool.and_eq_true, decide_eq_true_eq, beq_iff_eq] at hpa
    obtain ⟨r, hr, hrid⟩ := hid
    rcases List.mem_cons.1 ((perm_cons_eraseIdx _ i a ha).mem_iff.1 hr) with rfl | hr
    · exact ⟨_, List.mem_append_right _ (List.mem_singleton_self _), by
        simp only [resultAt]; rw [← hpa.2]; exact hrid⟩
    · exact ⟨r, List.mem_append_left _ hr, hrid⟩

/-- The promotion loop keeps the ids of the result records. -/
theorem promote_keeps_id {id : String} : ∀ (fuel : Nat) (e e1 : StackingAlgorithm),
    promote fuel e = some e1 → (∃ r ∈ e.final_placements, r.box_id = id) →
      ∃ r ∈ e1.final_placements, r.box_id = id := by
  intro fuel
  induction fuel with
  | zero => intro e e1 h; simp [promote] at h
  | succ n ih =>
    intro e e1 h hid
    simp only [promote] at h
    split at h
    · simp at h
    · rename_i e2 hm
      exact ih e2 e1 h (move_keeps_id hm hid)
    · rename_i e2 hm
      simp only [Option.some.injEq] at h
      exact h ▸ move_keeps_id hm hid

/-- C21, as the code has it: Greedy-Fill-All, Buffer-Only and Buffer-Then-Promote count the
parsed integers of a size and do not look at their sign.  With a positive gap and distinct
box ids, a first box whose size string parses to three integers `(w, l, h)` of any sign
with `w ≤ W`, `l ≤ L` and `h ≤ H` is not skipped: each of the three runs returns;
Greedy-Fill-All and Buffer-Only return that box first, at corner `(0,0,0)`, and the result
of Buffer-Then-Promote holds a placement with the id of that box. -/
theorem unchecked_sign_first_box_placed (box : Box) (others : List Box)
    (pallet_size : Int × Int × Int) (gap : Int) (w l h : Int) (rest : List Int)
    (hgap : 0 < gap) (hids : ((box :: others).map fun b => b.box_id).Nodup)
    (hsize : parseBoxSize box.box_size = w :: l :: h :: rest)
    (hw : w ≤ pallet_size.1) (hl : l ≤ pallet_size.2.1) (hh : h ≤ pallet_size.2.2) :
    (∃ more : List StackResult,
      stack_all_boxes (new (box :: others) pallet_size gap) =
        some (resultAt box.box_id 0 0 0 w l 1 :: more)) ∧
    (∃ (more : List StackResult) (e1 : StackingAlgorithm),
      stack_buffer (new (box :: others) pallet_size gap) =
        some (resultAt box.box_id 0 0 0 w l 1 :: more, e1)) ∧
    (∃ (res : List StackResult) (e1 : StackingAlgorithm),
      stack_with_buffer (new (box :: others) pallet_size gap) = some (res, e1) ∧
        ∃ r ∈ res, r.box_id = box.box_id) := by
  have hb : (new (box :: others) pallet_size gap).boxes = box :: others := rfl
  refine ⟨?_, ?_, ?_⟩
  · have hfirst := stack_all_step_first (new (box :: others) pallet_size gap) box w l h rest
      hgap hsize hh
    cases hrun : others.foldlM (stack_all_step (new (box :: others) pallet_size gap))
        ([padded gap 0 0 0 w l h], [resultAt box.box_id 0 0 0 w l 1]) with
    | none =>
      exact absurd hrun (foldlM_defined _ _ _ fun t a _ => stack_all_step_defined _ hgap t a)
    | some st1 =>
      obtain ⟨more, hmore⟩ := stack_all_fold_appends _ _ _ _ hrun
      refine ⟨more, ?_⟩
      have hall : stack_all_run (new (box :: others) pallet_size gap) = some st1 := by
        unfold stack_all_run
        rw [hb, List.foldlM_cons, hfirst]
        exact hrun
      simp only [stack_all_boxes, hall, Option.map_some', hmore, List.singleton_append]
  · have hfirst := stack_buffer_step_first (box :: others) pallet_size gap box w l h rest
      hsize hw hl
    obtain ⟨st1, hrun, hinv⟩ := foldlM_prefix_inv stack_buffer_step
      (fun _ (s : StackingAlgorithm × List StackResult) => s.1.stacking_interval = gap ∧
        ∃ more, s.2 = resultAt box.box_id 0 0 0 w l 1 :: more) others
      (fun _ a s _ hs => by
        obtain ⟨s1, hs1, hg1, more1, hmore1⟩ := stack_buffer_step_appends s a (hs.1 ▸ hgap)
        obtain ⟨more, hmore⟩ := hs.2
        exact ⟨s1, hs1, hg1.trans hs.1, more ++ more1, by rw [hmore1, hmore]; rfl⟩)
      [] ({ new (box :: others) pallet_size gap with
              buffer_placements := [padded gap 0 0 0 w l h] },
          [resultAt box.box_id 0 0 0 w l 1]) ⟨rfl, [], rfl⟩
    obtain ⟨more, hmore⟩ := hinv.2
    refine ⟨more, st1.1, ?_⟩
    unfold stack_buffer
    rw [hb, List.foldlM_cons, hfirst]
    simp only [Option.bind_eq_bind, Option.some_bind, hrun, Option.map_some', hmore]
  · have hfirst := fill_step_first (box :: others) pallet_size gap box w l h rest hsize hw hl
    generalize he0 : ({ new (box :: others) pallet_size gap with
        buffer_placements := [padded gap 0 0 0 w l h],
        final_placements := [resultAt box.box_id 0 0 0 w l 2],
        buffer_count := 1,
        used_boxes := [box.box_id] } : StackingAlgorithm) = e0 at hfirst
    have hres0 : e0.final_placements = [resultAt box.box_id 0 0 0 w l 2] := by
      rw [← he0]
    have h0 : BufferInv (new (box :: others) pallet_size gap)
        (new (box :: others) pallet_size gap) :=
      ⟨rfl, rfl, rfl, by intro r hr; simp [new] at hr⟩
    have hinv0 : BufferInv (new (box :: others) pallet_size gap) e0 :=
      fill_step_inv hgap h0 (List.mem_cons_self _ _) hfirst
    obtain ⟨e2, hfill, hinv2, hid2⟩ := foldlM_prefix_inv fill_step
      (fun _ s => BufferInv (new (box :: others) pallet_size gap) s ∧
        ∃ r ∈ s.final_placements, r.box_id = box.box_id) others
      (fun _ a s ha hs => by
        have hg : 0 < s.stacking_interval := by rw [hs.1.2.2.1]; exact hgap
        cases hf : fill_step s a with
        | none => exact absurd hf (fill_step_defined s hg a)
        | some s1 =>
          obtain ⟨r, hr, hrid⟩ := hs.2
          exact ⟨s1, rfl, fill_step_inv hgap hs.1 (List.mem_cons_of_mem _ ha) hf,
            r, fill_step_keeps hf r hr, hrid⟩)
      [] e0 ⟨hinv0, _, by rw [hres0]; exact List.mem_singleton_self _, rfl⟩
    have hg2 : 0 < e2.stacking_interval := by rw [hinv2.2.2.1]; exact hgap
    have hwf2 : buffersWellFormed e2 := by
      intro r hr bx hbx
      obtain ⟨b1, hb1, hb1id, _, _, _, _, hsz, -⟩ := hinv2.2.2.2 r hr
      have hfind := find?_of_nodup (box :: others) b1 hids hb1
      have hbx2 := hbx.2
      rw [hinv2.1, hb, ← hb1id, hfind] at hbx2
      simp only [Option.some.injEq] at hbx2
      rw [← hbx2, hsz]
      simp only [List.length_cons]
      omega
    obtain ⟨n, e1, -, -, -, hpr⟩ :=
      promote_terminates (buffered e2.final_placements + 1) e2 hg2 hwf2 (Nat.lt_succ_self _)
    refine ⟨e1.final_placements, e1, ?_, promote_keeps_id _ e2 e1 hpr hid2⟩
    unfold stack_with_buffer
    rw [hb, List.foldlM_cons, hfirst]
    simp only [Option.bind_eq_bind, Option.some_bind]
    rw [hfill]
    dsimp only
    rw [hpr]
    rfl

/-- Witness for C21: the size string `"[10,-10,10]"` parses to three integers; in a
`20×20×20` container with gap 5 the box is returned first by Greedy-Fill-All and by
Buffer-Only, at corner `(0,0,0)` with anchor `(5,-5,0)`, and Buffer-Then-Promote returns a
placement for it. -/
theorem unchecked_sign_first_box_placed_witness :
    (∃ more : List StackResult,
      stack_all_boxes (new [⟨"N", "[10,-10,10]"⟩, ⟨"B", "[5,5,5]"⟩] (20, 20, 20) 5) =
        some (resultAt "N" 0 0 0 10 (-10) 1 :: more)) ∧
    (∃ (more : List StackResult) (e1 : StackingAlgorithm),
      stack_buffer (new [⟨"N", "[10,-10,10]"⟩, ⟨"B", "[5,5,5]"⟩] (20, 20, 20) 5) =
        some (resultAt "N" 0 0 0 10 (-10) 1 :: more, e1)) ∧
    (∃ (res : List StackResult) (e1 : StackingAlgorithm),
      stack_with_buffer (new [⟨"N", "[10,-10,10]"⟩, ⟨"B", "[5,5,5]"⟩] (20, 20, 20) 5) =
        some (res, e1) ∧ ∃ r ∈ res, r.box_id = "N") :=
  unchecked_sign_first_box_placed ⟨"N", "[10,-10,10]"⟩ [⟨"B", "[5,5,5]"⟩] (20, 20, 20) 5
    10 (-10) 10 [] (by decide) (by decide) (by decide) (by decide) (by decide) (by decide)

/-- C21 fails as stated: the size strings `"[0,10,10]"` and `"[10,-10,10]"` parse to three
integers, and in a `20×20×20` container with gap 5 every strategy returns a placement
for such a box. -/
theorem nonpositive_size_is_placed :
    parseBoxSize "[0,10,10]" = [0, 10, 10] ∧ parseBoxSize "[10,-10,10]" = [10, -10, 10] ∧
      stack_all_boxes (new [⟨"Z", "[0,10,10]"⟩] (20, 20, 20) 5) =
        some [⟨"Z", (0, 5, 0), 0, 1⟩] ∧
      stack_all_boxes (new [⟨"N", "[10,-10,10]"⟩] (20, 20, 20) 5) =
        some [⟨"N", (5, -5, 0), 0, 1⟩] ∧
      (stack_buffer (new [⟨"Z", "[0,10,10]"⟩] (20, 20, 20) 5)).map Prod.fst =
        some [⟨"Z", (0, 5, 0), 0, 1⟩] ∧
      (stack_with_buffer (new [⟨"Z", "[0,10,10]"⟩] (20, 20, 20) 5)).map Prod.fst =
        some [⟨"Z", (0, 5, 0), 0, 2⟩] ∧
      (optimized_stack stable_sort
        (new [⟨"Z", "[0,10,10]"⟩] (20, 20, 20) 5)).map Prod.fst =
        some [⟨"Z", (0, 5, 0), 0, 1⟩] := by
  refine ⟨by decide, by decide, by decide, by decide, by decide, by decide, by decide⟩

theorem StackOutcome.sameResult_ofResult (e e1 : StackingAlgorithm)
    (r : Option (List StackResult)) :
    StackOutcome.sameResult (StackOutcome.ofResult e r) (StackOutcome.ofResult e1 r) := by
  cases r <;> simp [StackOutcome.ofResult, StackOutcome.sameResult]

/-- C23, as the code has it: for every selector other than `BUFFER` (2) and
`STACK_WITH_BUFFER` (3) a call of `Stack` on an engine in any state ends as the call on a
freshly constructed engine with the same boxes, container and gap does: the same placement
list, or no defined result, or `std::invalid_argument` in both.  `stack_all_boxes` works
on local lists, `optimized_stack` on a new grid. -/
theorem Stack_state_independent
    (std_sort : StdSort)
    (e : StackingAlgorithm) (m : Int) (hm2 : m ≠ 2) (hm3 : m ≠ 3) :
    StackOutcome.sameResult (Stack std_sort e m)
      (Stack std_sort (new e.boxes e.pallet_size e.stacking_interval) m) := by
  unfold Stack
  split_ifs with h0 h1 h4
  · exact StackOutcome.sameResult_ofResult _ _ _
  · have hsame : stack_all_boxes (new e.boxes e.pallet_size e.stacking_interval) =
        stack_all_boxes e := rfl
    rw [hsame]
    exact StackOutcome.sameResult_ofResult _ _ _
  · unfold optimized_stack
    have hp : (new e.boxes e.pallet_size e.stacking_interval).pallet_size = e.pallet_size :=
      rfl
    have hin : sorted_boxes_input (new e.boxes e.pallet_size e.stacking_interval) =
        sorted_boxes_input e := rfl
    have hstep : optimized_step (new e.boxes e.pallet_size e.stacking_interval) =
        optimized_step e := rfl
    rw [hp, hin, hstep]
    cases BoxPlacement.new e.pallet_size with
    | none => simp [StackOutcome.ofRun, StackOutcome.sameResult]
    | some g0 =>
      dsimp only
      cases (std_sort sort_comp (sorted_boxes_input e)).foldlM (optimized_step e) (g0, []) with
      | none => simp [StackOutcome.ofRun, StackOutcome.sameResult]
      | some st => simp [StackOutcome.ofRun, StackOutcome.sameResult]
  · simp [StackOutcome.sameResult]

/-- Witness for C23: an engine that has served a `Stack(BUFFER)` call returns, for
`Stack(PALLET_STACK_ALL)`, what a fresh engine returns. -/
theorem Stack_state_independent_witness :
    StackOutcome.sameResult
      (Stack stable_sort
        (StackOutcome.engineAfter (new [⟨"A", "[5,5,5]"⟩] (20, 10, 10) 5)
          (Stack stable_sort (new [⟨"A", "[5,5,5]"⟩] (20, 10, 10) 5) 2)) 1)
      (Stack stable_sort (new [⟨"A", "[5,5,5]"⟩] (20, 10, 10) 5) 1) :=
  Stack_state_independent stable_sort
    (StackOutcome.engineAfter (new [⟨"A", "[5,5,5]"⟩] (20, 10, 10) 5)
      (Stack stable_sort (new [⟨"A", "[5,5,5]"⟩] (20, 10, 10) 5) 2)) 1
    (by decide) (by decide)

end StackingAlgorithm

/-! ## `parseBoxSize` on a well-formed triple -/

theorem digitChar_spec : ∀ k : Nat, k < 10 →
    (Nat.digitChar k).isDigit = true ∧ (Nat.digitChar k).toNat - 48 = k := by
  decide

theorem isDigit_not_special (c : Char) (h : c.isDigit = true) :
    c ≠ '[' ∧ c ≠ ']' ∧ c ≠ ',' ∧ c ≠ '-' ∧ c ≠ '+' ∧ isSpaceChar c = false := by
  refine ⟨?_, ?_, ?_, ?_, ?_, ?_⟩
  · rintro rfl; exact absurd h (by decide)
  · rintro rfl; exact absurd h (by decide)
  · rintro rfl; exact absurd h (by decide)
  · rintro rfl; exact absurd h (by decide)
  · rintro rfl; exact absurd h (by decide)
  · unfold isSpaceChar
    simp only [Bool.or_eq_false_iff, beq_eq_false_iff_ne, ne_eq]
    refine ⟨⟨⟨⟨⟨?_, ?_⟩, ?_⟩, ?_⟩, ?_⟩, ?_⟩ <;>
      (rintro rfl; exact absurd h (by decide))

theorem digitsValue_append (ds : List Char) (c : Char) :
    digitsValue (ds ++ [c]) = 10 * digitsValue ds + (c.toNat - 48) := by
  simp [digitsValue, List.foldl_append]

/-- The decimal digits of `n`: a non-empty run of digit characters whose value is `n`. -/
theorem toDigitsCore_spec : ∀ (fuel n : Nat) (ds : List Char), n < fuel →
    ∃ pre : List Char, Nat.toDigitsCore 10 fuel n ds = pre ++ ds ∧ pre ≠ [] ∧
      (∀ c ∈ pre, c.isDigit = true) ∧ digitsValue pre = n := by
  intro fuel
  induction fuel with
  | zero => intro n ds h; omega
  | succ f ih =>
    intro n ds hn
    have hd := digitChar_spec (n % 10) (Nat.mod_lt _ (by decide))
    simp only [Nat.toDigitsCore]
    split_ifs with h0
    · refine ⟨[Nat.digitChar (n % 10)], rfl, by simp, by simpa using hd.1, ?_⟩
      have hmod : n % 10 = n := by omega
      have h2 := hd.2
      rw [hmod] at h2
      simp [digitsValue, hmod, h2]
    · obtain ⟨pre, hpre, -, hdig, hval⟩ :=
        ih (n / 10) (Nat.digitChar (n % 10) :: ds) (by omega)
      refine ⟨pre ++ [Nat.digitChar (n % 10)], by simp [hpre], by simp, ?_, ?_⟩
      · intro c hc
        rcases List.mem_append.1 hc with hc | hc
        · exact hdig c hc
        · simp only [List.mem_singleton] at hc
          exact hc ▸ hd.1
      · rw [digitsValue_append, hval, hd.2]
        omega

theorem toDigits_spec (n : Nat) :
    Nat.toDigits 10 n ≠ [] ∧ (∀ c ∈ Nat.toDigits 10 n, c.isDigit = true) ∧
      digitsValue (Nat.toDigits 10 n) = n := by
  obtain ⟨pre, hpre, hne, hdig, hval⟩ := toDigitsCore_spec (n + 1) n [] (Nat.lt_succ_self n)
  have : Nat.toDigits 10 n = pre := by simpa [Nat.toDigits] using hpre
  rw [this]
  exact ⟨hne, hdig, hval⟩

/-- The function `std::stoi` on a non-empty run of digits within the `int` range. -/
theorem stoi_digits (ds : List Char) (hne : ds ≠ []) (hdig : ∀ c ∈ ds, c.isDigit = true)
    (hrange : digitsValue ds ≤ 2147483647) : stoi ds = some (digitsValue ds : Int) := by
  obtain ⟨c, t, rfl⟩ := List.exists_cons_of_ne_nil hne
  have hc := hdig c (List.mem_cons_self _ _)
  obtain ⟨-, -, -, hminus, hplus, hspace⟩ := isDigit_not_special c hc
  have hdrop : (c :: t).dropWhile isSpaceChar = c :: t := by
    simp [List.dropWhile, hspace]
  have htake : (c :: t).takeWhile Char.isDigit = c :: t := by
    rw [List.takeWhile_eq_self_iff]
    exact hdig
  unfold stoi
  dsimp only
  generalize hs : List.dropWhile isSpaceChar (c :: t) = s
  rw [hdrop] at hs
  subst hs
  have hkey : ∀ p : Bool × List Char, p = (false, c :: t) →
      (if (List.takeWhile Char.isDigit p.2).isEmpty = true then none
        else
          if (if p.1 = true then -((digitsValue (List.takeWhile Char.isDigit p.2) : Nat) : Int)
                else ((digitsValue (List.takeWhile Char.isDigit p.2) : Nat) : Int)) <
                -2147483648 ∨
              2147483647 <
                (if p.1 = true then
                  -((digitsValue (List.takeWhile Char.isDigit p.2) : Nat) : Int)
                else ((digitsValue (List.takeWhile Char.isDigit p.2) : Nat) : Int)) then none
          else some (if p.1 = true then
              -((digitsValue (List.takeWhile Char.isDigit p.2) : Nat) : Int)
            else ((digitsValue (List.takeWhile Char.isDigit p.2) : Nat) : Int))) =
        some ((digitsValue (c :: t) : Nat) : Int) := by
    intro p hp
    subst hp
    simp only [htake, List.isEmpty_cons, Bool.false_eq_true, if_false]
    rw [if_neg]
    omega
  apply hkey
  split
  · rename_i heq
    simp only [List.cons.injEq] at heq
    exact absurd heq.1 hminus
  · rename_i heq
    simp only [List.cons.injEq] at heq
    exact absurd heq.1 hplus
  · rfl

theorem getlineItems_last : ∀ (ds acc : List Char), (∀ c ∈ ds, c ≠ ',') →
    acc.reverse ++ ds ≠ [] → getlineItems acc ds = [acc.reverse ++ ds] := by
  intro ds
  induction ds with
  | nil =>
    intro acc _ hne
    have : acc ≠ [] := by simpa using hne
    simp [getlineItems, this]
  | cons c t ih =>
    intro acc hno _
    have hc : c ≠ ',' := hno c (List.mem_cons_self _ _)
    simp only [getlineItems, if_neg hc]
    rw [ih (c :: acc) (fun d hd => hno d (List.mem_cons_of_mem _ hd)) (by simp)]
    simp

theorem getlineItems_item : ∀ (ds acc rest : List Char), (∀ c ∈ ds, c ≠ ',') →
    getlineItems acc (ds ++ ',' :: rest) = (acc.reverse ++ ds) :: getlineItems [] rest := by
  intro ds
  induction ds with
  | nil =>
    intro acc rest _
    simp [getlineItems]
  | cons c t ih =>
    intro acc rest hno
    have hc : c ≠ ',' := hno c (List.mem_cons_self _ _)
    simp only [List.cons_append, getlineItems, if_neg hc]
    refine (ih (c :: acc) rest (fun d hd => hno d (List.mem_cons_of_mem _ hd))).trans ?_
    simp

/-- C22: for non-negative integers `w, l, h` within the `int` range, `parseBoxSize` on the
string `"[w,l,h]"` (decimal digits, commas, square brackets, no spaces) returns exactly
`[w, l, h]`. -/
theorem parseBoxSize_triple (w l h : Nat) (hw : w ≤ 2147483647) (hl : l ≤ 2147483647)
    (hh : h ≤ 2147483647) :
    parseBoxSize (sizeString w l h) = [(w : Int), (l : Int), (h : Int)] := by
  obtain ⟨hwne, hwd, hwv⟩ := toDigits_spec w
  obtain ⟨hlne, hld, hlv⟩ := toDigits_spec l
  obtain ⟨hhne, hhd, hhv⟩ := toDigits_spec h
  have hkeep : ∀ n : Nat, (Nat.toDigits 10 n).filter (fun c => c != '[' && c != ']') =
      Nat.toDigits 10 n := by
    intro n
    rw [List.filter_eq_self]
    intro c hc
    obtain ⟨h1, h2, -⟩ := isDigit_not_special c ((toDigits_spec n).2.1 c hc)
    simp [h1, h2]
  have hcomma : ∀ n : Nat, ∀ c ∈ Nat.toDigits 10 n, c ≠ ',' := fun n c hc =>
    (isDigit_not_special c ((toDigits_spec n).2.1 c hc)).2.2.1
  have hlist : (sizeString w l h).toList =
      '[' :: (Nat.toDigits 10 w ++ ',' :: (Nat.toDigits 10 l ++ ',' ::
        (Nat.toDigits 10 h ++ [']']))) := by
    simp [sizeString, Nat.repr, String.toList, List.asString]
  have hclean : (sizeString w l h).toList.filter (fun c => c != '[' && c != ']') =
      Nat.toDigits 10 w ++ ',' :: (Nat.toDigits 10 l ++ ',' :: Nat.toDigits 10 h) := by
    rw [hlist]
    simp [List.filter_cons, List.filter_append, hkeep]
  unfold parseBoxSize
  simp only [hclean]
  rw [getlineItems_item _ _ _ (hcomma w), getlineItems_item _ _ _ (hcomma l),
    getlineItems_last _ _ (hcomma h) (by simpa using hhne)]
  simp only [List.reverse_nil, List.nil_append, List.filterMap_cons, List.filterMap_nil]
  rw [stoi_digits _ hwne hwd (by omega), stoi_digits _ hlne hld (by omega),
    stoi_digits _ hhne hhd (by omega), hwv, hlv, hhv]

/-- Witness for C22: the string `"[10,50,10]"`. -/
theorem parseBoxSize_triple_witness :
    sizeString 10 50 10 = "[10,50,10]" ∧ parseBoxSize (sizeString 10 50 10) = [10, 50, 10] :=
  ⟨by decide, parseBoxSize_triple 10 50 10 (by decide) (by decide) (by decide)⟩

/-! ## Separation of the boxes of one run -/

/-- When `is_overlap` returns false, every entry of the list is separated from the
candidate on some axis. -/
theorem is_overlap_false {bx b_y bz bw bl bh : Int} {placements : List Placement}
    (h : is_overlap (bx, b_y, bz, bw, bl, bh) placements = false) :
    ∀ p ∈ placements, bx + bw ≤ p.1 ∨ p.1 + p.2.2.2.1 ≤ bx ∨
      b_y + bl ≤ p.2.1 ∨ p.2.1 + p.2.2.2.2.1 ≤ b_y ∨
      bz + bh ≤ p.2.2.1 ∨ p.2.2.1 + p.2.2.2.2.2 ≤ bz := by
  induction placements with
  | nil => intro p hp; simp at hp
  | cons q rest ih =>
    obtain ⟨px, py, pz, pw, pl, ph⟩ := q
    simp only [is_overlap] at h
    split_ifs at h with hc
    simp only [Bool.not_eq_true', Bool.or_eq_false_iff, decide_eq_false_iff_not, not_and,
      not_not] at hc
    intro p hp
    rcases List.mem_cons.1 hp with rfl | hp
    · dsimp only
      by_contra hcon
      have := hc (by omega)
      omega
    · exact ih h p hp

theorem unpaddedBox_resultAt {boxes : List Box} {box : Box} {w l h : Int} {rest : List Int}
    (hids : (boxes.map fun b => b.box_id).Nodup) (hbox : box ∈ boxes)
    (hsize : parseBoxSize box.box_size = w :: l :: h :: rest) (x y z pid : Int) :
    unpaddedBox boxes (StackingAlgorithm.resultAt box.box_id x y z w l pid) =
      (x, y, z, w, l, h) := by
  unfold unpaddedBox StackingAlgorithm.resultAt
  dsimp only
  rw [StackingAlgorithm.find?_of_nodup boxes box hids hbox]
  simp only [hsize, add_sub_cancel_right]

namespace StackingAlgorithm

/-- Invariant of the loop of `stack_all_boxes` over distinct ids: `placements` holds the
padded boxes of the result records, in order, and the boxes are pairwise separated. -/
theorem stack_all_step_separated {e : StackingAlgorithm} {boxes : List Box}
    (hgap : 0 < e.stacking_interval) (hids : (boxes.map fun b => b.box_id).Nodup)
    {st st1 : List Placement × List StackResult} {box : Box} (hbox : box ∈ boxes)
    (hinv : st.1 = st.2.map (fun r => pad e.stacking_interval (unpaddedBox boxes r)) ∧
      (st.2.map (unpaddedBox boxes)).Pairwise separated)
    (h : stack_all_step e st box = some st1) :
    st1.1 = st1.2.map (fun r => pad e.stacking_interval (unpaddedBox boxes r)) ∧
      (st1.2.map (unpaddedBox boxes)).Pairwise separated := by
  obtain ⟨hpl, hpw⟩ := hinv
  have hadd : ∀ (x y z w l hh : Int) (rest : List Int),
      parseBoxSize box.box_size = w :: l :: hh :: rest →
      is_overlap (x, y, z, w, l, hh) st.1 = false →
      (st.1 ++ [padded e.stacking_interval x y z w l hh] =
          (st.2 ++ [resultAt box.box_id x y z w l 1]).map
            (fun r => pad e.stacking_interval (unpaddedBox boxes r))) ∧
        ((st.2 ++ [resultAt box.box_id x y z w l 1]).map (unpaddedBox boxes)).Pairwise
          separated := by
    intro x y z w l hh rest hsize hfree
    have hub := unpaddedBox_resultAt hids hbox hsize x y z 1
    refine ⟨?_, ?_⟩
    · rw [List.map_append, ← hpl, List.map_singleton, hub]
      rfl
    · rw [List.map_append, List.map_singleton, hub, List.pairwise_append]
      refine ⟨hpw, List.pairwise_singleton _ _, ?_⟩
      intro a ha b hb
      simp only [List.mem_singleton] at hb
      subst hb
      obtain ⟨r, hr, rfl⟩ := List.mem_map.1 ha
      have hmem : pad e.stacking_interval (unpaddedBox boxes r) ∈ st.1 := by
        rw [hpl]
        exact List.mem_map_of_mem _ hr
      have hsep := is_overlap_false hfree _ hmem
      unfold pad at hsep
      unfold separated
      dsimp only at hsep ⊢
      omega
  unfold stack_all_step at h
  split at h
  · rename_i w l hh rest hsize
    split at h
    · simp at h
    · rename_i x y z hprim
      simp only [Option.some.injEq] at h
      subst h
      obtain ⟨x1, y1, z1, -, -, -, hb⟩ := scan3_accepts hprim
      have hfree : is_overlap (x, y, z, w, l, hh) st.1 = false := by
        cases hov : is_overlap (x1, y1, z1, w, l, hh) st.1 with
        | true => simp [hov] at hb
        | false =>
          simp only [hov, Bool.not_false, if_true, Option.some.injEq, Prod.mk.injEq] at hb
          obtain ⟨rfl, rfl, rfl⟩ := hb
          exact hov
      exact hadd x y z w l hh rest hsize hfree
    · split at h
      · simp at h
      · rename_i z hfall
        simp only [Option.some.injEq] at h
        subst h
        obtain ⟨k, -, hb, -⟩ := scan_found hfall
        have hfree : is_overlap (0, 0, z, w, l, hh) st.1 = false := by
          cases hov : is_overlap (0, 0, (k : Int) * e.stacking_interval, w, l, hh) st.1 with
          | true => simp [hov] at hb
          | false =>
            simp only [hov, Bool.not_false, if_true, Option.some.injEq] at hb
            subst hb
            exact hov
        exact hadd 0 0 z w l hh rest hsize hfree
      · simp only [Option.some.injEq] at h
        subst h
        exact ⟨hpl, hpw⟩
  · simp only [Option.some.injEq] at h
    subst h
    exact ⟨hpl, hpw⟩

/-- C26: with a positive gap and distinct box ids, Greedy-Fill-All completes, and any two
placements it returns (by the primary scan or by the fallback) stand for boxes
`[corner, corner + (w, l, h))` that are separated on at least one axis, so they do not
intersect. -/
theorem greedy_boxes_disjoint (boxes : List Box) (pallet_size : Int × Int × Int)
    (gap : Int) (hgap : 0 < gap) (hids : (boxes.map fun b => b.box_id).Nodup) :
    ∃ res : List StackResult,
      stack_all_boxes (new boxes pallet_size gap) = some res ∧
      res.Pairwise (fun r1 r2 => separated (unpaddedBox boxes r1) (unpaddedBox boxes r2)) := by
  cases hrun : stack_all_run (new boxes pallet_size gap) with
  | none =>
    exact absurd hrun (foldlM_defined _ _ _ fun t a _ => stack_all_step_defined _ hgap t a)
  | some st =>
    refine ⟨st.2, by simp [stack_all_boxes, hrun], ?_⟩
    have hinv := foldlM_inv
      (fun s : List Placement × List StackResult =>
        s.1 = s.2.map (fun r => pad gap (unpaddedBox boxes r)) ∧
          (s.2.map (unpaddedBox boxes)).Pairwise separated)
      (stack_all_step (new boxes pallet_size gap)) boxes ([], []) st
      (fun _ _ _ ha hP hf =>
        stack_all_step_separated (e := new boxes pallet_size gap) hgap hids ha hP hf)
      ⟨rfl, List.Pairwise.nil⟩ hrun
    exact List.pairwise_map.1 hinv.2

/-- Witness for C26: the three boxes `(40,40,40)`, `(60,40,40)`, `(50,45,40)` in a
`100×100×100` container with gap 5, where the third box touches the second. -/
theorem greedy_boxes_disjoint_witness :
    ∃ res : List StackResult,
      stack_all_boxes (new [⟨"A", "[40,40,40]"⟩, ⟨"B", "[60,40,40]"⟩, ⟨"D", "[50,45,40]"⟩]
        (100, 100, 100) 5) = some res ∧
      res.Pairwise (fun r1 r2 =>
        separated
          (unpaddedBox [⟨"A", "[40,40,40]"⟩, ⟨"B", "[60,40,40]"⟩, ⟨"D", "[50,45,40]"⟩] r1)
          (unpaddedBox [⟨"A", "[40,40,40]"⟩, ⟨"B", "[60,40,40]"⟩, ⟨"D", "[50,45,40]"⟩] r2)) :=
  greedy_boxes_disjoint [⟨"A", "[40,40,40]"⟩, ⟨"B", "[60,40,40]"⟩, ⟨"D", "[50,45,40]"⟩]
    (100, 100, 100) 5 (by decide) (by decide)

/-! ## Buffer-Only -/

/-- When the lambda `is_position_occupied` returns false, the candidate footprint is
separated from the footprint of every entry on the `x` axis or on the `y` axis. -/
theorem is_position_occupied_false {x y width length : Int} {placements : List Placement}
    (h : is_position_occupied x y width length placements = false) :
    ∀ p ∈ placements, x + width ≤ p.1 ∨ p.1 + p.2.2.2.1 ≤ x ∨
      y + length ≤ p.2.1 ∨ p.2.1 + p.2.2.2.2.1 ≤ y := by
  induction placements with
  | nil => intro p hp; simp at hp
  | cons q rest ih =>
    obtain ⟨px, py, pz, pw, pl, ph⟩ := q
    simp only [is_position_occupied] at h
    split_ifs at h with hc
    simp only [Bool.not_eq_true', Bool.or_eq_false_iff, decide_eq_false_iff_not, not_and,
      not_not] at hc
    intro p hp
    rcases List.mem_cons.1 hp with rfl | hp
    · dsimp only
      by_contra hcon
      have := hc (by omega)
      omega
    · exact ih h p hp

/-- One iteration of the loop of `stack_buffer` over distinct ids, with a positive gap: it
has a defined result, `buffer_placements` holds the padded boxes of the records returned
so far, every record lies at `z = 0`, and the footprints are pairwise at least the gap
apart on `x` or on `y`. -/
theorem stack_buffer_step_apart {boxes : List Box} {gap : Int} (hgap : 0 < gap)
    (hids : (boxes.map fun b => b.box_id).Nodup)
    (st : StackingAlgorithm × List StackResult) (box : Box) (hbox : box ∈ boxes)
    (hinv : st.1.stacking_interval = gap ∧
      st.1.buffer_placements = st.2.map (fun r => pad gap (unpaddedBox boxes r)) ∧
      (∀ r ∈ st.2, r.box_loc.2.2 = 0 ∧ r.pallet_id = 1) ∧
      (st.2.map (unpaddedBox boxes)).Pairwise (footprintsApart gap)) :
    ∃ st1, stack_buffer_step st box = some st1 ∧
      st1.1.stacking_interval = gap ∧
      st1.1.buffer_placements = st1.2.map (fun r => pad gap (unpaddedBox boxes r)) ∧
      (∀ r ∈ st1.2, r.box_loc.2.2 = 0 ∧ r.pallet_id = 1) ∧
      (st1.2.map (unpaddedBox boxes)).Pairwise (footprintsApart gap) := by
  obtain ⟨hg, hpl, hz, hpw⟩ := hinv
  unfold stack_buffer_step
  split
  · rename_i w l hh rest hsize
    split
    · rename_i hnone
      exact absurd hnone (scan_defined _ (hg ▸ hgap) fun y =>
        scan_defined _ (hg ▸ hgap) fun x => by simp)
    · rename_i x y hscan
      obtain ⟨j, -, hj, -⟩ := scan_found hscan
      obtain ⟨i, -, hi, -⟩ := scan_found hj
      have hfree : is_position_occupied x y (w + gap) (l + gap) st.1.buffer_placements =
          false := by
        rw [hg] at hi
        cases hov : is_position_occupied ((i : Int) * gap) ((j : Int) * gap) (w + gap)
            (l + gap) st.1.buffer_placements with
        | true => simp [hov] at hi
        | false =>
          simp only [hov, Bool.not_false, if_true, Option.some.injEq, Prod.mk.injEq] at hi
          obtain ⟨rfl, rfl⟩ := hi
          exact hov
      have hub := unpaddedBox_resultAt hids hbox hsize x y 0 1
      refine ⟨_, rfl, hg, ?_, ?_, ?_⟩
      · dsimp only
        rw [List.map_append, ← hpl, List.map_singleton, hub, hg]
        rfl
      · intro r hr
        rcases List.mem_append.1 hr with hr | hr
        · exact hz r hr
        · simp only [List.mem_singleton] at hr
          subst hr
          exact ⟨rfl, rfl⟩
      · dsimp only
        rw [List.map_append, List.map_singleton, hub, List.pairwise_append]
        refine ⟨hpw, List.pairwise_singleton _ _, ?_⟩
        intro a ha b hb
        simp only [List.mem_singleton] at hb
        subst hb
        obtain ⟨r, hr, rfl⟩ := List.mem_map.1 ha
        have hmem : pad gap (unpaddedBox boxes r) ∈ st.1.buffer_placements := by
          rw [hpl]
          exact List.mem_map_of_mem _ hr
        have hsep := is_position_occupied_false hfree _ hmem
        unfold pad at hsep
        unfold footprintsApart
        dsimp only at hsep ⊢
        omega
    · exact ⟨st, rfl, hg, hpl, hz, hpw⟩
  · exact ⟨st, rfl, hg, hpl, hz, hpw⟩

/-- C30: with a positive gap and distinct box ids, Buffer-Only on a fresh engine
completes; every placement it returns lies at `z = 0`, and any two of them stand for boxes
whose footprints are at least the gap apart on the `x` axis or on the `y` axis, that is,
the padded footprints `[x, x + w + gap) × [y, y + l + gap)` do not intersect. -/
theorem buffer_only_footprints_apart (boxes : List Box) (pallet_size : Int × Int × Int)
    (gap : Int) (hgap : 0 < gap) (hids : (boxes.map fun b => b.box_id).Nodup) :
    ∃ (res : List StackResult) (e1 : StackingAlgorithm),
      stack_buffer (new boxes pallet_size gap) = some (res, e1) ∧
      (∀ r ∈ res, r.box_loc.2.2 = 0) ∧
      res.Pairwise (fun r1 r2 =>
        footprintsApart gap (unpaddedBox boxes r1) (unpaddedBox boxes r2)) := by
  obtain ⟨st, hrun, -, -, hz, hpw⟩ := foldlM_prefix_inv stack_buffer_step
    (fun _ (s : StackingAlgorithm × List StackResult) => s.1.stacking_interval = gap ∧
      s.1.buffer_placements = s.2.map (fun r => pad gap (unpaddedBox boxes r)) ∧
      (∀ r ∈ s.2, r.box_loc.2.2 = 0 ∧ r.pallet_id = 1) ∧
      (s.2.map (unpaddedBox boxes)).Pairwise (footprintsApart gap))
    boxes (fun _ a s ha hs => stack_buffer_step_apart hgap hids s a ha hs) []
    (new boxes pallet_size gap, [])
    ⟨rfl, rfl, by intro r hr; simp at hr, List.Pairwise.nil⟩
  refine ⟨st.2, st.1, ?_, fun r hr => (hz r hr).1, List.pairwise_map.1 hpw⟩
  have hb : (new boxes pallet_size gap).boxes = boxes := rfl
  simp only [stack_buffer, hb, hrun, Option.map_some']

/-- Witness for C30: two boxes `(5,5,5)` in a `20×10×10` container with gap 5. -/
theorem buffer_only_footprints_apart_witness :
    ∃ (res : List StackResult) (e1 : StackingAlgorithm),
      stack_buffer (new [⟨"A", "[5,5,5]"⟩, ⟨"B", "[5,5,5]"⟩] (20, 10, 10) 5) =
        some (res, e1) ∧
      (∀ r ∈ res, r.box_loc.2.2 = 0) ∧
      res.Pairwise (fun r1 r2 =>
        footprintsApart 5 (unpaddedBox [⟨"A", "[5,5,5]"⟩, ⟨"B", "[5,5,5]"⟩] r1)
          (unpaddedBox [⟨"A", "[5,5,5]"⟩, ⟨"B", "[5,5,5]"⟩] r2)) :=
  buffer_only_footprints_apart [⟨"A", "[5,5,5]"⟩, ⟨"B", "[5,5,5]"⟩] (20, 10, 10) 5
    (by decide) (by decide)

/-! ## The buffer list and the buffer records -/

theorem getElem?_split {α : Type} : ∀ (l : List α) (i : Nat) (a : α), l[i]? = some a →
    l = l.take i ++ a :: l.drop (i + 1) ∧ l.eraseIdx i = l.take i ++ l.drop (i + 1) := by
  intro l
  induction l with
  | nil => intro i a h; simp at h
  | cons b t ih =>
    intro i a h
    cases i with
    | zero =>
      simp only [List.getElem?_cons_zero, Option.some.injEq] at h
      subst h
      simp
    | succ k =>
      simp only [List.getElem?_cons_succ] at h
      obtain ⟨h1, h2⟩ := ih k a h
      refine ⟨?_, ?_⟩
      · simp only [List.take_succ_cons, List.drop_succ_cons, List.cons_append]
        rw [← h1]
      · simp only [List.eraseIdx_cons_succ, List.take_succ_cons, List.drop_succ_cons,
          List.cons_append]
        rw [h2]

theorem try_place_in_buffer_mirror {boxes : List Box} {gap : Int}
    (hids : (boxes.map fun b => b.box_id).Nodup) {e e1 : StackingAlgorithm} {box : Box}
    {b : Bool} (hbox : box ∈ boxes) (hinv : MirrorInv boxes gap e)
    (h : try_place_in_buffer e box = some (b, e1)) : MirrorInv boxes gap e1 := by
  obtain ⟨hb, hg, hz, hpl⟩ := hinv
  unfold try_place_in_buffer at h
  split at h
  · rename_i s0 s1 s2 rest hsize
    split at h
    · simp at h
    · rename_i x y hscan
      simp only [Option.some.injEq, Prod.mk.injEq] at h
      obtain ⟨-, rfl⟩ := h
      have hub := unpaddedBox_resultAt hids hbox hsize x y 0 2
      refine ⟨hb, hg, ?_, ?_⟩
      · intro r hr h2
        rcases List.mem_append.1 hr with hr | hr
        · exact hz r hr h2
        · simp only [List.mem_singleton] at hr
          subst hr
          refine ⟨rfl, ?_⟩
          rw [List.find?_isSome]
          exact ⟨box, hbox, by simp [resultAt]⟩
      · dsimp only
        have hp2 : (resultAt box.box_id x y 0 s0 s1 2).pallet_id = 2 := rfl
        rw [List.filter_append, List.map_append, ← hpl]
        simp only [List.filter_cons, hp2, decide_True, if_true, List.filter_nil,
          List.map_cons, List.map_nil]
        unfold bufferEntry
        rw [hub, hg]
        rfl
    · simp only [Option.some.injEq, Prod.mk.injEq] at h
      obtain ⟨-, rfl⟩ := h
      exact ⟨hb, hg, hz, hpl⟩
  · simp only [Option.some.injEq, Prod.mk.injEq] at h
    obtain ⟨-, rfl⟩ := h
    exact ⟨hb, hg, hz, hpl⟩

theorem try_place_in_main_mirror {boxes : List Box} {gap : Int}
    {e e1 : StackingAlgorithm} {box : Box} {b : Bool} (hinv : MirrorInv boxes gap e)
    (h : try_place_in_main e box = some (b, e1)) : MirrorInv boxes gap e1 := by
  obtain ⟨hb, hg, hz, hpl⟩ := hinv
  unfold try_place_in_main at h
  split at h
  · rename_i s0 s1 s2 rest hsize
    split at h
    · simp at h
    · rename_i x y z hscan
      simp only [Option.some.injEq, Prod.mk.injEq] at h
      obtain ⟨-, rfl⟩ := h
      have hp1 : ¬ (resultAt box.box_id x y z s0 s1 1).pallet_id = 2 := by
        simp [resultAt]
      refine ⟨hb, hg, ?_, ?_⟩
      · intro r hr h2
        rcases List.mem_append.1 hr with hr | hr
        · exact hz r hr h2
        · simp only [List.mem_singleton] at hr
          subst hr
          exact absurd h2 hp1
      · dsimp only
        rw [List.filter_append]
        simp only [List.filter_cons, hp1, decide_False, Bool.false_eq_true, if_false,
          List.filter_nil, List.append_nil]
        exact hpl
    · simp only [Option.some.injEq, Prod.mk.injEq] at h
      obtain ⟨-, rfl⟩ := h
      exact ⟨hb, hg, hz, hpl⟩
  · simp only [Option.some.injEq, Prod.mk.injEq] at h
    obtain ⟨-, rfl⟩ := h
    exact ⟨hb, hg, hz, hpl⟩

theorem fill_step_mirror {boxes : List Box} {gap : Int}
    (hids : (boxes.map fun b => b.box_id).Nodup) {e e1 : StackingAlgorithm} {box : Box}
    (hbox : box ∈ boxes) (hinv : MirrorInv boxes gap e)
    (h : fill_step e box = some e1) : MirrorInv boxes gap e1 := by
  have hmain : ∀ e2 e3 : StackingAlgorithm, MirrorInv boxes gap e2 →
      (try_place_in_main e2 box).map Prod.snd = some e3 → MirrorInv boxes gap e3 := by
    intro e2 e3 hinv2 hm
    cases hm1 : try_place_in_main e2 box with
    | none => simp [hm1] at hm
    | some p =>
      obtain ⟨b, e4⟩ := p
      simp only [hm1, Option.map_some', Option.some.injEq] at hm
      subst hm
      exact try_place_in_main_mirror hinv2 hm1
  unfold fill_step at h
  split_ifs at h with hused hcount
  · simp only [Option.some.injEq] at h
    exact h ▸ hinv
  · split at h
    · simp at h
    · rename_i e2 hbuf
      simp only [Option.some.injEq] at h
      subst h
      exact try_place_in_buffer_mirror hids hbox hinv hbuf
    · rename_i e2 hbuf
      exact hmain _ _ (try_place_in_buffer_mirror hids hbox hinv hbuf) h
  · exact hmain _ _ hinv h

/-- The rebuild loop of `move_best_fit_from_buffer_to_main` appends, for every buffer
record, the padded box at the corner recovered from the anchor. -/
theorem rebuild_fold {e : StackingAlgorithm} : ∀ (l : List StackResult)
    (acc out : List Placement),
    (∀ r ∈ l, r.pallet_id = 2 →
      r.box_loc.2.2 = 0 ∧ (e.boxes.find? (fun b => b.box_id == r.box_id)).isSome = true) →
    l.foldlM (rebuild_step e) acc = some out →
    out = acc ++ (l.filter (fun r => decide (r.pallet_id = 2))).map
      (bufferEntry e.boxes e.stacking_interval) := by
  intro l
  induction l with
  | nil =>
    intro acc out _ h
    simp only [List.foldlM_nil, pure, Option.some.injEq] at h
    simp [h]
  | cons r t ih =>
    intro acc out hz h
    simp only [List.foldlM_cons, bind, Option.bind] at h
    cases hs : rebuild_step e acc r with
    | none => simp [hs] at h
    | some acc1 =>
      simp only [hs] at h
      have ht := ih acc1 out (fun q hq => hz q (List.mem_cons_of_mem _ hq)) h
      rw [ht]
      unfold rebuild_step at hs
      split_ifs at hs with hp
      · obtain ⟨hz0, hsome⟩ := hz r (List.mem_cons_self _ _) hp
        split at hs
        · rename_i box hfind
          split at hs
          · rename_i s0 s1 s2 rest hsize
            simp only [Option.some.injEq] at hs
            subst hs
            simp only [List.filter_cons, hp, decide_True, if_true, List.map_cons,
              List.append_assoc, List.singleton_append]
            congr 2
            unfold bufferEntry unpaddedBox
            simp only [hfind, hsize, hz0]
          · simp at hs
        · rename_i hfind
          rw [hfind] at hsome
          simp at hsome
      · simp only [Option.some.injEq] at hs
        subst hs
        simp only [List.filter_cons, hp, decide_False, Bool.false_eq_true, if_false]

/-- A successful promotion step keeps the invariant, and the rebuilt buffer list is the
previous one with exactly one entry removed. -/
theorem move_true_mirror {boxes : List Box} {gap : Int} {e e1 : StackingAlgorithm}
    (hinv : MirrorInv boxes gap e)
    (h : move_best_fit_from_buffer_to_main e = some (true, e1)) :
    MirrorInv boxes gap e1 ∧
      ∃ (pre : List Placement) (r : StackResult) (post : List Placement),
        r ∈ e.final_placements ∧ r.pallet_id = 2 ∧
        (∃ q ∈ e1.final_placements, q.pallet_id = 1 ∧ q.box_id = r.box_id) ∧
        e.buffer_placements = pre ++ bufferEntry boxes gap r :: post ∧
        e1.buffer_placements = pre ++ post := by
  obtain ⟨hb, hg, hz, hpl⟩ := hinv
  rcases move_effect h with ⟨hf, -⟩ |
    ⟨-, best, i, rebuilt, s0, s1, s2, rest, -, -, hidx, hreb, -, rfl⟩
  · exact absurd hf (by decide)
  · obtain ⟨a, ha, hpa⟩ := findIdx?_getElem? hidx
    simp only [Bool.and_eq_true, decide_eq_true_eq] at hpa
    obtain ⟨hsplit, herase⟩ := getElem?_split _ _ _ ha
    have hzer : ∀ r ∈ e.final_placements.eraseIdx i, r.pallet_id = 2 →
        r.box_loc.2.2 = 0 ∧ (e.boxes.find? (fun b => b.box_id == r.box_id)).isSome = true :=
      fun r hr h2 => hb ▸ hz r (List.mem_of_mem_eraseIdx hr) h2
    have hre := rebuild_fold _ _ _ hzer hreb
    rw [hb, hg, List.nil_append] at hre
    have hp1 : ¬ (resultAt best.best_box_id best.best_location.1 best.best_location.2.1
        best.best_location.2.2 s0 s1 1).pallet_id = 2 := by
      simp [resultAt]
    refine ⟨⟨hb, hg, ?_, ?_⟩, ?_⟩
    · intro r hr h2
      rcases List.mem_append.1 hr with hr | hr
      · exact hz r (List.mem_of_mem_eraseIdx hr) h2
      · simp only [List.mem_singleton] at hr
        subst hr
        exact absurd h2 hp1
    · dsimp only
      rw [List.filter_append]
      simp only [List.filter_cons, hp1, decide_False, Bool.false_eq_true, if_false,
        List.filter_nil, List.append_nil]
      exact hre
    · refine ⟨((e.final_placements.take i).filter (fun r => decide (r.pallet_id = 2))).map
          (bufferEntry boxes gap), a,
        ((e.final_placements.drop (i + 1)).filter (fun r => decide (r.pallet_id = 2))).map
          (bufferEntry boxes gap), (by rw [hsplit]; simp), hpa.1, ?_, ?_, ?_⟩
      · refine ⟨_, List.mem_append_right _ (List.mem_singleton_self _), rfl, ?_⟩
        have := hpa.2
        simp only [beq_iff_eq] at this
        exact this.symm
      · rw [hpl]
        nth_rewrite 1 [hsplit]
        simp only [List.filter_append, List.filter_cons, hpa.1, decide_True, if_true,
          List.map_append, List.map_cons]
      · dsimp only
        rw [hre, herase]
        simp only [List.filter_append, List.map_append]

theorem moves_mirror {boxes : List Box} {gap : Int} : ∀ (n : Nat)
    (e e1 : StackingAlgorithm), MirrorInv boxes gap e → moves n e = some e1 →
    MirrorInv boxes gap e1 := by
  intro n
  induction n with
  | zero =>
    intro e e1 hinv h
    simp only [moves, Option.some.injEq] at h
    exact h ▸ hinv
  | succ m ih =>
    intro e e1 hinv h
    simp only [moves] at h
    split at h
    · rename_i e2 hm
      exact ih e2 e1 (move_true_mirror hinv hm).1 h
    · simp at h

theorem mirror_of_inv {boxes : List Box} {gap : Int} {e : StackingAlgorithm}
    (hinv : MirrorInv boxes gap e) (hcap : withinCapacity e) : bufferMirrorsResults e := by
  obtain ⟨hb, hg, -, hpl⟩ := hinv
  refine ⟨by rw [hb, hg]; exact hpl, ?_⟩
  rw [hpl, List.length_map, ← hcap.1]
  rfl

/-- C28: in every state reached during a Buffer-Then-Promote run on a fresh engine with
distinct box ids (after each box of the fill phase and after each promotion step), the
buffer accepted list equals, entry by entry and in order, the list of padded boxes
`(corner_x, corner_y, 0, w + gap, l + gap, h + gap)` of the result records with
`pallet_id` 2, where the corner is `anchor - ceil(extent/2)`, and `buffer_count` is its
length; a successful promotion step rebuilds the buffer list to the previous list with
exactly one entry removed, the padded box of the record `r` that is promoted (a
`pallet_id` 1 record with the id of `r` is in the result set afterwards). -/
theorem buffer_list_mirrors_results (boxes : List Box) (pallet_size : Int × Int × Int)
    (gap : Int) (hids : (boxes.map fun b => b.box_id).Nodup) :
    (∀ (k : Nat) (e : StackingAlgorithm),
      (boxes.take k).foldlM fill_step (new boxes pallet_size gap) = some e →
        bufferMirrorsResults e) ∧
    (∀ (e1 : StackingAlgorithm) (n : Nat) (e : StackingAlgorithm),
      boxes.foldlM fill_step (new boxes pallet_size gap) = some e1 →
        moves n e1 = some e → bufferMirrorsResults e) ∧
    (∀ (e1 : StackingAlgorithm) (n : Nat) (e e2 : StackingAlgorithm),
      boxes.foldlM fill_step (new boxes pallet_size gap) = some e1 →
        moves n e1 = some e → move_best_fit_from_buffer_to_main e = some (true, e2) →
        ∃ (pre : List Placement) (r : StackResult) (post : List Placement),
          r ∈ e.final_placements ∧ r.pallet_id = 2 ∧
          (∃ q ∈ e2.final_placements, q.pallet_id = 1 ∧ q.box_id = r.box_id) ∧
          e.buffer_placements = pre ++ bufferEntry boxes gap r :: post ∧
          e2.buffer_placements = pre ++ post) := by
  have h0 : MirrorInv boxes gap (new boxes pallet_size gap) :=
    ⟨rfl, rfl, by intro r hr; simp [new] at hr, rfl⟩
  have hc0 : withinCapacity (new boxes pallet_size gap) := by
    unfold withinCapacity new buffered MAX_BUFFER_COUNT
    simp
  have hfill : ∀ (l : List Box) (e : StackingAlgorithm), (∀ a ∈ l, a ∈ boxes) →
      l.foldlM fill_step (new boxes pallet_size gap) = some e →
        MirrorInv boxes gap e ∧ withinCapacity e :=
    fun l e hsub h =>
      ⟨foldlM_inv (MirrorInv boxes gap) fill_step l _ e
          (fun _ _ _ ha hP hf => fill_step_mirror hids (hsub _ ha) hP hf) h0 h,
        foldlM_inv withinCapacity fill_step l _ e
          (fun _ _ _ _ hP hf => fill_step_capacity hP hf) hc0 h⟩
  refine ⟨?_, ?_, ?_⟩
  · intro k e h
    obtain ⟨h1, h2⟩ := hfill _ e (fun a ha => List.mem_of_mem_take ha) h
    exact mirror_of_inv h1 h2
  · intro e1 n e h1 h2
    obtain ⟨hm, hc⟩ := hfill _ e1 (fun a ha => ha) h1
    exact mirror_of_inv (moves_mirror n e1 e hm h2) (moves_capacity n e1 e hc h2)
  · intro e1 n e e2 h1 h2 h3
    obtain ⟨hm, -⟩ := hfill _ e1 (fun a ha => ha) h1
    exact (move_true_mirror (moves_mirror n e1 e hm h2) h3).2

/-- Witness for C28: after the fill phase for two boxes in a `20×10×10` container with
gap 5 both boxes are in the buffer, and the buffer list holds their two padded boxes. -/
theorem buffer_list_mirrors_results_witness : bufferMirrorsResults twoBuffered :=
  (buffer_list_mirrors_results [⟨"A", "[5,5,5]"⟩, ⟨"B", "[10,5,5]"⟩] (20, 10, 10) 5
    (by decide)).1 2 twoBuffered (by decide)

end StackingAlgorithm

end Palletizing
